import Mathlib

/-!
# DAB+ superframe filter (`dabplus_decoder.cpp`)

A shallow embedding of `SuperframeFilter`, `RSDecoder` and the configuration part of
`AACDecoder`, followed by the properties established about them.

Conventions of the embedding:

* a `uint8_t` is a `Fin 256`; a buffer is a `List Byte`; a pointer into a buffer is the
  buffer together with an offset, and every access is bounds checked: an access outside
  the buffer makes the operation yield `none` (the C++ behaviour is undefined there);
* `size_t` arithmetic is taken modulo `2 ^ 64`;
* the calls made by `Feed` (observer notifications, codec calls, `stderr` output, the
  Reed-Solomon pass and the sync check) are recorded, in order, as a list of `Event`s;
* what the source only uses but does not define is a field of `Env`: the two CRC engines
  `CalcCRC::CalcCRC_FIRE_CODE`, `CalcCRC::CalcCRC_CRC16_CCITT`, the library routine
  `decode_rs_char`, and the verdict of the AAC library on a frame;
* the codec behind `aac_dec`: its constructor is recorded as a call and taken to return
  normally; its `DecodeFrame` is recorded as a call and either returns or throws
  `std::runtime_error`, as the AAC library decides; the exception leaves `Feed` at once,
  and the operation then yields `none` as well.
-/

namespace Dablin

/-- One `uint8_t`. -/
abbrev Byte := Fin 256

/-- The field `SuperframeFormat` as filled by `CheckSync`: four flags and the 3-bit
surround configuration. -/
structure SuperframeFormat where
  dac_rate : Bool
  sbr_flag : Bool
  aac_channel_mode : Bool
  ps_flag : Bool
  mpeg_surround_config : Nat
deriving DecidableEq, Repr

/-- The messages written to `stderr`, with the values they print. -/
inductive LogMsg where
  | different_frame_len (len should : Nat)
  | frame_too_short (len : Nat)
  | not_divisible (len : Nat)
  | sync_started
  | sync_succeeded (frames : Nat)
  | au_crc_mismatch (i : Nat)
  | rs_statistics (total_corr_count : Int) (uncorr_errors : Bool)
deriving DecidableEq, Repr

/-- The codec instance held in `aac_dec`: the format it was constructed from and the
two-byte AudioSpecificConfig `asc` computed by the `AACDecoder` constructor. -/
structure AACDecoder where
  sf_format : SuperframeFormat
  asc : List Nat
deriving DecidableEq, Repr

/-- The calls made while `Feed` runs, in the order they are made: the two calls that
form a decode attempt and the calls leaving `SuperframeFilter`.
`RSDecode buf` is the call `rs_dec.DecodeSuperframe(sf, sf_len)` on the copy `buf` of the
raw window; `CheckSync ok` is the call `CheckSync()` with the value it returned;
`ProcessPAD xpad xpad_len fpad` carries the bytes the two pointers designate (`none` for
the `NULL` pointer). -/
inductive Event where
  | Log (m : LogMsg)
  | RSDecode (buf : List Byte)
  | CheckSync (ok : Bool)
  | FormatChange (text : String)
  | CodecDelete
  | CodecNew (dec : AACDecoder)
  | DecodeFrame (data : List Byte)
  | ProcessPAD (xpad_data : Option (List Byte)) (xpad_len : Nat) (fpad : List Byte)
deriving DecidableEq, Repr

/-- What `decode_rs_char` leaves behind: the packet after in-place correction, the
returned count (`-1` for an uncorrectable packet) and the content of `corr_pos`. -/
structure RSResult where
  rs_packet : List Byte
  corr_count : Int
  corr_pos : List Int

/-- The routines the source calls but does not define. -/
structure Env where
  /-- Stands for `CalcCRC::CalcCRC_FIRE_CODE.Calc`. -/
  CalcCRC_FIRE_CODE : List Byte → Nat
  /-- Stands for `CalcCRC::CalcCRC_CRC16_CCITT.Calc`. -/
  CalcCRC_CRC16_CCITT : List Byte → Nat
  /-- Stands for `decode_rs_char(rs_handle, rs_packet, corr_pos, 0)`. -/
  decode_rs_char : List Byte → RSResult
  /-- Stands for the AAC library inside `DecodeFrame(data, len)`: whether the body
  reaches one of its `throw std::runtime_error` statements (the library did not consume
  all bytes, or reported an error) instead of handing the audio to the observer. -/
  DecodeFrame_throws : List Byte → Bool

/-- Modelled from the spec: the constant `FPAD_LEN` comes from a header that is not part
of the source at hand; the spec names it as the length of the fixed trailing PAD field,
and the value 2 is the one the guard `pad_len >= 2` of `CheckForPAD` presupposes. -/
def FPAD_LEN : Nat := 2

/-- The members of `SuperframeFilter`. `au_start` is the `int` array indexed by
`0 .. num_aus`; `aac_dec` is `none` for the `NULL` pointer. -/
structure SuperframeFilter where
  aac_dec : Option AACDecoder
  frame_len : Nat
  frame_count : Nat
  sync_frames : Nat
  sf_raw : List Byte
  sf : List Byte
  sf_len : Nat
  sf_format_set : Bool
  sf_format_raw : Byte
  sf_format : SuperframeFormat
  num_aus : Nat
  au_start : Nat → Nat

/-- The pair returned by an operation of the filter: the calls it made and the state it
left, `none` when it did not return: an access fell outside a buffer, or `DecodeFrame`
threw. -/
abbrev Run := List Event × Option SuperframeFilter

/-- `memcpy(dst + off, src, n)`: defined when `n` bytes can be read from `src` and
written at `dst + off`. -/
def memcpy (dst : List Byte) (off : Nat) (src : List Byte) (n : Nat) : Option (List Byte) :=
  if n ≤ src.length ∧ off + n ≤ dst.length then
    some (dst.take off ++ src.take n ++ dst.drop (off + n))
  else none

/-- Reads `n` bytes at `buf + off`, as `CalcCRC::Calc(buf + off, n)` does. -/
def readBytes (buf : List Byte) (off n : Nat) : Option (List Byte) :=
  if off + n ≤ buf.length then some ((buf.drop off).take n) else none

/-! ## RSDecoder -/

namespace RSDecoder

/-- The inner loop `rs_packet[pos] = sf[pos * subch_index + i]` for `pos < 120`. -/
def readPacket (sf : List Byte) (subch_index i : Nat) : Option (List Byte) :=
  (List.range 120).mapM (fun pos => sf[pos * subch_index + i]?)

/-- The loop `for(j = 0; j < corr_count; j++)` over the indices `js`: a locator below
135 is skipped, any other one is written back to `sf[pos * subch_index + i]`. -/
def writeCorrections (r : RSResult) (subch_index i : Nat) :
    List Nat → List Byte → Option (List Byte)
  | [], sf => some sf
  | j :: js, sf =>
    match r.corr_pos[j]? with
    | none => none
    | some loc =>
      let pos : Int := loc - 135
      if pos < 0 then writeCorrections r subch_index i js sf
      else
        match r.rs_packet[pos.toNat]? with
        | none => none
        | some b =>
          if pos.toNat * subch_index + i < sf.length then
            writeCorrections r subch_index i js (sf.set (pos.toNat * subch_index + i) b)
          else none

/-- The locals of `DecodeSuperframe` that survive one packet. -/
structure Progress where
  sf : List Byte
  total_corr_count : Int
  uncorr_errors : Bool

/-- The loop `for(i = 0; i < subch_index; i++)` over the packet indices `is`. -/
def decodePackets (decode_rs_char : List Byte → RSResult) (subch_index : Nat) :
    List Nat → Progress → Option Progress
  | [], st => some st
  | i :: is, st =>
    match readPacket st.sf subch_index i with
    | none => none
    | some rs_packet =>
      let r := decode_rs_char rs_packet
      let total := if r.corr_count = -1 then st.total_corr_count
                   else st.total_corr_count + r.corr_count
      let uncorr := if r.corr_count = -1 then true else st.uncorr_errors
      match writeCorrections r subch_index i (List.range r.corr_count.toNat) st.sf with
      | none => none
      | some sf1 => decodePackets decode_rs_char subch_index is ⟨sf1, total, uncorr⟩

/-- `RSDecoder::DecodeSuperframe(sf, sf_len)`; the result carries the buffer and the two
statistics the function prints. -/
def DecodeSuperframe (decode_rs_char : List Byte → RSResult) (sf : List Byte)
    (sf_len : Nat) : Option Progress :=
  let subch_index := sf_len / 120
  decodePackets decode_rs_char subch_index (List.range subch_index) ⟨sf, 0, false⟩

end RSDecoder

/-- What `DecodeSuperframe` relies on from `decode_rs_char` (RS code with 10 roots and
255 symbols): a 120-byte packet stays a 120-byte packet, the count is `-1 .. 10`, the
array `corr_pos` has 10 entries and the reported locators are `0 .. 254`. -/
def RSContract (decode_rs_char : List Byte → RSResult) : Prop :=
  ∀ p : List Byte, p.length = 120 →
    (decode_rs_char p).rs_packet.length = 120 ∧
    -1 ≤ (decode_rs_char p).corr_count ∧ (decode_rs_char p).corr_count ≤ 10 ∧
    (decode_rs_char p).corr_pos.length = 10 ∧
    ∀ loc ∈ (decode_rs_char p).corr_pos.take (decode_rs_char p).corr_count.toNat,
      0 ≤ loc ∧ loc ≤ 254

/-! ## AACDecoder -/

namespace AACDecoder

/-- `AACDecoder::GetAACChannelConfiguration`. -/
def GetAACChannelConfiguration (sf_format : SuperframeFormat) : Nat :=
  match sf_format.mpeg_surround_config with
  | 1 => 6
  | 2 => 7
  | _ => if sf_format.aac_channel_mode then 2 else 1

/-- The constructor `AACDecoder::AACDecoder`: computes the two bytes of `asc`. -/
def new (sf_format : SuperframeFormat) : AACDecoder :=
  let core_sr_index : Nat :=
    if sf_format.dac_rate then (if sf_format.sbr_flag then 6 else 3)
    else (if sf_format.sbr_flag then 8 else 5)
  let core_ch_config := GetAACChannelConfiguration sf_format
  { sf_format := sf_format
    asc := [(0b00010 <<< 3 ||| core_sr_index >>> 1) % 256,
            ((core_sr_index &&& 0x01) <<< 7 ||| core_ch_config <<< 3 ||| 0b100) % 256] }

end AACDecoder

/-! ## SuperframeFilter -/

namespace SuperframeFilter

/-- The constructor `SuperframeFilter::SuperframeFilter`. The members it leaves
uninitialised (`sf_format`, `au_start`) are written by `CheckSync` before they are read;
they start at zero here. -/
def init : SuperframeFilter :=
  { aac_dec := none
    frame_len := 0
    frame_count := 0
    sync_frames := 0
    sf_raw := []
    sf := []
    sf_len := 0
    sf_format_set := false
    sf_format_raw := 0
    sf_format := ⟨false, false, false, false, 0⟩
    num_aus := 0
    au_start := fun _ => 0 }

/-- `SuperframeFilter::CheckForPAD(data, len)` with `len = data.length`: the calls made
to the observer. The pair computed first is the call of the `present` branch and the
flag `present`. -/
def CheckForPAD (data : List Byte) : List Event :=
  let found : List Event × Bool :=
    if h : 3 ≤ data.length then
      if data[0].val >>> 5 = 4 then
        let pad_start : Nat := if data[1].val = 255 then 3 else 2
        let pad_len : Nat := if data[1].val = 255 then data[1].val + data[2].val else data[1].val
        if 2 ≤ pad_len ∧ pad_start + pad_len ≤ data.length then
          ([Event.ProcessPAD (some ((data.drop pad_start).take (pad_len - FPAD_LEN)))
              (pad_len - FPAD_LEN)
              ((data.drop (pad_start + pad_len - FPAD_LEN)).take FPAD_LEN)], true)
        else ([], false)
      else ([], false)
    else ([], false)
  if found.2 then found.1
  else found.1 ++ [Event.ProcessPAD none 0 (List.replicate FPAD_LEN 0)]

/-- The five assignments `sf_format.x = sf[2] & mask`. -/
def parseFormat (sf2 : Byte) : SuperframeFormat :=
  { dac_rate := sf2.val &&& 0x40 ≠ 0
    sbr_flag := sf2.val &&& 0x20 ≠ 0
    aac_channel_mode := sf2.val &&& 0x10 ≠ 0
    ps_flag := sf2.val &&& 0x08 ≠ 0
    mpeg_surround_config := sf2.val &&& 0x07 }

/-- The value assigned to `num_aus`. -/
def numAUs (f : SuperframeFormat) : Nat :=
  if f.dac_rate then (if f.sbr_flag then 3 else 6) else (if f.sbr_flag then 2 else 4)

/-- The value assigned to `au_start[0]`. -/
def firstAUStart (f : SuperframeFormat) : Nat :=
  if f.dac_rate then (if f.sbr_flag then 6 else 11) else (if f.sbr_flag then 5 else 8)

/-- The assignments to `au_start` made by `CheckSync`, in the order of the source, from
the header bytes `sf3 .. sf10`. -/
def fillAUStart (au_start : Nat → Nat) (f : SuperframeFormat) (sf_len : Nat)
    (sf3 sf4 sf5 sf6 sf7 sf8 sf9 sf10 : Byte) : Nat → Nat :=
  let num_aus := numAUs f
  let a := Function.update au_start 0 (firstAUStart f)
  let a := Function.update a num_aus (sf_len / 120 * 110)
  let a := Function.update a 1 (sf3.val <<< 4 ||| sf4.val >>> 4)
  let a := if 3 ≤ num_aus then Function.update a 2 ((sf4.val &&& 0x0F) <<< 8 ||| sf5.val) else a
  let a := if 4 ≤ num_aus then Function.update a 3 (sf6.val <<< 4 ||| sf7.val >>> 4) else a
  if num_aus = 6 then
    Function.update (Function.update a 4 ((sf7.val &&& 0x0F) <<< 8 ||| sf8.val))
      5 (sf9.val <<< 4 ||| sf10.val >>> 4)
  else a

/-- The plausibility loop of `CheckSync`: no `i < num_aus` has
`au_start[i] >= au_start[i+1]`. -/
def offsetsIncreasing (au_start : Nat → Nat) (num_aus : Nat) : Bool :=
  (List.range num_aus).all (fun i => decide (au_start i < au_start (i + 1)))

/-- `SuperframeFilter::CheckSync`: the returned flag and the state with `sf_format`,
`num_aus` and `au_start` as the call leaves them. The bytes `sf[5] .. sf[10]` are read
by the fire-code computation over `sf + 2`, so the later conditional reads add no
further access. -/
def CheckSync (env : Env) (s : SuperframeFilter) : Option (Bool × SuperframeFilter) := do
  let sf3 ← s.sf[3]?
  let sf4 ← s.sf[4]?
  if sf3 = 0 ∧ sf4 = 0 then pure (false, s) else
  let sf0 ← s.sf[0]?
  let sf1 ← s.sf[1]?
  let crc_stored := (sf0.val <<< 8 ||| sf1.val) % 65536
  let header ← readBytes s.sf 2 9
  let crc_calced := env.CalcCRC_FIRE_CODE header % 65536
  if crc_stored ≠ crc_calced then pure (false, s) else
  let sf2 ← s.sf[2]?
  let sf5 ← s.sf[5]?
  let sf6 ← s.sf[6]?
  let sf7 ← s.sf[7]?
  let sf8 ← s.sf[8]?
  let sf9 ← s.sf[9]?
  let sf10 ← s.sf[10]?
  let f := parseFormat sf2
  let a := fillAUStart s.au_start f s.sf_len sf3 sf4 sf5 sf6 sf7 sf8 sf9 sf10
  let s1 := { s with sf_format := f, num_aus := numAUs f, au_start := a }
  pure (offsetsIncreasing a (numAUs f), s1)

/-- The text assembled by `ProcessFormat` in the string stream. -/
def formatText (f : SuperframeFormat) (sf_len : Nat) : String :=
  let mode : String :=
    match f.mpeg_surround_config with
    | 0 => if f.aac_channel_mode || f.ps_flag then "Stereo" else "Mono"
    | 1 => "Surround 5.1"
    | 2 => "Surround 7.1"
    | _ => "Surround (unknown)"
  let bitrate : Nat := sf_len / 120 * 8
  (if f.sbr_flag then (if f.ps_flag then "HE-AAC v2" else "HE-AAC") else "AAC-LC") ++ ", "
    ++ toString (if f.dac_rate then 48 else 32) ++ " kHz "
    ++ mode ++ " "
    ++ "@ " ++ toString bitrate ++ " kBit/s"

/-- `SuperframeFilter::ProcessFormat`: announces the format, deletes the codec held and
constructs the one for `sf_format` (one backend is compiled in). -/
def ProcessFormat (s : SuperframeFilter) : List Event × SuperframeFilter :=
  let dec := AACDecoder.new s.sf_format
  ([Event.FormatChange (formatText s.sf_format s.sf_len)]
      ++ (if s.aac_dec.isSome then [Event.CodecDelete] else [])
      ++ [Event.CodecNew dec],
   { s with aac_dec := some dec })

/-- One round of the loop "decode frames" of `Feed` for the index `i`: `none` when the
access unit has fewer than two bytes (`au_len - 2` wraps) or leaves the buffer; otherwise
the calls made and whether the round ran to its end, which it does not when `DecodeFrame`
throws: the exception leaves `Feed` before `CheckForPAD` is called. -/
def processAU (env : Env) (sf : List Byte) (au_start : Nat → Nat) (i : Nat) :
    Option (List Event × Bool) :=
  let au_len : Nat := (((au_start (i + 1) : Int) - (au_start i : Int)) % 2 ^ 64).toNat
  if au_len < 2 ∨ sf.length < au_start i + au_len then none
  else
    let au_data := (sf.drop (au_start i)).take au_len
    let au_crc_stored : Nat :=
      ((au_data.getD (au_len - 2) 0).val <<< 8 ||| (au_data.getD (au_len - 1) 0).val) % 65536
    let au_crc_calced : Nat := env.CalcCRC_CRC16_CCITT (au_data.take (au_len - 2)) % 65536
    if au_crc_stored ≠ au_crc_calced then some ([Event.Log (LogMsg.au_crc_mismatch i)], true)
    else if env.DecodeFrame_throws (au_data.take (au_len - 2)) = true then
      some ([Event.DecodeFrame (au_data.take (au_len - 2))], false)
    else
      some (Event.DecodeFrame (au_data.take (au_len - 2))
        :: CheckForPAD (au_data.take (au_len - 2)), true)

/-- The loop `for(int i = 0; i < num_aus; i++)` of `Feed` over the indices `is`: the
calls made, and whether the loop ran to its end: every round stayed inside the buffer
and no `DecodeFrame` threw. -/
def processAUs (env : Env) (sf : List Byte) (au_start : Nat → Nat) :
    List Nat → List Event × Bool
  | [] => ([], true)
  | i :: is =>
    match processAU env sf au_start i with
    | none => ([], false)
    | some r =>
      if r.2 = true then
        (r.1 ++ (processAUs env sf au_start is).1, (processAUs env sf au_start is).2)
      else (r.1, false)

/-- The part "shift previous frames" of `Feed`: four `memcpy` calls. -/
def shiftFrames (sf_raw : List Byte) (frame_len : Nat) : Option (List Byte) :=
  [0, 1, 2, 3].foldlM
    (fun buf i => memcpy buf (i * frame_len) (buf.drop ((i + 1) * frame_len)) frame_len) sf_raw

/-- The statistics line printed at the end of `DecodeSuperframe`, if any. -/
def rsStatistics (r : RSDecoder.Progress) : List Event :=
  if r.total_corr_count ≠ 0 ∨ r.uncorr_errors = true then
    [Event.Log (LogMsg.rs_statistics r.total_corr_count r.uncorr_errors)]
  else []

/-- The branch `if(!CheckSync())` of `Feed`: message on the first failure, counter
incremented, return. -/
def syncFailure (s : SuperframeFilter) : Run :=
  (if s.sync_frames = 0 then [Event.Log LogMsg.sync_started] else [],
   some { s with sync_frames := s.sync_frames + 1 })

/-- The part "check announced format" of `Feed`, `sf2` being `sf[2]`. -/
def formatCheck (s : SuperframeFilter) (sf2 : Byte) : List Event × SuperframeFilter :=
  if s.sf_format_set = false ∨ s.sf_format_raw ≠ sf2 then
    ProcessFormat { s with sf_format_raw := sf2, sf_format_set := true }
  else ([], s)

/-- The part of `Feed` after a successful `CheckSync`: end of a resync episode, format
check, the loop over the access units and the reset of `frame_count`. -/
def syncSuccess (env : Env) (s : SuperframeFilter) : Run :=
  let ev : List Event :=
    if s.sync_frames ≠ 0 then [Event.Log (LogMsg.sync_succeeded s.sync_frames)] else []
  let s1 := { s with sync_frames := 0 }
  match s1.sf[2]? with
  | none => (ev, none)
  | some sf2 =>
    let fmt := formatCheck s1 sf2
    let aus := processAUs env fmt.2.sf fmt.2.au_start (List.range fmt.2.num_aus)
    (ev ++ fmt.1 ++ aus.1, if aus.2 then some { fmt.2 with frame_count := 0 } else none)

/-- The part of `Feed` from "append RS coding on copy" to its end, run once five frames
are held. -/
def decodeAttempt (env : Env) (s : SuperframeFilter) : Run :=
  match memcpy s.sf 0 s.sf_raw s.sf_len with
  | none => ([], none)
  | some copy =>
    match RSDecoder.DecodeSuperframe env.decode_rs_char copy s.sf_len with
    | none => ([Event.RSDecode copy], none)
    | some r =>
      match CheckSync env { s with sf := r.sf } with
      | none => (Event.RSDecode copy :: rsStatistics r, none)
      | some (ok, s1) =>
        let rest := if ok then syncSuccess env s1 else syncFailure s1
        (Event.RSDecode copy :: rsStatistics r ++ Event.CheckSync ok :: rest.1, rest.2)

/-- The part of `Feed` after the length check: window update, then the decode attempt
once `frame_count` has reached 5. -/
def accumulate (env : Env) (s : SuperframeFilter) (data : List Byte) : Run :=
  let shifted : Option (List Byte × Nat) :=
    if s.frame_count = 5 then
      (shiftFrames s.sf_raw s.frame_len).map (fun buf => (buf, s.frame_count))
    else some (s.sf_raw, s.frame_count + 1)
  match shifted with
  | none => ([], none)
  | some (buf, frame_count) =>
    -- copy frame
    match memcpy buf ((frame_count - 1) * s.frame_len) data s.frame_len with
    | none => ([], none)
    | some sf_raw =>
      let s1 := { s with sf_raw := sf_raw, frame_count := frame_count }
      if frame_count < 5 then ([], some s1) else decodeAttempt env s1

/-- `SuperframeFilter::Feed(data, len)` with `len = data.length`. The buffers obtained
from `new` start zeroed. -/
def Feed (env : Env) (s : SuperframeFilter) (data : List Byte) : Run :=
  let len := data.length
  -- check frame len
  if s.frame_len ≠ 0 then
    if s.frame_len ≠ len then
      ([Event.Log (LogMsg.different_frame_len len s.frame_len)], some s)
    else accumulate env s data
  else if len < 10 then ([Event.Log (LogMsg.frame_too_short len)], some s)
  else if (5 * len) % 2 ^ 64 % 120 ≠ 0 then ([Event.Log (LogMsg.not_divisible len)], some s)
  else
    let sf_len := (5 * len) % 2 ^ 64
    accumulate env
      { s with frame_len := len, sf_len := sf_len,
               sf_raw := List.replicate sf_len 0, sf := List.replicate sf_len 0 } data

end SuperframeFilter

/-! ## Notions used to state the properties -/

/-- Recognises the call of `DecodeSuperframe`. -/
def Event.isRSDecode : Event → Bool
  | Event.RSDecode _ => true
  | _ => false

/-- Recognises the call of `CheckSync`. -/
def Event.isCheckSync : Event → Bool
  | Event.CheckSync _ => true
  | _ => false

/-- Recognises a codec call `DecodeFrame`. -/
def Event.isDecodeFrame : Event → Bool
  | Event.DecodeFrame _ => true
  | _ => false

/-- Recognises an observer call `ProcessPAD`. -/
def Event.isProcessPAD : Event → Bool
  | Event.ProcessPAD _ _ _ => true
  | _ => false

/-- Recognises the calls a failed sync check must not make: `FormatChange`, codec
replacement, `DecodeFrame` and `ProcessPAD`. -/
def Event.isOutput : Event → Bool
  | Event.FormatChange _ => true
  | Event.CodecDelete => true
  | Event.CodecNew _ => true
  | Event.DecodeFrame _ => true
  | Event.ProcessPAD _ _ _ => true
  | _ => false

/-- Feeds the frames `ds` one after the other, as a caller of `Feed` does; stops at the
first call that did not return. -/
def FeedAll (env : Env) : SuperframeFilter → List (List Byte) → Run
  | s, [] => ([], some s)
  | s, d :: ds =>
    match (SuperframeFilter.Feed env s d).2 with
    | none => ((SuperframeFilter.Feed env s d).1, none)
    | some s1 =>
      ((SuperframeFilter.Feed env s d).1 ++ (FeedAll env s1 ds).1, (FeedAll env s1 ds).2)

/-- The state of a filter whose frame length is established (without `size_t` overflow
of `5 * frame_len`): both buffers have `sf_len = 5 * frame_len` bytes, a positive
multiple of 120, and at most five frames are held. -/
def Sized (s : SuperframeFilter) : Prop :=
  10 ≤ s.frame_len ∧ s.sf_len = 5 * s.frame_len ∧ s.sf_len % 120 = 0 ∧
  s.sf_raw.length = s.sf_len ∧ s.sf.length = s.sf_len ∧ s.frame_count ≤ 5

instance (s : SuperframeFilter) : Decidable (Sized s) := by
  unfold Sized; infer_instance

/-- The window after one more frame of the right length: appended in the next free slot
below five frames, else the held frames moved down one slot and the frame put last. -/
def pushFrame (s : SuperframeFilter) (data : List Byte) : SuperframeFilter :=
  if s.frame_count = 5 then
    { s with sf_raw := s.sf_raw.drop s.frame_len ++ data }
  else
    { s with sf_raw := s.sf_raw.take (s.frame_count * s.frame_len) ++ data
                        ++ s.sf_raw.drop ((s.frame_count + 1) * s.frame_len)
             frame_count := s.frame_count + 1 }

/-- A Reed-Solomon routine that finds every packet free of errors. -/
def rsNoError (p : List Byte) : RSResult := ⟨p, 0, List.replicate 10 0⟩

/-- A sample environment: both CRC engines return 0, no packet has errors, the AAC
library takes every frame. -/
def env0 : Env := ⟨fun _ => 0, fun _ => 0, rsNoError, fun _ => false⟩

/-- The sample environment with an AAC library that refuses every frame, so that every
`DecodeFrame` call throws. -/
def envRefusing : Env := ⟨fun _ => 0, fun _ => 0, rsNoError, fun _ => true⟩

/-- A 24-byte frame of zeros. -/
def zeroFrame : List Byte := List.replicate 24 0

/-- A sample sized filter: frame length 24, one frame of zeros held. -/
def heldOne : SuperframeFilter :=
  { SuperframeFilter.init with
    frame_len := 24
    sf_len := 120
    sf_raw := List.replicate 120 0
    sf := List.replicate 120 0
    frame_count := 1 }

/-- A sample sized filter: frame length 24, four frames of zeros held. -/
def heldFour : SuperframeFilter :=
  { SuperframeFilter.init with
    frame_len := 24
    sf_len := 120
    sf_raw := List.replicate 120 0
    sf := List.replicate 120 0
    frame_count := 4 }

/-- The filter right after `Feed` has established the frame length `len` and obtained
its two buffers (`5 * len` below `2 ^ 64`). -/
def allocated (s : SuperframeFilter) (len : Nat) : SuperframeFilter :=
  { s with
    frame_len := len
    sf_len := 5 * len
    sf_raw := List.replicate (5 * len) 0
    sf := List.replicate (5 * len) 0 }

/-- The frames of a run that pass the length check, `frame_len` being the length
established before the run (0 for none): the first frame of at least 10 bytes whose
fivefold is a multiple of 120 establishes the length, later ones must have that length. -/
def acceptedFrames (frame_len : Nat) : List (List Byte) → List (List Byte)
  | [] => []
  | d :: ds =>
    if frame_len ≠ 0 then
      if d.length = frame_len then d :: acceptedFrames frame_len ds
      else acceptedFrames frame_len ds
    else if 10 ≤ d.length ∧ 5 * d.length % 120 = 0 then d :: acceptedFrames d.length ds
    else acceptedFrames 0 ds

/-- The `n` most recent entries of a history, oldest first. -/
def lastFrames (n : Nat) (h : List (List Byte)) : List (List Byte) :=
  h.drop (h.length - n)

/-- The raw window holds the `frame_count` most recently accepted frames of the history
`h`, in arrival order, in its first `frame_count` slots. -/
def Window (s : SuperframeFilter) (h : List (List Byte)) : Prop :=
  s.frame_count ≤ h.length ∧ (∀ f ∈ h, f.length = s.frame_len) ∧
  s.sf_raw.take (s.frame_count * s.frame_len) = (lastFrames s.frame_count h).flatten

/-- The filter state matches the history `h` of accepted frames: nothing held before a
frame length is established, a sized filter with the window of `h` afterwards. -/
def Tracked (s : SuperframeFilter) (h : List (List Byte)) : Prop :=
  (s.frame_len = 0 → s.frame_count = 0 ∧ h = []) ∧
  (s.frame_len ≠ 0 → Sized s ∧ Window s h)

/-- The stored fire code `sf[0] << 8 | sf[1]` equals the fire code computed over the nine
header bytes `sf[2 .. 10]`. -/
def fireCodeOK (env : Env) (sf : List Byte) : Bool :=
  decide (((sf.getD 0 0).val <<< 8 ||| (sf.getD 1 0).val) % 65536
    = env.CalcCRC_FIRE_CODE ((sf.drop 2).take 9) % 65536)

/-- The format announced by a superframe: `sf[2]` parsed. -/
def headerFormat (sf : List Byte) : SuperframeFormat :=
  SuperframeFilter.parseFormat (sf.getD 2 0)

/-- The offset table `au_start` as `CheckSync` fills it from the header of `sf`. -/
def headerTable (au_start : Nat → Nat) (sf : List Byte) (sf_len : Nat) : Nat → Nat :=
  SuperframeFilter.fillAUStart au_start (headerFormat sf) sf_len (sf.getD 3 0) (sf.getD 4 0)
    (sf.getD 5 0) (sf.getD 6 0) (sf.getD 7 0) (sf.getD 8 0) (sf.getD 9 0) (sf.getD 10 0)

/-- The state `CheckSync` leaves once the fire code has matched. -/
def syncedState (s : SuperframeFilter) : SuperframeFilter :=
  { s with
    sf_format := headerFormat s.sf
    num_aus := SuperframeFilter.numAUs (headerFormat s.sf)
    au_start := headerTable s.au_start s.sf s.sf_len }

/-- A sample superframe of 120 bytes that syncs under `env0`: fire code 0, format byte
`0x20` (two access units), second offset 50, a PAD element of length 10 at the start of
the first access unit, zeros elsewhere. -/
def sampleSuperframe : List Byte :=
  [0, 0, 0x20, 3, 0x20, 0x80, 10] ++ List.replicate 113 0

/-- A sample filter whose corrected buffer is `sampleSuperframe`. -/
def sampleChecked : SuperframeFilter :=
  { SuperframeFilter.init with
    frame_len := 24
    sf_len := 120
    sf_raw := sampleSuperframe
    sf := sampleSuperframe
    frame_count := 5 }

/-- The payloads handed to the codec by `DecodeFrame`, in call order. -/
def decodedFrames : List Event → List (List Byte)
  | [] => []
  | Event.DecodeFrame d :: es => d :: decodedFrames es
  | _ :: es => decodedFrames es

/-- The access unit `i` of a superframe: the bytes `[au_start[i], au_start[i+1])`. -/
def auBytes (sf : List Byte) (au_start : Nat → Nat) (i : Nat) : List Byte :=
  (sf.drop (au_start i)).take (au_start (i + 1) - au_start i)

/-- The last two bytes of an access unit, read big-endian, equal the CRC-16/CCITT of
all bytes before them. -/
def auCrcOK (env : Env) (au : List Byte) : Bool :=
  decide (2 ≤ au.length ∧
    ((au.getD (au.length - 2) 0).val <<< 8 ||| (au.getD (au.length - 1) 0).val) % 65536
      = env.CalcCRC_CRC16_CCITT (au.take (au.length - 2)) % 65536)

/-- An access unit without its two trailer bytes. -/
def auPayload (au : List Byte) : List Byte := au.take (au.length - 2)

/-- A sample superframe of 120 bytes that syncs under `env0` and whose first access unit
is one byte long: format byte `0x20` (two access units, first offset 5), second offset
6, zeros elsewhere. -/
def shortAUSuperframe : List Byte :=
  [0, 0, 0x20, 0, 0x60] ++ List.replicate 115 0

/-- A sample filter holding the first four frames of `shortAUSuperframe`. -/
def shortAUHeld : SuperframeFilter :=
  { SuperframeFilter.init with
    frame_len := 24
    sf_len := 120
    sf_raw := shortAUSuperframe
    sf := List.replicate 120 0
    frame_count := 4 }

/-- A sample filter holding the first four frames of `sampleSuperframe`. -/
def sampleHeld : SuperframeFilter :=
  { SuperframeFilter.init with
    frame_len := 24
    sf_len := 120
    sf_raw := sampleSuperframe
    sf := List.replicate 120 0
    frame_count := 4 }

/-- Recognises a codec call `DecodeFrame` that throws. -/
def Event.isThrownFrame (throws : List Byte → Bool) : Event → Bool
  | Event.DecodeFrame d => throws d
  | _ => false

/-- Every `DecodeFrame` call that returns is directly followed by a `ProcessPAD` call, a
`DecodeFrame` call that throws is the last call of all, and no `ProcessPAD` call occurs
elsewhere. -/
def padPairedUntilThrow (throws : List Byte → Bool) : List Event → Bool
  | [] => true
  | [Event.DecodeFrame d] => throws d
  | Event.DecodeFrame d :: Event.ProcessPAD _ _ _ :: es =>
    !throws d && padPairedUntilThrow throws es
  | Event.DecodeFrame _ :: _ => false
  | Event.ProcessPAD _ _ _ :: _ => false
  | _ :: es => padPairedUntilThrow throws es

/-- Every `DecodeFrame` call is directly followed by a `ProcessPAD` call, and no
`ProcessPAD` call occurs elsewhere. -/
def padPaired : List Event → Bool
  | [] => true
  | Event.DecodeFrame _ :: Event.ProcessPAD _ _ _ :: es => padPaired es
  | Event.DecodeFrame _ :: _ => false
  | Event.ProcessPAD _ _ _ :: _ => false
  | _ :: es => padPaired es

/-- A sample access unit payload of 43 bytes: top three bits of byte 0 equal to 4, byte 1
equal to 10, zeros elsewhere. -/
def samplePayload : List Byte := [0x80, 10] ++ List.replicate 41 0

/-- The codec family of the format text: `AAC-LC` without SBR, `HE-AAC` with SBR and
without PS, `HE-AAC v2` with both. -/
def codecName (f : SuperframeFormat) : String :=
  if f.sbr_flag = false then "AAC-LC"
  else if f.ps_flag = false then "HE-AAC" else "HE-AAC v2"

/-- The sample rate of the format text: 48 with `dac_rate` set, else 32. -/
def rateName (f : SuperframeFormat) : String :=
  if f.dac_rate = true then "48" else "32"

/-- The channel mode of the format text. -/
def modeName (f : SuperframeFormat) : String :=
  if f.mpeg_surround_config = 0 then
    (if f.aac_channel_mode = false ∧ f.ps_flag = false then "Mono" else "Stereo")
  else if f.mpeg_surround_config = 1 then "Surround 5.1"
  else if f.mpeg_surround_config = 2 then "Surround 7.1"
  else "Surround (unknown)"

/-- The format text as the specification words it. -/
def announcedText (f : SuperframeFormat) (sf_len : Nat) : String :=
  codecName f ++ ", " ++ rateName f ++ " kHz " ++ modeName f ++ " @ "
    ++ toString (sf_len / 120 * 8) ++ " kBit/s"

/-- Recognises an observer call `FormatChange`. -/
def Event.isFormatChange : Event → Bool
  | Event.FormatChange _ => true
  | _ => false

/-- Recognises the construction of a codec. -/
def Event.isCodecNew : Event → Bool
  | Event.CodecNew _ => true
  | _ => false

/-- The eight header bytes `sf[3 .. 10]` read as one big-endian number of 64 bits. -/
def offsetBits (sf : List Byte) : Nat :=
  ((List.range 8).map (fun i => (sf.getD (3 + i) 0).val)).foldl (fun acc b => acc * 256 + b) 0

/-- The `m`-th consecutive 12-bit field of the bit string starting at `sf[3]`: the bits
`12 m .. 12 m + 11` counted from the most significant bit of `sf[3]`. -/
def field12 (sf : List Byte) (m : Nat) : Nat :=
  offsetBits sf / 2 ^ (64 - 12 * (m + 1)) % 4096

/-- The number of access units per configuration, as the offset-table geometry of the
specification lists it. -/
def tableNumAUs (dac_rate sbr_flag : Bool) : Nat :=
  match dac_rate, sbr_flag with
  | false, false => 4
  | false, true => 2
  | true, false => 6
  | true, true => 3

/-- The core sample-rate index per configuration: 3, 6, 5, 8 for 48, 24, 32, 16 kHz. -/
def coreSampleRateIndex (dac_rate sbr_flag : Bool) : Nat :=
  match dac_rate, sbr_flag with
  | true, false => 3
  | true, true => 6
  | false, false => 5
  | false, true => 8

/-- The channel configuration: 6 for surround configuration 1, 7 for 2, otherwise 2
with `aac_channel_mode` set and 1 without. -/
def channelConfiguration (f : SuperframeFormat) : Nat :=
  if f.mpeg_surround_config = 1 then 6
  else if f.mpeg_surround_config = 2 then 7
  else if f.aac_channel_mode = true then 2 else 1

/-- A sample superframe of 120 bytes that syncs under `env0` with format byte `0x00`
(`dac_rate` and `sbr_flag` clear, four access units): offsets 20, 40, 60 in the packed
fields, zeros elsewhere. -/
def plainSuperframe : List Byte :=
  [0, 0, 0x00, 0x01, 0x40, 0x28, 0x03, 0xC0] ++ List.replicate 112 0

/-- A sample filter whose corrected buffer is `plainSuperframe`. -/
def plainChecked : SuperframeFilter :=
  { SuperframeFilter.init with
    frame_len := 24
    sf_len := 120
    sf_raw := plainSuperframe
    sf := plainSuperframe
    frame_count := 5 }

/-- A sample filter whose corrected buffer is `shortAUSuperframe`. -/
def shortAUChecked : SuperframeFilter :=
  { SuperframeFilter.init with
    frame_len := 24
    sf_len := 120
    sf_raw := shortAUSuperframe
    sf := shortAUSuperframe
    frame_count := 5 }

/-- The `Feed` call on the frame `d` made after the frames `fs` have been fed to a
freshly constructed filter. -/
def feedAfter (env : Env) (fs : List (List Byte)) (d : List Byte) : Run :=
  match (FeedAll env SuperframeFilter.init fs).2 with
  | none => ([], none)
  | some s => SuperframeFilter.Feed env s d

/-- The format byte `sf[2]` of the most recent superframe that passed the sync check in
the run of `Feed` calls on the frames `fs` from the state `s`; `prev` is the one from
before the run, `none` when no superframe has passed the sync check yet. -/
def lastSyncedFormat (env : Env) :
    SuperframeFilter → List (List Byte) → Option Byte → Option Byte
  | _, [], prev => prev
  | s, d :: ds, prev =>
    match (SuperframeFilter.Feed env s d).2 with
    | none => prev
    | some t =>
      lastSyncedFormat env t ds
        (if Event.CheckSync true ∈ (SuperframeFilter.Feed env s d).1 then some (t.sf.getD 2 0)
         else prev)

/-- The five 24-byte frames of `sampleSuperframe`. -/
def sampleFrames : List (List Byte) :=
  (List.range 5).map (fun i => (sampleSuperframe.drop (24 * i)).take 24)

/-- The format fields of a filter agree with the format byte `prev` of the last synced
superframe, and `sf_len` is `5 * frame_len` as `Feed` computes it. -/
def FormatTracked (s : SuperframeFilter) (prev : Option Byte) : Prop :=
  (s.frame_len ≠ 0 → s.sf_len = 5 * s.frame_len % 2 ^ 64) ∧
  (s.sf_format_set = true ↔ prev ≠ none) ∧
  (∀ b, prev = some b → s.sf_format_raw = b)

/-- The codeword `i` of a buffer interleaved with stride `k`: the bytes at the indices
`pos * k + i` for `pos = 0 .. 119`. -/
def codeword (sf : List Byte) (k i : Nat) : List Byte :=
  (List.range 120).map (fun pos => sf.getD (pos * k + i) 0)

/-- Whether the result `r` of `decode_rs_char` reports the packet position `pos` as
corrected: one of its first `corr_count` locators is `pos + 135`. -/
def reported (r : RSResult) (pos : Nat) : Bool :=
  (List.range r.corr_count.toNat).any
    (fun j => decide (r.corr_pos[j]? = some ((pos : Int) + 135)))

/-- The corrections `DecodeSuperframe` adds to its total for one result: the count,
nothing for `-1`. -/
def countedCorrections (r : RSResult) : Int :=
  if r.corr_count = -1 then 0 else r.corr_count

/-- The number of positions `0 .. 119` at which two packets differ. -/
def distance (a b : List Byte) : Nat :=
  (List.range 120).countP (fun pos => decide (a.getD pos 0 ≠ b.getD pos 0))

/-- The assumption that `decode_rs_char` is a correct in-place decoder, reporting the
locators, for the code whose codewords are `Valid`: on a 120-byte packet `q` that differs
from a codeword `c` at no more than 5 positions it leaves `c` in the packet, returns the
number of differing positions, and reports exactly the differing positions, each as
position plus 135. -/
def CorrectRS (Valid : List Byte → Prop) (dec : List Byte → RSResult) : Prop :=
  ∀ c q : List Byte, Valid c → c.length = 120 → q.length = 120 → distance c q ≤ 5 →
    (dec q).rs_packet = c ∧ (dec q).corr_count = distance c q ∧
    ∀ pos, pos < 120 → (reported (dec q) pos = true ↔ q.getD pos 0 ≠ c.getD pos 0)

/-- The number of bytes at which two buffers of `n` bytes differ. -/
def alteredBytes (n : Nat) (a b : List Byte) : Nat :=
  (List.range n).countP (fun idx => decide (a.getD idx 0 ≠ b.getD idx 0))

/-- A sample code: its only codeword is the packet of 120 zero bytes. -/
@[reducible] def zeroCode (c : List Byte) : Prop := c = List.replicate 120 0

/-- The positions `0 .. 119` of the non-zero bytes of a packet. -/
def nonZeroPositions (p : List Byte) : List Nat :=
  (List.range 120).filter (fun pos => decide (p.getD pos 0 ≠ 0))

/-- A sample Reed-Solomon routine, the bounded-distance decoder of `zeroCode`: a packet
with at most 5 non-zero bytes is replaced by zeros, the count being the number of
non-zero bytes and the locators their positions plus 135; any other packet is left as it
is and reported with `-1`. -/
def rsZeroCode (p : List Byte) : RSResult :=
  if (nonZeroPositions p).length ≤ 5 then
    ⟨List.replicate 120 0, (nonZeroPositions p).length,
      (nonZeroPositions p).map (fun (pos : Nat) => (pos : Int) + 135)
        ++ List.replicate (10 - (nonZeroPositions p).length) 0⟩
  else ⟨p, -1, List.replicate 10 0⟩

/-- A sample buffer of two interleaved codewords of `zeroCode`. -/
def zeroBuffer : List Byte := List.replicate 240 0

/-- The sample buffer with two bytes of its codeword 1 altered: positions 2 and 4 of the
codeword, indices 5 and 9 of the buffer. -/
def damagedBuffer : List Byte := (zeroBuffer.set 5 7).set 9 1

/-- A 120-byte packet as the decoder of the unshortened code of 255 symbols sees it: 135
zero pad symbols, then the packet. -/
def padded (q : List Byte) : List Byte := List.replicate 135 0 ++ q

/-- The number of positions `0 .. 254` at which two words of 255 symbols differ. -/
def distance255 (a b : List Byte) : Nat :=
  (List.range 255).countP (fun loc => decide (a.getD loc 0 ≠ b.getD loc 0))

/-- Whether the result `r` of `decode_rs_char` has `loc` among its first `corr_count`
locators. -/
def reportedLocator (r : RSResult) (loc : Nat) : Bool :=
  (List.range r.corr_count.toNat).any (fun j => decide (r.corr_pos[j]? = some (loc : Int)))

/-- The number of pad positions, locators `0 .. 134`, reported by a result other than
`-1`: the locators `DecodeSuperframe` counts in its total and then skips with
`if(pos < 0) continue`. -/
def discardedLocators (r : RSResult) : Nat :=
  if r.corr_count = -1 then 0 else (List.range 135).countP (reportedLocator r)

/-- The assumption that `decode_rs_char` is a bounded-distance decoder of a code `Valid`
of 255-symbol words, called on packets shortened by 135 pad symbols: when the padded
packet differs from a codeword `c` at no more than 5 positions, the routine returns the
number of differing positions, reports exactly these as locators (positions of the
unshortened word, so a pad position is a locator below 135) and leaves the last 120
symbols of `c` in the packet; on every other packet it returns `-1`. -/
def ShortenedRS (Valid : List Byte → Prop) (dec : List Byte → RSResult) : Prop :=
  ∀ q : List Byte, q.length = 120 →
    (∀ c : List Byte, Valid c → c.length = 255 → distance255 c (padded q) ≤ 5 →
      (dec q).rs_packet = c.drop 135 ∧ (dec q).corr_count = distance255 c (padded q) ∧
      ∀ loc, loc < 255 →
        (reportedLocator (dec q) loc = true ↔ c.getD loc 0 ≠ (padded q).getD loc 0)) ∧
    ((¬ ∃ c, Valid c ∧ c.length = 255 ∧ distance255 c (padded q) ≤ 5) →
      (dec q).corr_count = -1)

/-- A sample codeword of 255 symbols with one non-zero pad symbol: 134 zeros, then 121
ones, so that the pad symbol 134 and the 120 symbols of the packet are 1. -/
def padWord : List Byte := List.replicate 134 0 ++ List.replicate 121 1

/-- A sample code of 255-symbol words: the zero word and `padWord`. -/
@[reducible] def padCode (c : List Byte) : Prop := c = List.replicate 255 0 ∨ c = padWord

/-- The positions `0 .. 119` at which a packet differs from the byte `b`. -/
def positionsOff (b : Byte) (q : List Byte) : List Nat :=
  (List.range 120).filter (fun pos => decide (q.getD pos 0 ≠ b))

/-- A result of `decode_rs_char` with the packet `pkt` and the locators `locs`, the rest
of `corr_pos` being zero. -/
def reportLocators (pkt : List Byte) (locs : List Int) : RSResult :=
  ⟨pkt, locs.length, locs ++ List.replicate (10 - locs.length) 0⟩

/-- A sample Reed-Solomon routine, the bounded-distance decoder of `padCode` on packets
shortened by 135 symbols: a packet with at most 5 non-zero bytes is corrected to zeros;
a packet with at most 4 bytes other than 1 is corrected to ones, the nearest codeword
being `padWord`, and the routine reports its pad symbol as the locator 134 besides the
positions of the packet plus 135; any other packet is reported with `-1`. -/
def rsPadCode (q : List Byte) : RSResult :=
  if (positionsOff 0 q).length ≤ 5 then
    reportLocators (List.replicate 120 0)
      ((positionsOff 0 q).map (fun (pos : Nat) => (pos : Int) + 135))
  else if (positionsOff 1 q).length ≤ 4 then
    reportLocators (List.replicate 120 1)
      (134 :: (positionsOff 1 q).map (fun (pos : Nat) => (pos : Int) + 135))
  else ⟨q, -1, List.replicate 10 0⟩

/-- A sample buffer of one packet, 120 bytes equal to 1: not a codeword of the shortened
code, the nearest codeword of `padCode` being `padWord`. -/
def onesBuffer : List Byte := List.replicate 120 1

/-- The sample buffer `onesBuffer` with the byte at index 3 altered. -/
def damagedOnes : List Byte := onesBuffer.set 3 7

/-- Where the data of a PAD element starts in an access unit payload: byte 3 in the
extended-length form (byte 1 equal to 255), byte 2 otherwise. -/
def padStart (data : List Byte) : Nat :=
  if (data.getD 1 0).val = 255 then 3 else 2

/-- The length of the PAD element: `255 + byte 2` in the extended-length form, byte 1
otherwise. -/
def padLen (data : List Byte) : Nat :=
  if (data.getD 1 0).val = 255 then 255 + (data.getD 2 0).val else (data.getD 1 0).val

/-- A valid PAD element is recognised: at least 3 bytes, top three bits of byte 0 equal
to 4, element length at least 2, element inside the payload. -/
def padPresent (data : List Byte) : Bool :=
  decide (3 ≤ data.length ∧ (data.getD 0 0).val >>> 5 = 4 ∧ 2 ≤ padLen data ∧
    padStart data + padLen data ≤ data.length)

/-- Recognises the two calls of a decode attempt, `DecodeSuperframe` and `CheckSync`. -/
def Event.isAttempt : Event → Bool
  | Event.RSDecode _ => true
  | Event.CheckSync _ => true
  | _ => false

/-! ## Properties -/

open SuperframeFilter

/-! ### Buffers -/

theorem getElem?_eq_some_getD (l : List Byte) (i : Nat) (h : i < l.length) :
    l[i]? = some (l.getD i 0) := by
  simp [List.getD_eq_getElem?_getD, List.getElem?_eq_getElem h]

theorem memcpy_eq (dst src : List Byte) (off n : Nat) (h1 : n ≤ src.length)
    (h2 : off + n ≤ dst.length) :
    memcpy dst off src n = some (dst.take off ++ src.take n ++ dst.drop (off + n)) := by
  unfold memcpy; rw [if_pos ⟨h1, h2⟩]

theorem memcpy_length (dst src r : List Byte) (off n : Nat)
    (h : memcpy dst off src n = some r) : r.length = dst.length := by
  unfold memcpy at h
  split at h
  · rename_i hc
    have := Option.some.inj h
    subst this
    simp only [List.length_append, List.length_take, List.length_drop]
    omega
  · exact absurd h (by simp)

/-! ### What each part of `Feed` leaves untouched -/

theorem CheckSync_frame (env : Env) (s s1 : SuperframeFilter) (b : Bool)
    (h : CheckSync env s = some (b, s1)) :
    s1 = { s with sf_format := s1.sf_format, num_aus := s1.num_aus, au_start := s1.au_start } := by
  unfold CheckSync at h
  simp only [Option.bind_eq_bind, Option.bind_eq_some] at h
  obtain ⟨sf3, -, sf4, -, h⟩ := h
  by_cases h0 : sf3 = 0 ∧ sf4 = 0
  · rw [if_pos h0] at h
    simp only [Option.pure_def, Option.some.injEq, Prod.mk.injEq] at h
    rw [← h.2]
  · rw [if_neg h0] at h
    simp only [Option.bind_eq_some] at h
    obtain ⟨sf0, -, sf1, -, hdr, -, h⟩ := h
    by_cases h1 : (sf0.val <<< 8 ||| sf1.val) % 65536 ≠ env.CalcCRC_FIRE_CODE hdr % 65536
    · rw [if_pos h1] at h
      simp only [Option.pure_def, Option.some.injEq, Prod.mk.injEq] at h
      rw [← h.2]
    · rw [if_neg h1] at h
      simp only [Option.bind_eq_some] at h
      obtain ⟨sf2, -, sf5, -, sf6, -, sf7, -, sf8, -, sf9, -, sf10, -, h⟩ := h
      simp only [Option.pure_def, Option.some.injEq, Prod.mk.injEq] at h
      rw [← h.2]

theorem CheckSync_fields (env : Env) (s s1 : SuperframeFilter) (b : Bool)
    (h : CheckSync env s = some (b, s1)) :
    s1.aac_dec = s.aac_dec ∧ s1.frame_len = s.frame_len ∧ s1.frame_count = s.frame_count ∧
    s1.sync_frames = s.sync_frames ∧ s1.sf_raw = s.sf_raw ∧ s1.sf = s.sf ∧
    s1.sf_len = s.sf_len ∧ s1.sf_format_set = s.sf_format_set ∧
    s1.sf_format_raw = s.sf_format_raw := by
  have hf := CheckSync_frame env s s1 b h
  rw [hf]
  exact ⟨rfl, rfl, rfl, rfl, rfl, rfl, rfl, rfl, rfl⟩

theorem formatCheck_state (s : SuperframeFilter) (b : Byte) :
    (formatCheck s b).2 =
      { s with aac_dec := (formatCheck s b).2.aac_dec, sf_format_raw := b,
               sf_format_set := true } := by
  unfold formatCheck
  by_cases h : s.sf_format_set = false ∨ s.sf_format_raw ≠ b
  · rw [if_pos h]; rfl
  · rw [if_neg h]
    have h1 : s.sf_format_set = true := by
      cases hs : s.sf_format_set
      · exact absurd (Or.inl hs) h
      · rfl
    have h2 : s.sf_format_raw = b := by
      by_contra hb; exact h (Or.inr hb)
    cases s
    simp only at h1 h2
    subst h1 h2
    rfl

theorem formatCheck_fields (s : SuperframeFilter) (b : Byte) :
    (formatCheck s b).2.frame_len = s.frame_len ∧
    (formatCheck s b).2.frame_count = s.frame_count ∧
    (formatCheck s b).2.sync_frames = s.sync_frames ∧
    (formatCheck s b).2.sf_raw = s.sf_raw ∧ (formatCheck s b).2.sf = s.sf ∧
    (formatCheck s b).2.sf_len = s.sf_len ∧ (formatCheck s b).2.sf_format_set = true ∧
    (formatCheck s b).2.sf_format_raw = b ∧ (formatCheck s b).2.sf_format = s.sf_format ∧
    (formatCheck s b).2.num_aus = s.num_aus ∧ (formatCheck s b).2.au_start = s.au_start := by
  have hf := formatCheck_state s b
  rw [hf]
  exact ⟨rfl, rfl, rfl, rfl, rfl, rfl, rfl, rfl, rfl, rfl, rfl⟩

theorem syncSuccess_state (env : Env) (s t : SuperframeFilter)
    (h : (syncSuccess env s).2 = some t) :
    ∃ sf2, s.sf[2]? = some sf2 ∧
      t = { (formatCheck { s with sync_frames := 0 } sf2).2 with frame_count := 0 } := by
  unfold syncSuccess at h
  cases h2 : s.sf[2]? with
  | none => simp [h2] at h
  | some sf2 =>
    refine ⟨sf2, rfl, ?_⟩
    simp only [h2] at h
    split at h
    · exact (Option.some.inj h).symm
    · exact absurd h (by simp)

/-- The four ways a decode attempt can end. -/
theorem decodeAttempt_cases (env : Env) (s : SuperframeFilter) :
    (decodeAttempt env s = ([], none)) ∨
    (∃ copy, memcpy s.sf 0 s.sf_raw s.sf_len = some copy ∧
      decodeAttempt env s = ([Event.RSDecode copy], none)) ∨
    (∃ copy p, memcpy s.sf 0 s.sf_raw s.sf_len = some copy ∧
      decodeAttempt env s = (Event.RSDecode copy :: rsStatistics p, none)) ∨
    (∃ copy p ok s1, memcpy s.sf 0 s.sf_raw s.sf_len = some copy ∧
      RSDecoder.DecodeSuperframe env.decode_rs_char copy s.sf_len = some p ∧
      CheckSync env { s with sf := p.sf } = some (ok, s1) ∧
      decodeAttempt env s =
        (Event.RSDecode copy :: rsStatistics p ++ Event.CheckSync ok ::
            (if ok then syncSuccess env s1 else syncFailure s1).1,
         (if ok then syncSuccess env s1 else syncFailure s1).2)) := by
  cases h1 : memcpy s.sf 0 s.sf_raw s.sf_len with
  | none => left; simp only [decodeAttempt, h1]
  | some copy =>
    right
    cases h2 : RSDecoder.DecodeSuperframe env.decode_rs_char copy s.sf_len with
    | none => left; exact ⟨copy, rfl, by simp only [decodeAttempt, h1, h2]⟩
    | some p =>
      right
      cases h3 : CheckSync env { s with sf := p.sf } with
      | none => left; exact ⟨copy, p, rfl, by simp only [decodeAttempt, h1, h2, h3]⟩
      | some r =>
        right
        obtain ⟨ok, s1⟩ := r
        exact ⟨copy, p, ok, s1, rfl, h2, h3, by simp only [decodeAttempt, h1, h2, h3]⟩


theorem decodeAttempt_some (env : Env) (s t : SuperframeFilter)
    (h : (decodeAttempt env s).2 = some t) :
    ∃ copy p ok s1, memcpy s.sf 0 s.sf_raw s.sf_len = some copy ∧
      RSDecoder.DecodeSuperframe env.decode_rs_char copy s.sf_len = some p ∧
      CheckSync env { s with sf := p.sf } = some (ok, s1) ∧
      ((ok = false ∧ t = { s1 with sync_frames := s1.sync_frames + 1 }) ∨
       (ok = true ∧ ∃ sf2, s1.sf[2]? = some sf2 ∧
          t = { (formatCheck { s1 with sync_frames := 0 } sf2).2 with frame_count := 0 })) := by
  rcases decodeAttempt_cases env s with h1 | ⟨c, -, h1⟩ | ⟨c, p, -, h1⟩ | ⟨c, p, ok, s1, h1, h2, h3, h4⟩
  · rw [h1] at h; exact absurd h (by simp)
  · rw [h1] at h; exact absurd h (by simp)
  · rw [h1] at h; exact absurd h (by simp)
  · refine ⟨c, p, ok, s1, h1, h2, h3, ?_⟩
    rw [h4] at h
    cases ok with
    | false =>
      left
      refine ⟨rfl, ?_⟩
      simp only [Bool.false_eq_true, if_false, syncFailure] at h
      exact (Option.some.inj h).symm
    | true =>
      right
      refine ⟨rfl, ?_⟩
      simp only [if_true] at h
      exact syncSuccess_state env s1 t h

/-- A decode attempt changes neither the frame length, nor the superframe length, nor
the raw window. -/
theorem decodeAttempt_keeps (env : Env) (s t : SuperframeFilter)
    (h : (decodeAttempt env s).2 = some t) :
    t.frame_len = s.frame_len ∧ t.sf_len = s.sf_len ∧ t.sf_raw = s.sf_raw := by
  obtain ⟨c, p, ok, s1, -, -, h3, h4⟩ := decodeAttempt_some env s t h
  obtain ⟨-, e1, -, -, e2, -, e3, -, -⟩ := CheckSync_fields env _ s1 ok h3
  rcases h4 with ⟨-, ht⟩ | ⟨-, sf2, -, ht⟩
  · subst ht
    exact ⟨e1, e3, e2⟩
  · obtain ⟨f1, -, -, f2, -, f3, -⟩ := formatCheck_fields { s1 with sync_frames := 0 } sf2
    subst ht
    exact ⟨f1.trans e1, f3.trans e3, f2.trans e2⟩

/-- The ways the window update can end: outside a buffer, with the frame stored only,
or with a decode attempt on the updated window. -/
theorem accumulate_cases (env : Env) (s : SuperframeFilter) (data : List Byte) :
    accumulate env s data = ([], none) ∨
    ∃ raw c, accumulate env s data =
      (if c < 5 then ([], some { s with sf_raw := raw, frame_count := c })
       else decodeAttempt env { s with sf_raw := raw, frame_count := c }) := by
  unfold accumulate
  by_cases h5 : s.frame_count = 5
  · simp only [h5, if_true]
    cases hs : shiftFrames s.sf_raw s.frame_len with
    | none => left; rfl
    | some buf =>
      simp only [Option.map_some']
      cases hm : memcpy buf ((5 - 1) * s.frame_len) data s.frame_len with
      | none => left; rfl
      | some raw => right; exact ⟨raw, 5, rfl⟩
  · simp only [h5, if_false]
    cases hm : memcpy s.sf_raw ((s.frame_count + 1 - 1) * s.frame_len) data s.frame_len with
    | none => left; rfl
    | some raw => right; exact ⟨raw, s.frame_count + 1, rfl⟩

theorem accumulate_keeps (env : Env) (s t : SuperframeFilter) (data : List Byte)
    (h : (accumulate env s data).2 = some t) :
    t.frame_len = s.frame_len ∧ t.sf_len = s.sf_len := by
  rcases accumulate_cases env s data with h1 | ⟨raw, c, h1⟩
  · rw [h1] at h; exact absurd h (by simp)
  · rw [h1] at h
    by_cases hc : c < 5
    · rw [if_pos hc] at h
      have := Option.some.inj h
      subst this
      exact ⟨rfl, rfl⟩
    · rw [if_neg hc] at h
      have := decodeAttempt_keeps env _ t h
      exact ⟨this.1, this.2.1⟩


/-! ### The window update on a sized filter -/

theorem accumulate_below (env : Env) (s : SuperframeFilter) (data : List Byte)
    (hc : s.frame_count < 5) (hd : data.length = s.frame_len)
    (hr : (s.frame_count + 1) * s.frame_len ≤ s.sf_raw.length) :
    accumulate env s data =
      (if s.frame_count + 1 < 5 then ([], some (pushFrame s data))
       else decodeAttempt env (pushFrame s data)) := by
  have h5 : s.frame_count ≠ 5 := by omega
  have hm : memcpy s.sf_raw ((s.frame_count + 1 - 1) * s.frame_len) data s.frame_len
      = some (s.sf_raw.take (s.frame_count * s.frame_len) ++ data
          ++ s.sf_raw.drop ((s.frame_count + 1) * s.frame_len)) := by
    rw [memcpy_eq _ _ _ _ (by omega) (by rw [Nat.add_sub_cancel]; linarith [Nat.succ_mul s.frame_count s.frame_len])]
    rw [Nat.add_sub_cancel, ← hd, List.take_length, hd, Nat.succ_mul]
  unfold accumulate
  simp only [h5, if_false, hm, pushFrame]

theorem memcpy_slot (X A B R : List Byte) (n off src : Nat) (hX : off = X.length)
    (hs : src = X.length + A.length) (hA : A.length = n) (hB : B.length = n) :
    memcpy (X ++ (A ++ (B ++ R))) off ((X ++ (A ++ (B ++ R))).drop src) n
      = some (X ++ (B ++ (B ++ R))) := by
  subst hX hB hs
  have h1 : List.drop (X.length + A.length) (X ++ (A ++ (B ++ R))) = B ++ R := by
    rw [List.drop_append, List.drop_left]
  rw [h1]
  unfold memcpy
  rw [if_pos (by simp only [List.length_append]; omega)]
  rw [List.take_left, List.take_left, ← hA, h1]
  simp only [List.append_assoc]

theorem memcpy_last (X A : List Byte) (data : List Byte) (n off : Nat) (hX : X.length = off)
    (hA : A.length = n) (hd : data.length = n) :
    memcpy (X ++ A) off data n = some (X ++ data) := by
  subst hX hd
  unfold memcpy
  rw [if_pos (by simp only [List.length_append]; omega)]
  have h1 : List.drop (X.length + data.length) (X ++ A) = [] := by
    rw [List.drop_eq_nil_iff]; simp only [List.length_append]; omega
  rw [List.take_left, List.take_length, h1, List.append_nil]

/-- Splits a buffer of `5 * n` bytes into its five slots. -/
theorem five_slots (raw : List Byte) (n : Nat) (h : raw.length = 5 * n) :
    ∃ a b c d e : List Byte, raw = a ++ (b ++ (c ++ (d ++ e))) ∧ a.length = n ∧
      b.length = n ∧ c.length = n ∧ d.length = n ∧ e.length = n := by
  refine ⟨raw.take n, (raw.drop n).take n, (raw.drop (2 * n)).take n,
    (raw.drop (3 * n)).take n, raw.drop (4 * n), ?_, ?_, ?_, ?_, ?_, ?_⟩
  · have e1 : raw.drop (2 * n) = (raw.drop n).drop n := by rw [List.drop_drop]; congr 1; omega
    have e2 : raw.drop (3 * n) = ((raw.drop n).drop n).drop n := by
      rw [List.drop_drop, List.drop_drop]; congr 1; omega
    have e3 : raw.drop (4 * n) = (((raw.drop n).drop n).drop n).drop n := by
      rw [List.drop_drop, List.drop_drop, List.drop_drop]; congr 1; omega
    rw [e1, e2, e3, List.take_append_drop, List.take_append_drop, List.take_append_drop,
      List.take_append_drop]
  all_goals simp only [List.length_take, List.length_drop]; omega

theorem shiftFrames_slots (a b c d e : List Byte) (n : Nat) (ha : a.length = n)
    (hb : b.length = n) (hc : c.length = n) (hd : d.length = n) (he : e.length = n) :
    shiftFrames (a ++ (b ++ (c ++ (d ++ e)))) n = some (b ++ (c ++ (d ++ (e ++ e)))) := by
  unfold shiftFrames
  simp only [List.foldlM_cons, List.foldlM_nil, Option.bind_eq_bind]
  have s0 : memcpy (a ++ (b ++ (c ++ (d ++ e)))) (0 * n)
      (List.drop ((0 + 1) * n) (a ++ (b ++ (c ++ (d ++ e))))) n
      = some (b ++ (b ++ (c ++ (d ++ e)))) := by
    have := memcpy_slot [] a b (c ++ (d ++ e)) n (0 * n) ((0 + 1) * n)
      (by simp) (by simp [ha]) ha hb
    simpa using this
  have s1 : memcpy (b ++ (b ++ (c ++ (d ++ e)))) (1 * n)
      (List.drop ((1 + 1) * n) (b ++ (b ++ (c ++ (d ++ e))))) n
      = some (b ++ (c ++ (c ++ (d ++ e)))) :=
    memcpy_slot b b c (d ++ e) n (1 * n) ((1 + 1) * n) (by omega) (by omega) hb hc
  have s2 : memcpy (b ++ (c ++ (c ++ (d ++ e)))) (2 * n)
      (List.drop ((2 + 1) * n) (b ++ (c ++ (c ++ (d ++ e))))) n
      = some (b ++ (c ++ (d ++ (d ++ e)))) := by
    have := memcpy_slot (b ++ c) c d e n (2 * n) ((2 + 1) * n)
      (by simp only [List.length_append]; omega) (by simp only [List.length_append]; omega) hc hd
    simpa using this
  have s3 : memcpy (b ++ (c ++ (d ++ (d ++ e)))) (3 * n)
      (List.drop ((3 + 1) * n) (b ++ (c ++ (d ++ (d ++ e))))) n
      = some (b ++ (c ++ (d ++ (e ++ e)))) := by
    have := memcpy_slot (b ++ (c ++ d)) d e [] n (3 * n) ((3 + 1) * n)
      (by simp only [List.length_append]; omega) (by simp only [List.length_append]; omega) hd he
    simpa using this
  rw [s0, Option.some_bind, s1, Option.some_bind, s2, Option.some_bind, s3]; rfl


theorem accumulate_full (env : Env) (s : SuperframeFilter) (data : List Byte)
    (hc : s.frame_count = 5) (hd : data.length = s.frame_len)
    (hr : s.sf_raw.length = 5 * s.frame_len) :
    accumulate env s data = decodeAttempt env (pushFrame s data) := by
  obtain ⟨a, b, c, d, e, hraw, ha, hb, hcl, hdl, he⟩ := five_slots s.sf_raw s.frame_len hr
  have hs := shiftFrames_slots a b c d e s.frame_len ha hb hcl hdl he
  rw [← hraw] at hs
  have hdrop : s.sf_raw.drop s.frame_len = b ++ (c ++ (d ++ e)) := by
    rw [hraw, ← ha, List.drop_left]
  have hm : memcpy (b ++ (c ++ (d ++ (e ++ e)))) ((5 - 1) * s.frame_len) data s.frame_len
      = some (b ++ (c ++ (d ++ e)) ++ data) := by
    have := memcpy_last (b ++ (c ++ (d ++ e))) e data s.frame_len ((5 - 1) * s.frame_len)
      (by simp only [List.length_append]; omega) he hd
    simpa using this
  unfold accumulate
  simp only [hc, if_true, hs, Option.map_some', hm, pushFrame, hdrop]
  rw [if_neg (by omega)]

/-- On a sized filter a frame of the established length is stored, and the decode
attempt runs exactly when this makes five frames. -/
theorem accumulate_sized (env : Env) (s : SuperframeFilter) (data : List Byte)
    (hs : Sized s) (hd : data.length = s.frame_len) :
    accumulate env s data =
      (if s.frame_count < 4 then ([], some (pushFrame s data))
       else decodeAttempt env (pushFrame s data)) := by
  obtain ⟨h10, hlen, -, hraw, -, hc⟩ := hs
  by_cases h5 : s.frame_count = 5
  · rw [accumulate_full env s data h5 hd (by omega), if_neg (by omega)]
  · rw [accumulate_below env s data (by omega) hd (by
      rw [hraw, hlen]; exact Nat.mul_le_mul_right _ (by omega))]
    by_cases h4 : s.frame_count < 4
    · rw [if_pos (by omega), if_pos h4]
    · rw [if_neg (by omega), if_neg h4]

theorem pushFrame_fields (s : SuperframeFilter) (data : List Byte) :
    (pushFrame s data).aac_dec = s.aac_dec ∧ (pushFrame s data).frame_len = s.frame_len ∧
    (pushFrame s data).sync_frames = s.sync_frames ∧ (pushFrame s data).sf = s.sf ∧
    (pushFrame s data).sf_len = s.sf_len ∧
    (pushFrame s data).sf_format_set = s.sf_format_set ∧
    (pushFrame s data).sf_format_raw = s.sf_format_raw ∧
    (pushFrame s data).frame_count = (if s.frame_count = 5 then 5 else s.frame_count + 1) := by
  unfold pushFrame
  by_cases h : s.frame_count = 5
  · rw [if_pos h, if_pos h]; exact ⟨rfl, rfl, rfl, rfl, rfl, rfl, rfl, h⟩
  · rw [if_neg h, if_neg h]; exact ⟨rfl, rfl, rfl, rfl, rfl, rfl, rfl, rfl⟩

theorem pushFrame_sized (s : SuperframeFilter) (data : List Byte) (hs : Sized s)
    (hd : data.length = s.frame_len) : Sized (pushFrame s data) := by
  obtain ⟨h10, hlen, h120, hraw, hsf, hc⟩ := hs
  unfold pushFrame
  by_cases h : s.frame_count = 5
  · simp only [h, if_true]
    refine ⟨h10, hlen, h120, ?_, hsf, le_refl 5⟩
    simp only [List.length_append, List.length_drop]
    omega
  · simp only [h, if_false]
    refine ⟨h10, hlen, h120, ?_, hsf, by show s.frame_count + 1 ≤ 5; omega⟩
    have hb : (s.frame_count + 1) * s.frame_len ≤ s.sf_raw.length := by
      rw [hraw, hlen]; exact Nat.mul_le_mul_right _ (by omega)
    have hb2 : s.frame_count * s.frame_len ≤ s.sf_raw.length :=
      le_trans (Nat.mul_le_mul_right _ (by omega)) hb
    have hb3 : (s.frame_count + 1) * s.frame_len = s.frame_count * s.frame_len + s.frame_len :=
      Nat.succ_mul _ _
    simp only [List.length_append, List.length_take, List.length_drop]
    omega

theorem Feed_keeps (env : Env) (s t : SuperframeFilter) (data : List Byte)
    (h0 : s.frame_len ≠ 0) (h : (Feed env s data).2 = some t) :
    t.frame_len = s.frame_len ∧ t.sf_len = s.sf_len := by
  unfold Feed at h
  simp only [h0, ne_eq, not_false_eq_true, if_true] at h
  by_cases hl : s.frame_len = data.length
  · simp only [hl, not_true_eq_false, if_false] at h
    have := accumulate_keeps env s t data h
    exact this
  · simp only [hl, not_false_eq_true, if_true] at h
    have := Option.some.inj h
    subst this
    exact ⟨rfl, rfl⟩

/-- C1. On a filter without established frame length (`frame_len = 0`), a frame whose
length `len` keeps `5 * len` below `2 ^ 64` passes the length check exactly when
`len >= 10` and `5 * len` is a multiple of 120, that is when `len` is a positive multiple
of 24. A frame that passes sets `frame_len = len` and `sf_len = 5 * len` (and, with fewer
than four frames counted, is stored without any call being made); a frame that fails is
dropped with a log line and the state unchanged. Once `frame_len` is non-zero, no call
of `Feed` changes `frame_len` or `sf_len`. -/
theorem feed_first_frame_gate (env : Env) (s : SuperframeFilter) (data : List Byte)
    (h0 : s.frame_len = 0) (hno : 5 * data.length < 2 ^ 64) :
    ((10 ≤ data.length ∧ 5 * data.length % 120 = 0) ↔ (0 < data.length ∧ 24 ∣ data.length)) ∧
    ((10 ≤ data.length ∧ 5 * data.length % 120 = 0) →
      (∀ t, (Feed env s data).2 = some t →
        t.frame_len = data.length ∧ t.sf_len = 5 * data.length) ∧
      (s.frame_count < 4 → ∃ t, Feed env s data = ([], some t) ∧
        t.frame_len = data.length ∧ t.sf_len = 5 * data.length ∧
        t.frame_count = s.frame_count + 1)) ∧
    (¬ (10 ≤ data.length ∧ 5 * data.length % 120 = 0) →
      ∃ m, Feed env s data = ([Event.Log m], some s)) ∧
    (∀ (u v : SuperframeFilter) (d : List Byte), u.frame_len ≠ 0 →
      (Feed env u d).2 = some v → v.frame_len = u.frame_len ∧ v.sf_len = u.sf_len) := by
  have hmod : 5 * data.length % 2 ^ 64 = 5 * data.length := Nat.mod_eq_of_lt hno
  refine ⟨by omega, ?_, ?_, ?_⟩
  · rintro ⟨h10, h120⟩
    have hF : Feed env s data = accumulate env
        { s with frame_len := data.length, sf_len := 5 * data.length,
                 sf_raw := List.replicate (5 * data.length) 0,
                 sf := List.replicate (5 * data.length) 0 } data := by
      unfold Feed
      simp only [h0, ne_eq, not_true_eq_false, if_false, hmod, h120]
      rw [if_neg (by omega)]
    refine ⟨?_, ?_⟩
    · intro t ht
      rw [hF] at ht
      exact accumulate_keeps env _ t data ht
    · intro hc
      have hsz : Sized
          { s with
            frame_len := data.length
            sf_len := 5 * data.length
            sf_raw := List.replicate (5 * data.length) 0
            sf := List.replicate (5 * data.length) 0 } :=
        ⟨h10, rfl, h120, List.length_replicate _ _, List.length_replicate _ _, by
          show s.frame_count ≤ 5; omega⟩
      rw [hF, accumulate_sized env _ data hsz rfl, if_pos hc]
      refine ⟨_, rfl, ?_, ?_, ?_⟩
      · exact (pushFrame_fields _ data).2.1
      · exact (pushFrame_fields _ data).2.2.2.2.1
      · rw [(pushFrame_fields _ data).2.2.2.2.2.2.2, if_neg]
        show s.frame_count ≠ 5; omega
  · intro hbad
    unfold Feed
    simp only [h0, ne_eq, not_true_eq_false, if_false, hmod]
    by_cases h10 : data.length < 10
    · exact ⟨_, by rw [if_pos h10]⟩
    · rw [if_neg h10, if_pos (by omega)]
      exact ⟨_, rfl⟩
  · intro u v d hu hv
    exact Feed_keeps env u v d hu hv

/-- Witness for C1: a 24-byte frame fed to the freshly constructed filter. -/
theorem feed_first_frame_gate_witness :
    ((10 ≤ zeroFrame.length ∧ 5 * zeroFrame.length % 120 = 0) ↔
        (0 < zeroFrame.length ∧ 24 ∣ zeroFrame.length)) ∧
    ((10 ≤ zeroFrame.length ∧ 5 * zeroFrame.length % 120 = 0) →
      (∀ t, (Feed env0 init zeroFrame).2 = some t →
        t.frame_len = zeroFrame.length ∧ t.sf_len = 5 * zeroFrame.length) ∧
      (init.frame_count < 4 → ∃ t, Feed env0 init zeroFrame = ([], some t) ∧
        t.frame_len = zeroFrame.length ∧ t.sf_len = 5 * zeroFrame.length ∧
        t.frame_count = init.frame_count + 1)) ∧
    (¬ (10 ≤ zeroFrame.length ∧ 5 * zeroFrame.length % 120 = 0) →
      ∃ m, Feed env0 init zeroFrame = ([Event.Log m], some init)) ∧
    (∀ (u v : SuperframeFilter) (d : List Byte), u.frame_len ≠ 0 →
      (Feed env0 u d).2 = some v → v.frame_len = u.frame_len ∧ v.sf_len = u.sf_len) :=
  feed_first_frame_gate env0 init zeroFrame rfl (by decide)

/-- C2. On a filter with established frame length, a frame of another length is dropped:
`Feed` writes one log line, makes no other call and returns the state as it was, so
whatever is fed next is processed as if the dropped frame had never been fed. -/
theorem feed_length_mismatch (env : Env) (s : SuperframeFilter) (data : List Byte)
    (h0 : s.frame_len ≠ 0) (hne : data.length ≠ s.frame_len) :
    Feed env s data =
      ([Event.Log (LogMsg.different_frame_len data.length s.frame_len)], some s) ∧
    ∀ ds : List (List Byte), FeedAll env s (data :: ds) =
      (Event.Log (LogMsg.different_frame_len data.length s.frame_len) :: (FeedAll env s ds).1,
       (FeedAll env s ds).2) := by
  have hF : Feed env s data =
      ([Event.Log (LogMsg.different_frame_len data.length s.frame_len)], some s) := by
    unfold Feed
    simp only [h0, ne_eq, not_false_eq_true, if_true]
    rw [if_pos (fun h => hne h.symm)]
  refine ⟨hF, ?_⟩
  intro ds
  simp only [FeedAll, hF, List.singleton_append]

/-- Witness for C2: a one-byte frame fed to a filter with frame length 24. -/
theorem feed_length_mismatch_witness :
    Feed env0 heldOne [0] =
      ([Event.Log (LogMsg.different_frame_len [(0 : Byte)].length heldOne.frame_len)],
        some heldOne) ∧
    ∀ ds : List (List Byte), FeedAll env0 heldOne ([0] :: ds) =
      (Event.Log (LogMsg.different_frame_len [(0 : Byte)].length heldOne.frame_len)
        :: (FeedAll env0 heldOne ds).1, (FeedAll env0 heldOne ds).2) :=
  feed_length_mismatch env0 heldOne [0] (by decide) (by decide)

/-! ### The calls made by each part -/

/-- `CheckForPAD` in closed form. -/
theorem CheckForPAD_eq (data : List Byte) :
    CheckForPAD data =
      if padPresent data = true then
        [Event.ProcessPAD
          (some ((data.drop (padStart data)).take (padLen data - FPAD_LEN)))
          (padLen data - FPAD_LEN)
          ((data.drop (padStart data + padLen data - FPAD_LEN)).take FPAD_LEN)]
      else [Event.ProcessPAD none 0 (List.replicate FPAD_LEN 0)] := by
  unfold CheckForPAD padPresent
  by_cases h : 3 ≤ data.length
  · have e0 : data[0] = data.getD 0 0 := (List.getD_eq_getElem _ _ (by omega)).symm
    have e1 : data[1] = data.getD 1 0 := (List.getD_eq_getElem _ _ (by omega)).symm
    have e2 : data[2] = data.getD 2 0 := (List.getD_eq_getElem _ _ (by omega)).symm
    simp only [h, dite_true, e0, e1, e2, true_and]
    by_cases h4 : (data.getD 0 0).val >>> 5 = 4
    · simp only [h4, if_true, true_and]
      by_cases h255 : (data.getD 1 0).val = 255
      · simp only [padStart, padLen, h255, if_true]
        by_cases hv : 2 ≤ 255 + (data.getD 2 0).val ∧ 3 + (255 + (data.getD 2 0).val) ≤ data.length
        · simp only [hv, and_self, if_true, decide_True]
        · simp only [hv, if_false, decide_False, List.nil_append, Bool.false_eq_true]
      · simp only [padStart, padLen, h255, if_false]
        by_cases hv : 2 ≤ (data.getD 1 0).val ∧ 2 + (data.getD 1 0).val ≤ data.length
        · simp only [hv, and_self, if_true, decide_True]
        · simp only [hv, if_false, decide_False, List.nil_append, Bool.false_eq_true]
    · simp only [h4, if_false, false_and, decide_False, List.nil_append, Bool.false_eq_true]
  · simp only [h, dite_false, false_and, decide_False, List.nil_append, Bool.false_eq_true,
      if_false]

/-- `CheckForPAD` makes exactly one call, a `ProcessPAD`. -/
theorem CheckForPAD_single (data : List Byte) :
    ∃ x l f, CheckForPAD data = [Event.ProcessPAD x l f] := by
  rw [CheckForPAD_eq]
  split_ifs
  · exact ⟨_, _, _, rfl⟩
  · exact ⟨_, _, _, rfl⟩

/-- The three ways a round of the loop inside the buffer can go: trailer mismatch and a
log line; `DecodeFrame` returning, followed by the one `ProcessPAD` call of
`CheckForPAD`; `DecodeFrame` throwing, which ends the round and the loop. -/
theorem processAU_events (env : Env) (sf : List Byte) (a : Nat → Nat) (i : Nat)
    (r : List Event × Bool) (h : processAU env sf a i = some r) :
    (∃ m, r = ([Event.Log m], true)) ∨
    (∃ d x l f, env.DecodeFrame_throws d = false ∧
      r = ([Event.DecodeFrame d, Event.ProcessPAD x l f], true)) ∨
    (∃ d, env.DecodeFrame_throws d = true ∧ r = ([Event.DecodeFrame d], false)) := by
  unfold processAU at h
  simp only at h
  split_ifs at h with h1 h2 h3
  · left; exact ⟨_, (Option.some.inj h).symm⟩
  · right; right; exact ⟨_, h3, (Option.some.inj h).symm⟩
  · right; left
    obtain ⟨x, l, f, hp⟩ := CheckForPAD_single
      (List.take ((((a (i + 1) : Int) - (a i : Int)) % 2 ^ 64).toNat - 2)
        (List.take (((a (i + 1) : Int) - (a i : Int)) % 2 ^ 64).toNat (List.drop (a i) sf)))
    rw [hp] at h
    exact ⟨_, x, l, f, by simpa using h3, (Option.some.inj h).symm⟩

theorem processAUs_attempt (env : Env) (sf : List Byte) (a : Nat → Nat) (is : List Nat) :
    ∀ e ∈ (processAUs env sf a is).1, e.isAttempt = false := by
  induction is with
  | nil => intro e he; simp [processAUs] at he
  | cons i is ih =>
    intro e he
    unfold processAUs at he
    cases hp : processAU env sf a i with
    | none => simp [hp] at he
    | some r =>
      simp only [hp] at he
      rcases processAU_events env sf a i r hp with ⟨m, rfl⟩ | ⟨d, x, l, f, -, rfl⟩ | ⟨d, -, rfl⟩
      · simp only [if_true, List.mem_append] at he
        rcases he with he | he
        · simp at he; subst he; rfl
        · exact ih e he
      · simp only [if_true, List.mem_append] at he
        rcases he with he | he
        · simp at he; rcases he with rfl | rfl <;> rfl
        · exact ih e he
      · simp at he; subst he; rfl

theorem formatCheck_attempt (s : SuperframeFilter) (b : Byte) :
    ∀ e ∈ (formatCheck s b).1, e.isAttempt = false := by
  intro e he
  unfold formatCheck ProcessFormat at he
  split_ifs at he <;> simp at he
  all_goals rcases he with rfl | rfl | rfl <;> rfl

theorem syncSuccess_attempt (env : Env) (s : SuperframeFilter) :
    ∀ e ∈ (syncSuccess env s).1, e.isAttempt = false := by
  intro e he
  unfold syncSuccess at he
  cases h2 : s.sf[2]? with
  | none =>
    simp only [h2] at he
    split_ifs at he <;> simp at he
    subst he; rfl
  | some sf2 =>
    simp only [h2, List.mem_append] at he
    rcases he with (he | he) | he
    · split_ifs at he <;> simp at he
      subst he; rfl
    · exact formatCheck_attempt _ _ e he
    · exact processAUs_attempt _ _ _ _ e he

theorem syncFailure_attempt (s : SuperframeFilter) :
    ∀ e ∈ (syncFailure s).1, e.isAttempt = false := by
  intro e he
  unfold syncFailure at he
  split_ifs at he <;> simp at he
  subst he; rfl

theorem rsStatistics_attempt (p : RSDecoder.Progress) :
    ∀ e ∈ rsStatistics p, e.isAttempt = false := by
  intro e he
  unfold rsStatistics at he
  split_ifs at he <;> simp at he
  subst he; rfl


/-! ### Runs of `Feed` -/

theorem Feed_sized (env : Env) (s : SuperframeFilter) (data : List Byte)
    (hs : Sized s) (hd : data.length = s.frame_len) :
    Feed env s data =
      (if s.frame_count < 4 then ([], some (pushFrame s data))
       else decodeAttempt env (pushFrame s data)) := by
  have h0 : s.frame_len ≠ 0 := by have := hs.1; omega
  unfold Feed
  simp only [h0, ne_eq, not_false_eq_true, if_true, hd, not_true_eq_false, if_false]
  exact accumulate_sized env s data hs hd

theorem Feed_first (env : Env) (s : SuperframeFilter) (data : List Byte)
    (h0 : s.frame_len = 0) (hc : s.frame_count < 4) (hpos : 0 < data.length)
    (h24 : 24 ∣ data.length) (hno : 5 * data.length < 2 ^ 64) :
    ∃ t, Feed env s data = ([], some t) ∧ Sized t ∧ t.frame_len = data.length ∧
      t.frame_count = s.frame_count + 1 := by
  have hmod : 5 * data.length % 2 ^ 64 = 5 * data.length := Nat.mod_eq_of_lt hno
  have h10 : 10 ≤ data.length := by omega
  have h120 : 5 * data.length % 120 = 0 := by omega
  have hsz : Sized
      { s with
        frame_len := data.length
        sf_len := 5 * data.length
        sf_raw := List.replicate (5 * data.length) 0
        sf := List.replicate (5 * data.length) 0 } :=
    ⟨h10, rfl, h120, List.length_replicate _ _, List.length_replicate _ _, by
      show s.frame_count ≤ 5; omega⟩
  have hF : Feed env s data = accumulate env
      { s with
        frame_len := data.length
        sf_len := 5 * data.length
        sf_raw := List.replicate (5 * data.length) 0
        sf := List.replicate (5 * data.length) 0 } data := by
    unfold Feed
    simp only [h0, ne_eq, not_true_eq_false, if_false, hmod, h120]
    rw [if_neg (by omega)]
  rw [hF, accumulate_sized env _ data hsz rfl, if_pos hc]
  refine ⟨_, rfl, pushFrame_sized _ data hsz rfl, (pushFrame_fields _ data).2.1, ?_⟩
  rw [(pushFrame_fields _ data).2.2.2.2.2.2.2, if_neg]
  show s.frame_count ≠ 5; omega

theorem FeedAll_append (env : Env) (xs ys : List (List Byte)) :
    ∀ (s t : SuperframeFilter) (ev : List Event), FeedAll env s xs = (ev, some t) →
      FeedAll env s (xs ++ ys) = (ev ++ (FeedAll env t ys).1, (FeedAll env t ys).2) := by
  induction xs with
  | nil =>
    intro s t ev h
    simp only [FeedAll, Prod.mk.injEq, Option.some.injEq] at h
    obtain ⟨rfl, rfl⟩ := h
    simp
  | cons d ds ih =>
    intro s t ev h
    simp only [FeedAll, List.cons_append] at h ⊢
    cases hf : (Feed env s d).2 with
    | none => simp only [hf] at h; exact absurd (congrArg Prod.snd h) (by simp)
    | some s1 =>
      simp only [hf] at h ⊢
      have h1 : (FeedAll env s1 ds).2 = some t := congrArg Prod.snd h
      have h2 : (Feed env s d).1 ++ (FeedAll env s1 ds).1 = ev := congrArg Prod.fst h
      have := ih s1 t (FeedAll env s1 ds).1 (Prod.ext rfl h1)
      show ((Feed env s d).1 ++ (FeedAll env s1 (ds ++ ys)).1, (FeedAll env s1 (ds ++ ys)).2) = _
      rw [this, ← h2, List.append_assoc]

/-- Below five frames, frames of the established length are stored without any call. -/
theorem FeedAll_fill (env : Env) (fs : List (List Byte)) :
    ∀ s : SuperframeFilter, Sized s → (∀ f ∈ fs, f.length = s.frame_len) →
      s.frame_count + fs.length < 5 →
      ∃ t, FeedAll env s fs = ([], some t) ∧ Sized t ∧ t.frame_len = s.frame_len ∧
        t.frame_count = s.frame_count + fs.length := by
  induction fs with
  | nil => intro s hs _ _; exact ⟨s, rfl, hs, rfl, rfl⟩
  | cons d ds ih =>
    intro s hs hf hc
    have hd : d.length = s.frame_len := hf d (List.mem_cons_self _ _)
    simp only [List.length_cons] at hc
    have hF := Feed_sized env s d hs hd
    rw [if_pos (by omega)] at hF
    obtain ⟨-, e1, -, -, -, -, -, e2⟩ := pushFrame_fields s d
    rw [if_neg (by omega)] at e2
    obtain ⟨t, ht, hts, htl, htc⟩ := ih (pushFrame s d) (pushFrame_sized s d hs hd)
      (fun f hfm => by rw [e1]; exact hf f (List.mem_cons_of_mem _ hfm)) (by omega)
    refine ⟨t, ?_, hts, htl.trans e1, ?_⟩
    · simp only [FeedAll, hF, ht, List.append_nil]
    · rw [htc, e2, List.length_cons]; omega

theorem FeedAll_fill_first (env : Env) (s : SuperframeFilter) (len : Nat)
    (fs : List (List Byte)) (h0 : s.frame_len = 0) (hc0 : s.frame_count = 0)
    (hpos : 0 < len) (h24 : 24 ∣ len) (hno : 5 * len < 2 ^ 64)
    (hf : ∀ f ∈ fs, f.length = len) (hn : fs.length < 5) :
    ∃ t, FeedAll env s fs = ([], some t) ∧ t.frame_count = fs.length ∧
      (fs ≠ [] → Sized t ∧ t.frame_len = len) := by
  cases fs with
  | nil => exact ⟨s, rfl, hc0, fun h => absurd rfl h⟩
  | cons d ds =>
    have hd : d.length = len := hf d (List.mem_cons_self _ _)
    subst hd
    obtain ⟨s1, hF, hs1, hl1, hc1⟩ := Feed_first env s d h0 (by omega) hpos h24 hno
    simp only [List.length_cons] at hn
    obtain ⟨t, ht, hts, htl, htc⟩ := FeedAll_fill env ds s1 hs1
      (fun f hfm => by rw [hl1]; exact hf f (List.mem_cons_of_mem _ hfm)) (by omega)
    refine ⟨t, ?_, ?_, fun _ => ⟨hts, htl.trans hl1⟩⟩
    · simp only [FeedAll, hF, ht, List.append_nil]
    · rw [htc, hc1, hc0, List.length_cons]; omega

/-- A decode attempt on a sized filter calls `DecodeSuperframe` exactly once. -/
theorem decodeAttempt_one_RSDecode (env : Env) (s : SuperframeFilter) (hs : Sized s) :
    (decodeAttempt env s).1.countP Event.isRSDecode = 1 := by
  obtain ⟨-, -, -, hraw, hsf, -⟩ := hs
  have hm := memcpy_eq s.sf s.sf_raw 0 s.sf_len (by omega) (by omega)
  have hstat : ∀ p, (rsStatistics p).countP Event.isRSDecode = 0 := by
    intro p
    rw [List.countP_eq_zero]
    intro e he
    have := rsStatistics_attempt p e he
    cases e <;> simp_all [Event.isAttempt, Event.isRSDecode]
  have hrest : ∀ (ok : Bool) (s1 : SuperframeFilter),
      (if ok = true then syncSuccess env s1 else syncFailure s1).1.countP Event.isRSDecode = 0 := by
    intro ok s1
    rw [List.countP_eq_zero]
    intro e he
    have : e.isAttempt = false := by
      cases ok
      · exact syncFailure_attempt s1 e (by simpa using he)
      · exact syncSuccess_attempt env s1 e (by simpa using he)
    cases e <;> simp_all [Event.isAttempt, Event.isRSDecode]
  rcases decodeAttempt_cases env s with h | ⟨c, -, h⟩ | ⟨c, p, -, h⟩ | ⟨c, p, ok, s1, -, -, -, h⟩
  · unfold decodeAttempt at h
    rw [hm] at h
    simp only at h
    split at h <;> [skip; split at h] <;> simp at h
  · rw [h]; rfl
  · rw [h]
    simp only [List.countP_cons, hstat, Event.isRSDecode]
    rfl
  · rw [h]
    simp only [List.countP_cons, List.countP_append, hstat, hrest, Event.isRSDecode]
    rfl

theorem countP_isCheckSync_zero (l : List Event) (h : ∀ e ∈ l, e.isAttempt = false) :
    l.countP Event.isCheckSync = 0 := by
  rw [List.countP_eq_zero]
  intro e he
  have := h e he
  cases e <;> simp_all [Event.isAttempt, Event.isCheckSync]

/-- A decode attempt calls `CheckSync` at most once. -/
theorem decodeAttempt_le_one_CheckSync (env : Env) (s : SuperframeFilter) :
    (decodeAttempt env s).1.countP Event.isCheckSync ≤ 1 := by
  have hstat := fun p => countP_isCheckSync_zero _ (rsStatistics_attempt p)
  have hrest : ∀ (ok : Bool) (s1 : SuperframeFilter),
      (if ok = true then syncSuccess env s1 else syncFailure s1).1.countP Event.isCheckSync
        = 0 := by
    intro ok s1
    cases ok
    · exact countP_isCheckSync_zero _ (syncFailure_attempt s1)
    · exact countP_isCheckSync_zero _ (syncSuccess_attempt env s1)
  rcases decodeAttempt_cases env s with h | ⟨c, -, h⟩ | ⟨c, p, -, h⟩ | ⟨c, p, ok, s1, -, -, -, h⟩
  · rw [h]; simp
  · rw [h]; simp [Event.isCheckSync]
  · rw [h]
    simp only [List.countP_cons, hstat, Event.isCheckSync]
    simp
  · rw [h]
    simp only [List.countP_cons, List.countP_append, hstat, hrest, Event.isCheckSync]
    simp

/-! ### The Reed-Solomon pass keeps the buffer length -/

theorem writeCorrections_length (r : RSResult) (k i : Nat) (js : List Nat) :
    ∀ sf out : List Byte, RSDecoder.writeCorrections r k i js sf = some out →
      out.length = sf.length := by
  induction js with
  | nil =>
    intro sf out h
    simp only [RSDecoder.writeCorrections, Option.some.injEq] at h
    rw [← h]
  | cons j js ih =>
    intro sf out h
    unfold RSDecoder.writeCorrections at h
    cases hl : r.corr_pos[j]? with
    | none => simp [hl] at h
    | some loc =>
      simp only [hl] at h
      by_cases hneg : loc - 135 < 0
      · rw [if_pos hneg] at h
        exact ih sf out h
      · rw [if_neg hneg] at h
        cases hb : r.rs_packet[(loc - 135).toNat]? with
        | none => simp [hb] at h
        | some b =>
          simp only [hb] at h
          split_ifs at h
          rw [ih _ out h, List.length_set]

theorem decodePackets_length (dec : List Byte → RSResult) (k : Nat) (is : List Nat) :
    ∀ st out : RSDecoder.Progress, RSDecoder.decodePackets dec k is st = some out →
      out.sf.length = st.sf.length := by
  induction is with
  | nil =>
    intro st out h
    simp only [RSDecoder.decodePackets, Option.some.injEq] at h
    rw [← h]
  | cons i is ih =>
    intro st out h
    unfold RSDecoder.decodePackets at h
    cases hp : RSDecoder.readPacket st.sf k i with
    | none => simp [hp] at h
    | some pkt =>
      simp only [hp] at h
      cases hw : RSDecoder.writeCorrections (dec pkt) k i
          (List.range (dec pkt).corr_count.toNat) st.sf with
      | none => simp [hw] at h
      | some sf1 =>
        simp only [hw] at h
        rw [ih _ out h]
        exact writeCorrections_length _ _ _ _ _ _ hw

theorem DecodeSuperframe_length (dec : List Byte → RSResult) (sf : List Byte) (n : Nat)
    (p : RSDecoder.Progress) (h : RSDecoder.DecodeSuperframe dec sf n = some p) :
    p.sf.length = sf.length :=
  decodePackets_length dec _ _ _ p h

/-! ### The sync check inside a decode attempt -/

theorem not_mem_of_attempt_false (l : List Event) (b : Bool)
    (h : ∀ e ∈ l, e.isAttempt = false) : Event.CheckSync b ∉ l := by
  intro hm
  have := h _ hm
  simp [Event.isAttempt] at this

/-- A `CheckSync` call recorded by a decode attempt identifies the branch taken. -/
theorem decodeAttempt_sync_mem (env : Env) (s : SuperframeFilter) (b : Bool)
    (h : Event.CheckSync b ∈ (decodeAttempt env s).1) :
    ∃ copy p s1, memcpy s.sf 0 s.sf_raw s.sf_len = some copy ∧
      RSDecoder.DecodeSuperframe env.decode_rs_char copy s.sf_len = some p ∧
      CheckSync env { s with sf := p.sf } = some (b, s1) ∧
      decodeAttempt env s =
        (Event.RSDecode copy :: rsStatistics p ++ Event.CheckSync b ::
            (if b then syncSuccess env s1 else syncFailure s1).1,
         (if b then syncSuccess env s1 else syncFailure s1).2) := by
  rcases decodeAttempt_cases env s with h1 | ⟨c, -, h1⟩ | ⟨c, p, -, h1⟩ |
    ⟨c, p, ok, s1, h1, h2, h3, h4⟩
  · rw [h1] at h; simp at h
  · rw [h1] at h; simp at h
  · rw [h1] at h
    simp only [List.mem_cons] at h
    rcases h with h | h
    · exact absurd h (by simp)
    · exact absurd h (not_mem_of_attempt_false _ b (rsStatistics_attempt p))
  · have hok : ok = b := by
      rw [h4] at h
      have h5 : Event.CheckSync b ∈ rsStatistics p ∨ b = ok ∨
          Event.CheckSync b ∈ (if ok = true then syncSuccess env s1 else syncFailure s1).1 := by
        simpa using h
      rcases h5 with h | h | h
      · exact absurd h (not_mem_of_attempt_false _ b (rsStatistics_attempt p))
      · exact h.symm
      · cases ok
        · exact absurd h (not_mem_of_attempt_false _ b (syncFailure_attempt s1))
        · exact absurd h (not_mem_of_attempt_false _ b (syncSuccess_attempt env s1))
    subst hok
    exact ⟨c, p, s1, h1, h2, h3, h4⟩

/-- A decode attempt on a sized filter leaves a sized filter. -/
theorem decodeAttempt_sized (env : Env) (s t : SuperframeFilter) (hs : Sized s)
    (h : (decodeAttempt env s).2 = some t) : Sized t := by
  obtain ⟨h10, hlen, h120, hraw, hsf, hc⟩ := hs
  obtain ⟨c, p, ok, s1, h1, h2, h3, h4⟩ := decodeAttempt_some env s t h
  have hcl := memcpy_length _ _ _ _ _ h1
  have hpl := DecodeSuperframe_length _ _ _ _ h2
  obtain ⟨-, e1, e2, -, e3, e4, e5, -, -⟩ := CheckSync_fields env _ s1 ok h3
  simp only at e1 e2 e3 e4 e5
  rcases h4 with ⟨-, ht⟩ | ⟨-, sf2, -, ht⟩
  · subst ht
    refine ⟨?_, ?_, ?_, ?_, ?_, ?_⟩
    · show 10 ≤ s1.frame_len; omega
    · show s1.sf_len = 5 * s1.frame_len; omega
    · show s1.sf_len % 120 = 0; omega
    · show s1.sf_raw.length = s1.sf_len; rw [e3, e5]; exact hraw
    · show s1.sf.length = s1.sf_len; rw [e4, e5, hpl, hcl]; exact hsf
    · show s1.frame_count ≤ 5; omega
  · obtain ⟨f1, -, -, f2, f3, f4, -⟩ := formatCheck_fields { s1 with sync_frames := 0 } sf2
    simp only at f1 f2 f3 f4
    subst ht
    refine ⟨?_, ?_, ?_, ?_, ?_, ?_⟩
    · show 10 ≤ (formatCheck _ sf2).2.frame_len; omega
    · show (formatCheck _ sf2).2.sf_len = 5 * (formatCheck _ sf2).2.frame_len; omega
    · show (formatCheck _ sf2).2.sf_len % 120 = 0; omega
    · show (formatCheck _ sf2).2.sf_raw.length = (formatCheck _ sf2).2.sf_len
      rw [f2, f4, e3, e5]; exact hraw
    · show (formatCheck _ sf2).2.sf.length = (formatCheck _ sf2).2.sf_len
      rw [f3, f4, e4, e5, hpl, hcl]; exact hsf
    · show 0 ≤ 5; omega


/-- From an empty window, frames of the established length are only stored until the
fifth one, which is the one that triggers the decode attempt. -/
theorem refill_then_attempt (env : Env) (t : SuperframeFilter) (fs : List (List Byte))
    (hs : Sized t) (hc : t.frame_count = 0) (hf : ∀ f ∈ fs, f.length = t.frame_len) :
    (fs.length < 5 → ∃ u, FeedAll env t fs = ([], some u)) ∧
    (fs.length = 5 → (FeedAll env t fs).1.countP Event.isRSDecode = 1) := by
  constructor
  · intro hn
    obtain ⟨u, hu, -⟩ := FeedAll_fill env fs t hs hf (by omega)
    exact ⟨u, hu⟩
  · intro hn
    have hf4 : ∀ f ∈ fs.take 4, f.length = t.frame_len :=
      fun f hm => hf f (List.mem_of_mem_take hm)
    have hl4 : (fs.take 4).length = 4 := by rw [List.length_take]; omega
    obtain ⟨u, hu, hus, hul, huc⟩ := FeedAll_fill env (fs.take 4) t hs hf4 (by omega)
    rw [hl4, hc] at huc
    obtain ⟨d, hd⟩ : ∃ d, fs.drop 4 = [d] := by
      have hl : (fs.drop 4).length = 1 := by rw [List.length_drop]; omega
      match hh : fs.drop 4, hl with
      | [d], _ => exact ⟨d, rfl⟩
    have hdl : d.length = u.frame_len := by
      rw [hul]
      exact hf d (List.mem_of_mem_drop (by rw [hd]; exact List.mem_singleton_self d))
    have hsplit : fs = fs.take 4 ++ [d] := by rw [← hd, List.take_append_drop]
    have hall := FeedAll_append env (fs.take 4) [d] t u [] hu
    rw [← hsplit] at hall
    have hF := Feed_sized env u d hus hdl
    rw [if_neg (by omega)] at hF
    have hlast : (FeedAll env u [d]).1 = (decodeAttempt env (pushFrame u d)).1 := by
      simp only [FeedAll, hF]
      cases (decodeAttempt env (pushFrame u d)).2 <;> simp
    rw [hall, List.nil_append, hlast]
    exact decodeAttempt_one_RSDecode env _ (pushFrame_sized u d hus hdl)

/-- C4 (amended). On a sized filter fed a frame of the established length: if the decode
attempt made by this `Feed` passed the sync check and `Feed` ran to its end, the frame
counter is 0 afterwards, so the next four frames are only stored and the fifth triggers
the next attempt; if the sync check failed, `Feed` returns with the frame counter still
at 5, so the very next frame triggers the next attempt. -/
theorem frame_count_after_attempt (env : Env) (s : SuperframeFilter) (data : List Byte)
    (hs : Sized s) (hd : data.length = s.frame_len) :
    (Event.CheckSync true ∈ (Feed env s data).1 →
      ∀ t, (Feed env s data).2 = some t →
        t.frame_count = 0 ∧
        ∀ fs : List (List Byte), (∀ f ∈ fs, f.length = s.frame_len) →
          (fs.length < 5 → ∃ u, FeedAll env t fs = ([], some u)) ∧
          (fs.length = 5 → (FeedAll env t fs).1.countP Event.isRSDecode = 1)) ∧
    (Event.CheckSync false ∈ (Feed env s data).1 →
      ∃ t, (Feed env s data).2 = some t ∧ t.frame_count = 5 ∧
        ∀ d : List Byte, d.length = s.frame_len →
          (Feed env t d).1.countP Event.isRSDecode = 1) := by
  have hF := Feed_sized env s data hs hd
  have hps := pushFrame_sized s data hs hd
  obtain ⟨-, pl, -, -, -, -, -, pc⟩ := pushFrame_fields s data
  by_cases hc : s.frame_count < 4
  · rw [if_pos hc] at hF
    rw [hF]
    exact ⟨fun h => absurd h (by simp), fun h => absurd h (by simp)⟩
  · rw [if_neg hc] at hF
    have hc5 : (pushFrame s data).frame_count = 5 := by
      have h5 := hs.2.2.2.2.2
      rw [pc]; split_ifs <;> [rfl; omega]
    rw [hF]
    constructor
    · intro hm t ht
      have hts := decodeAttempt_sized env _ t hps ht
      have htl := (decodeAttempt_keeps env _ t ht).1
      obtain ⟨c, p, s1, -, -, -, h4⟩ := decodeAttempt_sync_mem env _ true hm
      rw [h4] at ht
      simp only [if_true] at ht
      obtain ⟨sf2, -, he⟩ := syncSuccess_state env s1 t ht
      have htc : t.frame_count = 0 := by rw [he]
      refine ⟨htc, fun fs hf => ?_⟩
      exact refill_then_attempt env t fs hts htc (fun f hfm => by rw [htl, pl]; exact hf f hfm)
    · intro hm
      obtain ⟨c, p, s1, -, -, h3, h4⟩ := decodeAttempt_sync_mem env _ false hm
      have ht : (decodeAttempt env (pushFrame s data)).2
          = some { s1 with sync_frames := s1.sync_frames + 1 } := by
        rw [h4]; rfl
      have hts := decodeAttempt_sized env _ _ hps ht
      have htl := (decodeAttempt_keeps env _ _ ht).1
      obtain ⟨-, -, e2, -⟩ := CheckSync_fields env _ s1 false h3
      have htc : ({ s1 with sync_frames := s1.sync_frames + 1 } : SuperframeFilter).frame_count
          = 5 := by
        show s1.frame_count = 5
        rw [e2]; exact hc5
      refine ⟨_, ht, htc, fun d hdl => ?_⟩
      have hdl2 : d.length
          = ({ s1 with sync_frames := s1.sync_frames + 1 } : SuperframeFilter).frame_len := by
        rw [htl, pl]; exact hdl
      rw [Feed_sized env _ d hts hdl2, if_neg (by rw [htc]; omega)]
      exact decodeAttempt_one_RSDecode env _ (pushFrame_sized _ d hts hdl2)

/-- Witness for C4 (amended): a fifth frame of zeros, whose attempt fails the sync
check. -/
theorem frame_count_after_attempt_witness :
    (Event.CheckSync true ∈ (Feed env0 heldFour zeroFrame).1 →
      ∀ t, (Feed env0 heldFour zeroFrame).2 = some t →
        t.frame_count = 0 ∧
        ∀ fs : List (List Byte), (∀ f ∈ fs, f.length = heldFour.frame_len) →
          (fs.length < 5 → ∃ u, FeedAll env0 t fs = ([], some u)) ∧
          (fs.length = 5 → (FeedAll env0 t fs).1.countP Event.isRSDecode = 1)) ∧
    (Event.CheckSync false ∈ (Feed env0 heldFour zeroFrame).1 →
      ∃ t, (Feed env0 heldFour zeroFrame).2 = some t ∧ t.frame_count = 5 ∧
        ∀ d : List Byte, d.length = heldFour.frame_len →
          (Feed env0 t d).1.countP Event.isRSDecode = 1) :=
  frame_count_after_attempt env0 heldFour zeroFrame (by decide) (by decide)

set_option maxRecDepth 100000 in
/-- C4 as stated fails: after five frames of zeros the decode attempt fails the sync
check (no CRC is consulted, `sf[3] = sf[4] = 0`), the frame counter is 5 and not 0, and
the sixth frame already triggers the second decode attempt. -/
theorem frame_count_kept_after_sync_failure :
    Event.CheckSync false ∈ (FeedAll env0 init (List.replicate 5 zeroFrame)).1 ∧
    (FeedAll env0 init (List.replicate 5 zeroFrame)).2.map SuperframeFilter.frame_count
      = some 5 ∧
    (FeedAll env0 init (List.replicate 5 zeroFrame)).1.countP Event.isRSDecode = 1 ∧
    (FeedAll env0 init (List.replicate 6 zeroFrame)).1.countP Event.isRSDecode = 2 := by
  decide

/-! ### The raw window and the history of accepted frames -/

theorem lastFrames_snoc (n : Nat) (h : List (List Byte)) (d : List Byte)
    (hn : n ≤ h.length) : lastFrames (n + 1) (h ++ [d]) = lastFrames n h ++ [d] := by
  unfold lastFrames
  rw [List.length_append, List.length_singleton,
    show h.length + 1 - (n + 1) = h.length - n by omega]
  exact List.drop_append_of_le_length (by omega)

theorem lastFrames_succ (n : Nat) (h : List (List Byte)) (hn : n + 1 ≤ h.length) :
    ∃ x ∈ h, lastFrames (n + 1) h = x :: lastFrames n h := by
  unfold lastFrames
  have hlt : h.length - (n + 1) < h.length := by omega
  refine ⟨h[h.length - (n + 1)], List.getElem_mem _, ?_⟩
  rw [List.drop_eq_getElem_cons hlt, show h.length - (n + 1) + 1 = h.length - n by omega]

theorem flatten_length_of_all (l : List (List Byte)) (n : Nat)
    (h : ∀ f ∈ l, f.length = n) : l.flatten.length = l.length * n := by
  induction l with
  | nil => simp
  | cons x xs ih =>
    rw [List.flatten_cons, List.length_append, ih (fun f hf => h f (List.mem_cons_of_mem _ hf)),
      h x (List.mem_cons_self _ _), List.length_cons, Nat.succ_mul, Nat.add_comm]

theorem lastFrames_length (n : Nat) (h : List (List Byte)) (hn : n ≤ h.length) :
    (lastFrames n h).length = n := by
  unfold lastFrames; rw [List.length_drop]; omega

theorem mem_lastFrames (n : Nat) (h : List (List Byte)) (f : List Byte)
    (hf : f ∈ lastFrames n h) : f ∈ h := List.mem_of_mem_drop hf

/-- Storing one more frame of the right length keeps the window in step with the
history. -/
theorem pushFrame_window (s : SuperframeFilter) (h : List (List Byte)) (d : List Byte)
    (hs : Sized s) (hw : Window s h) (hd : d.length = s.frame_len) :
    Window (pushFrame s d) (h ++ [d]) := by
  obtain ⟨h10, hlen, h120, hraw, hsf, hc⟩ := hs
  obtain ⟨w1, w2, w3⟩ := hw
  have hall : ∀ f ∈ h ++ [d], f.length = s.frame_len := by
    intro f hf
    rcases List.mem_append.mp hf with hf | hf
    · exact w2 f hf
    · rw [List.mem_singleton.mp hf]; exact hd
  unfold pushFrame
  by_cases h5 : s.frame_count = 5
  · rw [if_pos h5]
    refine ⟨by show s.frame_count ≤ (h ++ [d]).length; rw [List.length_append]; omega,
      hall, ?_⟩
    show List.take (s.frame_count * s.frame_len) (List.drop s.frame_len s.sf_raw ++ d)
      = (lastFrames s.frame_count (h ++ [d])).flatten
    have hfull : s.sf_raw = (lastFrames 5 h).flatten := by
      rw [← h5, ← w3, List.take_of_length_le]; rw [hraw, hlen, h5]
    obtain ⟨x, hx, hxs⟩ := lastFrames_succ 4 h (by omega)
    have hdrop : List.drop s.frame_len s.sf_raw = (lastFrames 4 h).flatten := by
      rw [hfull, hxs, List.flatten_cons]
      exact List.drop_left' (w2 x hx)
    rw [h5, lastFrames_snoc 4 h d (by omega), List.flatten_append, hdrop]
    rw [List.take_of_length_le]
    · simp
    · rw [List.length_append, flatten_length_of_all _ s.frame_len
        (fun f hf => w2 f (mem_lastFrames _ _ _ hf)), lastFrames_length 4 h (by omega), hd]
      omega
  · rw [if_neg h5]
    refine ⟨by show s.frame_count + 1 ≤ (h ++ [d]).length; rw [List.length_append,
      List.length_singleton]; omega, hall, ?_⟩
    show List.take ((s.frame_count + 1) * s.frame_len)
        (List.take (s.frame_count * s.frame_len) s.sf_raw ++ d
          ++ List.drop ((s.frame_count + 1) * s.frame_len) s.sf_raw)
      = (lastFrames (s.frame_count + 1) (h ++ [d])).flatten
    rw [lastFrames_snoc _ h d w1, List.flatten_append, ← w3]
    have hl : (List.take (s.frame_count * s.frame_len) s.sf_raw ++ d).length
        = (s.frame_count + 1) * s.frame_len := by
      rw [List.length_append, List.length_take, hd, Nat.succ_mul, hraw, hlen]
      have : s.frame_count * s.frame_len ≤ 5 * s.frame_len :=
        Nat.mul_le_mul_right _ hc
      omega
    rw [List.take_left' hl]
    simp

/-- A decode attempt leaves the window in step with the history. -/
theorem decodeAttempt_window (env : Env) (s t : SuperframeFilter) (h : List (List Byte))
    (hw : Window s h) (ht : (decodeAttempt env s).2 = some t) : Window t h := by
  obtain ⟨w1, w2, w3⟩ := hw
  obtain ⟨kl, -, kraw⟩ := decodeAttempt_keeps env s t ht
  obtain ⟨c, p, ok, s1, -, -, h3, h4⟩ := decodeAttempt_some env s t ht
  obtain ⟨-, -, e2, -⟩ := CheckSync_fields env _ s1 ok h3
  have hcount : t.frame_count = s.frame_count ∨ t.frame_count = 0 := by
    rcases h4 with ⟨-, he⟩ | ⟨-, sf2, -, he⟩
    · left; rw [he]; exact e2
    · right; rw [he]
  rcases hcount with hc | hc
  · exact ⟨by omega, fun f hf => by rw [kl]; exact w2 f hf, by rw [hc, kl, kraw]; exact w3⟩
  · refine ⟨by omega, fun f hf => by rw [kl]; exact w2 f hf, ?_⟩
    rw [hc, Nat.zero_mul, List.take_zero]
    unfold lastFrames
    rw [Nat.sub_zero, List.drop_length]
    rfl


theorem Feed_allocates (env : Env) (s : SuperframeFilter) (d : List Byte)
    (h0 : s.frame_len = 0) (h10 : 10 ≤ d.length) (h120 : 5 * d.length % 120 = 0)
    (hno : 5 * d.length < 2 ^ 64) :
    Feed env s d = accumulate env (allocated s d.length) d := by
  have hmod : 5 * d.length % 2 ^ 64 = 5 * d.length := Nat.mod_eq_of_lt hno
  unfold Feed allocated
  simp only [h0, ne_eq, not_true_eq_false, if_false, hmod, h120]
  rw [if_neg (by omega)]

theorem allocated_sized (s : SuperframeFilter) (len : Nat) (h10 : 10 ≤ len)
    (h120 : 5 * len % 120 = 0) (hc : s.frame_count ≤ 5) : Sized (allocated s len) :=
  ⟨h10, rfl, h120, List.length_replicate _ _, List.length_replicate _ _, hc⟩

theorem Feed_dropped_first (env : Env) (s : SuperframeFilter) (d : List Byte)
    (h0 : s.frame_len = 0) (hbad : ¬ (10 ≤ d.length ∧ 5 * d.length % 120 = 0))
    (hno : 5 * d.length < 2 ^ 64) : ∃ m, Feed env s d = ([Event.Log m], some s) := by
  have hmod : 5 * d.length % 2 ^ 64 = 5 * d.length := Nat.mod_eq_of_lt hno
  unfold Feed
  simp only [h0, ne_eq, not_true_eq_false, if_false, hmod]
  by_cases h10 : d.length < 10
  · exact ⟨_, by rw [if_pos h10]⟩
  · rw [if_neg h10, if_pos (by omega)]
    exact ⟨_, rfl⟩

theorem Feed_dropped_later (env : Env) (s : SuperframeFilter) (d : List Byte)
    (h0 : s.frame_len ≠ 0) (hne : d.length ≠ s.frame_len) :
    Feed env s d = ([Event.Log (LogMsg.different_frame_len d.length s.frame_len)], some s) := by
  unfold Feed
  simp only [h0, ne_eq, not_false_eq_true, if_true]
  rw [if_pos (fun h => hne h.symm)]

/-- The four ways `Feed` treats a frame, seen from a tracked state: dropped (state and
history unchanged), or accepted and pushed onto a sized filter `s0` that still tracks
the history, with the decode attempt from the fifth held frame on. -/
theorem Feed_tracked (env : Env) (s : SuperframeFilter) (h : List (List Byte))
    (d : List Byte) (hT : Tracked s h) (hno : 5 * d.length < 2 ^ 64) :
    ((∃ m, Feed env s d = ([Event.Log m], some s)) ∧ acceptedFrames s.frame_len [d] = [] ∧
      ∀ ds, acceptedFrames s.frame_len (d :: ds) = acceptedFrames s.frame_len ds) ∨
    (∃ s0, (s.frame_len ≠ 0 → s0 = s) ∧ (s.frame_len = 0 → s0 = allocated s d.length) ∧
      Sized s0 ∧ Window s0 h ∧ d.length = s0.frame_len ∧
      Feed env s d = (if s0.frame_count < 4 then ([], some (pushFrame s0 d))
                      else decodeAttempt env (pushFrame s0 d)) ∧
      acceptedFrames s.frame_len [d] = [d] ∧
      ∀ ds, acceptedFrames s.frame_len (d :: ds) = d :: acceptedFrames s0.frame_len ds) := by
  by_cases h0 : s.frame_len = 0
  · obtain ⟨hc0, hh⟩ := hT.1 h0
    by_cases hv : 10 ≤ d.length ∧ 5 * d.length % 120 = 0
    · right
      have hsz := allocated_sized s d.length hv.1 hv.2 (by omega)
      refine ⟨allocated s d.length, fun hn => absurd h0 hn, fun _ => rfl, hsz, ?_, rfl, ?_, ?_,
        ?_⟩
      · subst hh
        exact ⟨by show s.frame_count ≤ 0; omega, fun f hf => absurd hf (List.not_mem_nil f), by
          show List.take (s.frame_count * d.length) _ = _
          rw [hc0]; simp [lastFrames]⟩
      · rw [Feed_allocates env s d h0 hv.1 hv.2 hno]
        exact accumulate_sized env _ d hsz rfl
      · simp only [acceptedFrames, h0, ne_eq, not_true_eq_false, if_false, hv, and_self,
          if_true]
      · intro ds
        simp only [acceptedFrames, h0, ne_eq, not_true_eq_false, if_false, hv, and_self,
          if_true]
        rfl
    · left
      refine ⟨Feed_dropped_first env s d h0 hv hno, ?_, ?_⟩
      · simp only [acceptedFrames, h0, ne_eq, not_true_eq_false, if_false, hv]
      · intro ds
        simp only [acceptedFrames, h0, ne_eq, not_true_eq_false, if_false, hv]
  · obtain ⟨hsz, hw⟩ := hT.2 h0
    by_cases hd : d.length = s.frame_len
    · right
      refine ⟨s, fun _ => rfl, fun hz => absurd hz h0, hsz, hw, hd, Feed_sized env s d hsz hd,
        ?_, ?_⟩
      · simp only [acceptedFrames, h0, ne_eq, not_false_eq_true, if_true, hd]
      · intro ds
        simp only [acceptedFrames, h0, ne_eq, not_false_eq_true, if_true, hd]
    · left
      refine ⟨⟨_, Feed_dropped_later env s d h0 hd⟩, ?_, ?_⟩
      · simp only [acceptedFrames, h0, ne_eq, not_false_eq_true, if_true, hd, if_false]
      · intro ds
        simp only [acceptedFrames, h0, ne_eq, not_false_eq_true, if_true, hd, if_false]


theorem Feed_tracked_step (env : Env) (s t : SuperframeFilter) (h : List (List Byte))
    (d : List Byte) (hT : Tracked s h) (hno : 5 * d.length < 2 ^ 64)
    (ht : (Feed env s d).2 = some t) :
    Tracked t (h ++ acceptedFrames s.frame_len [d]) ∧
    ∀ ds, acceptedFrames s.frame_len (d :: ds)
      = acceptedFrames s.frame_len [d] ++ acceptedFrames t.frame_len ds := by
  rcases Feed_tracked env s h d hT hno with ⟨⟨m, hF⟩, ha, hds⟩ |
    ⟨s0, -, -, hsz, hw, hd, hF, ha, hds⟩
  · rw [hF] at ht
    have := Option.some.inj ht
    subst this
    rw [ha, List.append_nil]
    exact ⟨hT, fun ds => by rw [hds ds, List.nil_append]⟩
  · have hps := pushFrame_sized s0 d hsz hd
    have hpw := pushFrame_window s0 h d hsz hw hd
    have hpl := (pushFrame_fields s0 d).2.1
    have key : Sized t ∧ Window t (h ++ [d]) ∧ t.frame_len = s0.frame_len := by
      rw [hF] at ht
      by_cases hc : s0.frame_count < 4
      · rw [if_pos hc] at ht
        have := Option.some.inj ht
        subst this
        exact ⟨hps, hpw, hpl⟩
      · rw [if_neg hc] at ht
        exact ⟨decodeAttempt_sized env _ t hps ht, decodeAttempt_window env _ t _ hpw ht,
          (decodeAttempt_keeps env _ t ht).1.trans hpl⟩
    obtain ⟨k1, k2, k3⟩ := key
    rw [ha]
    refine ⟨⟨fun h0 => ?_, fun _ => ⟨k1, k2⟩⟩, fun ds => ?_⟩
    · have := k1.1; omega
    · rw [hds ds, k3]; rfl

theorem FeedAll_tracked (env : Env) (fs : List (List Byte)) :
    ∀ (s t : SuperframeFilter) (h : List (List Byte)) (ev : List Event), Tracked s h →
      (∀ f ∈ fs, 5 * f.length < 2 ^ 64) → FeedAll env s fs = (ev, some t) →
      Tracked t (h ++ acceptedFrames s.frame_len fs) ∧
      ∀ ys, acceptedFrames s.frame_len (fs ++ ys)
        = acceptedFrames s.frame_len fs ++ acceptedFrames t.frame_len ys := by
  induction fs with
  | nil =>
    intro s t h ev hT _ hrun
    simp only [FeedAll, Prod.mk.injEq, Option.some.injEq] at hrun
    obtain ⟨-, rfl⟩ := hrun
    refine ⟨?_, fun ys => ?_⟩
    · rw [show acceptedFrames s.frame_len [] = [] from rfl, List.append_nil]; exact hT
    · rw [show acceptedFrames s.frame_len [] = [] from rfl, List.nil_append, List.nil_append]
  | cons d ds ih =>
    intro s t h ev hT hno hrun
    simp only [FeedAll] at hrun
    cases hf : (Feed env s d).2 with
    | none => simp only [hf] at hrun; exact absurd (congrArg Prod.snd hrun) (by simp)
    | some s1 =>
      simp only [hf] at hrun
      obtain ⟨hT1, hacc⟩ := Feed_tracked_step env s s1 h d hT
        (hno d (List.mem_cons_self _ _)) hf
      have h1 : (FeedAll env s1 ds).2 = some t := congrArg Prod.snd hrun
      obtain ⟨hT2, hacc2⟩ := ih s1 t _ (FeedAll env s1 ds).1 hT1
        (fun f hfm => hno f (List.mem_cons_of_mem _ hfm)) (Prod.ext rfl h1)
      constructor
      · rw [hacc ds, ← List.append_assoc]; exact hT2
      · intro ys
        rw [List.cons_append, hacc (ds ++ ys), hacc2 ys, hacc ds, List.append_assoc]

theorem init_tracked : Tracked init [] :=
  ⟨fun _ => ⟨rfl, rfl⟩, fun h => absurd rfl h⟩

/-- The buffer handed to `DecodeSuperframe` by a decode attempt on a sized filter is the
raw window. -/
theorem decodeAttempt_RSDecode_buf (env : Env) (s : SuperframeFilter) (buf : List Byte)
    (hs : Sized s) (h : Event.RSDecode buf ∈ (decodeAttempt env s).1) : buf = s.sf_raw := by
  obtain ⟨-, -, -, hraw, hsf, -⟩ := hs
  have hm := memcpy_eq s.sf s.sf_raw 0 s.sf_len (by omega) (by omega)
  have hcopy : List.take 0 s.sf ++ List.take s.sf_len s.sf_raw ++ List.drop (0 + s.sf_len) s.sf
      = s.sf_raw := by
    rw [List.take_zero, List.nil_append, ← hraw, List.take_length, Nat.zero_add, hraw, ← hsf,
      List.drop_length, List.append_nil]
  rw [hcopy] at hm
  have hno : ∀ l : List Event, (∀ e ∈ l, e.isAttempt = false) → Event.RSDecode buf ∉ l := by
    intro l hl hmem
    have := hl _ hmem
    simp [Event.isAttempt] at this
  rcases decodeAttempt_cases env s with h1 | ⟨c, hc, h1⟩ | ⟨c, p, hc, h1⟩ |
    ⟨c, p, ok, s1, hc, -, -, h1⟩
  · rw [h1] at h; simp at h
  · rw [h1] at h
    rw [hm] at hc
    have := Option.some.inj hc
    subst this
    simpa using h
  · rw [h1] at h
    rw [hm] at hc
    have := Option.some.inj hc
    subst this
    have h5 : buf = s.sf_raw ∨ Event.RSDecode buf ∈ rsStatistics p := by simpa using h
    rcases h5 with h5 | h5
    · exact h5
    · exact absurd h5 (hno _ (rsStatistics_attempt p))
  · rw [h1] at h
    rw [hm] at hc
    have := Option.some.inj hc
    subst this
    have h5 : buf = s.sf_raw ∨ Event.RSDecode buf ∈ rsStatistics p ∨
        Event.RSDecode buf ∈ (if ok = true then syncSuccess env s1 else syncFailure s1).1 := by
      simpa using h
    rcases h5 with h5 | h5 | h5
    · exact h5
    · exact absurd h5 (hno _ (rsStatistics_attempt p))
    · cases ok
      · exact absurd h5 (hno _ (syncFailure_attempt s1))
      · exact absurd h5 (hno _ (syncSuccess_attempt env s1))

/-- C5. In any run of `Feed` from the constructed filter (frame lengths with fivefold
below `2 ^ 64`), whenever a call of `Feed` makes a decode attempt, the buffer handed to
`DecodeSuperframe` is the concatenation, in arrival order, of the five most recently
accepted frames, the frame just fed included; it is the raw window after the update of
this call (for a full window: the held frames moved down one slot, the new frame last),
and the raw window is still this buffer when `Feed` returns. -/
theorem raw_window_at_attempt (env : Env) (fs : List (List Byte)) (d : List Byte)
    (ev : List Event) (s : SuperframeFilter) (buf : List Byte)
    (hno : ∀ f ∈ fs, 5 * f.length < 2 ^ 64) (hnod : 5 * d.length < 2 ^ 64)
    (hrun : FeedAll env init fs = (ev, some s))
    (hbuf : Event.RSDecode buf ∈ (Feed env s d).1) :
    5 ≤ (acceptedFrames 0 (fs ++ [d])).length ∧
    buf = (lastFrames 5 (acceptedFrames 0 (fs ++ [d]))).flatten ∧
    (s.frame_count = 5 → buf = s.sf_raw.drop s.frame_len ++ d) ∧
    (s.frame_count ≠ 5 → buf = s.sf_raw.take (4 * s.frame_len) ++ d) ∧
    ∀ t, (Feed env s d).2 = some t → t.sf_raw = buf := by
  obtain ⟨hT0, hacc⟩ := FeedAll_tracked env fs init s [] ev init_tracked hno hrun
  have hT : Tracked s (acceptedFrames 0 fs) := by
    rw [List.nil_append] at hT0; exact hT0
  have hacc1 : acceptedFrames 0 (fs ++ [d])
      = acceptedFrames 0 fs ++ acceptedFrames s.frame_len [d] := hacc [d]
  rcases Feed_tracked env s _ d hT hnod with ⟨⟨m, hF⟩, -, -⟩ |
    ⟨s0, hs1, hs2, hsz, hw, hd, hF, ha, -⟩
  · rw [hF] at hbuf; simp at hbuf
  · by_cases hc : s0.frame_count < 4
    · rw [hF, if_pos hc] at hbuf; simp at hbuf
    · rw [if_neg hc] at hF
      rw [hF] at hbuf
      have hs0 : s0 = s := by
        by_cases hz : s.frame_len = 0
        · have h1 := hs2 hz
          have h2 := (hT.1 hz).1
          rw [h1] at hc
          exact absurd (show (allocated s d.length).frame_count < 4 by
            show s.frame_count < 4; omega) hc
        · exact hs1 hz
      subst hs0
      have hps := pushFrame_sized s0 d hsz hd
      have hpw := pushFrame_window s0 _ d hsz hw hd
      have hb := decodeAttempt_RSDecode_buf env _ buf hps hbuf
      obtain ⟨-, pl, -, -, -, -, -, pc⟩ := pushFrame_fields s0 d
      have hc5 : (pushFrame s0 d).frame_count = 5 := by
        have h5 := hsz.2.2.2.2.2
        rw [pc]; split_ifs <;> [rfl; omega]
      obtain ⟨w1, w2, w3⟩ := hpw
      rw [hc5] at w1 w3
      rw [hacc1, ha]
      refine ⟨w1, ?_, ?_, ?_, ?_⟩
      · rw [hb, ← w3, List.take_of_length_le]
        rw [hps.2.2.2.1, hps.2.1]
      · intro h5
        rw [hb]
        unfold pushFrame
        rw [if_pos h5]
      · intro h5
        have h4 : s0.frame_count = 4 := by have := hsz.2.2.2.2.2; omega
        rw [hb]
        unfold pushFrame
        rw [if_neg h5]
        show List.take (s0.frame_count * s0.frame_len) s0.sf_raw ++ d
            ++ List.drop ((s0.frame_count + 1) * s0.frame_len) s0.sf_raw = _
        rw [h4, List.drop_of_length_le (by rw [hsz.2.2.2.1, hsz.2.1]), List.append_nil]
      · intro t ht
        rw [hF] at ht
        rw [(decodeAttempt_keeps env _ t ht).2.2, hb]

set_option maxRecDepth 100000 in
/-- Witness for C5: the fifth of five frames of zeros. -/
theorem raw_window_at_attempt_witness :
    5 ≤ (acceptedFrames 0 (List.replicate 4 zeroFrame ++ [zeroFrame])).length ∧
    List.replicate 120 (0 : Byte)
      = (lastFrames 5 (acceptedFrames 0 (List.replicate 4 zeroFrame ++ [zeroFrame]))).flatten ∧
    (heldFour.frame_count = 5 →
      List.replicate 120 (0 : Byte) = heldFour.sf_raw.drop heldFour.frame_len ++ zeroFrame) ∧
    (heldFour.frame_count ≠ 5 →
      List.replicate 120 (0 : Byte)
        = heldFour.sf_raw.take (4 * heldFour.frame_len) ++ zeroFrame) ∧
    ∀ t, (Feed env0 heldFour zeroFrame).2 = some t → t.sf_raw = List.replicate 120 (0 : Byte) :=
  raw_window_at_attempt env0 (List.replicate 4 zeroFrame) zeroFrame [] heldFour
    (List.replicate 120 0) (by decide) (by decide) (by rfl) (by decide)

/-! ### The sync check in closed form -/

theorem CheckSync_eq (env : Env) (s : SuperframeFilter) (h : 11 ≤ s.sf.length) :
    CheckSync env s = some (
      if s.sf.getD 3 0 = 0 ∧ s.sf.getD 4 0 = 0 then (false, s)
      else if fireCodeOK env s.sf = false then (false, s)
      else (offsetsIncreasing (headerTable s.au_start s.sf s.sf_len)
              (numAUs (headerFormat s.sf)), syncedState s)) := by
  unfold CheckSync
  rw [getElem?_eq_some_getD _ 0 (by omega), getElem?_eq_some_getD _ 1 (by omega),
    getElem?_eq_some_getD _ 2 (by omega), getElem?_eq_some_getD _ 3 (by omega),
    getElem?_eq_some_getD _ 4 (by omega), getElem?_eq_some_getD _ 5 (by omega),
    getElem?_eq_some_getD _ 6 (by omega), getElem?_eq_some_getD _ 7 (by omega),
    getElem?_eq_some_getD _ 8 (by omega), getElem?_eq_some_getD _ 9 (by omega),
    getElem?_eq_some_getD _ 10 (by omega)]
  have hr : readBytes s.sf 2 9 = some ((s.sf.drop 2).take 9) := by
    unfold readBytes; rw [if_pos (by omega)]
  rw [hr]
  simp only [Option.bind_eq_bind, Option.some_bind, Option.pure_def]
  by_cases h0 : s.sf.getD 3 0 = 0 ∧ s.sf.getD 4 0 = 0
  · rw [if_pos h0, if_pos h0]
  · rw [if_neg h0, if_neg h0]
    by_cases hf : fireCodeOK env s.sf = false
    · rw [if_pos hf, if_pos]
      simpa [fireCodeOK] using hf
    · rw [if_neg hf, if_neg]
      · rfl
      · simpa [fireCodeOK] using hf

theorem numAUs_ge_two (f : SuperframeFormat) : 2 ≤ numAUs f := by
  unfold numAUs; split_ifs <;> omega

theorem firstAUStart_ge_five (f : SuperframeFormat) : 5 ≤ firstAUStart f := by
  unfold firstAUStart; split_ifs <;> omega

theorem fillAUStart_zero (a : Nat → Nat) (f : SuperframeFormat) (n : Nat)
    (b3 b4 b5 b6 b7 b8 b9 b10 : Byte) :
    fillAUStart a f n b3 b4 b5 b6 b7 b8 b9 b10 0 = firstAUStart f := by
  unfold fillAUStart
  have h2 := numAUs_ge_two f
  have hn0 : (0 : Nat) ≠ numAUs f := by omega
  split_ifs <;>
    simp [Function.update, hn0]

theorem fillAUStart_one (a : Nat → Nat) (f : SuperframeFormat) (n : Nat)
    (b3 b4 b5 b6 b7 b8 b9 b10 : Byte) :
    fillAUStart a f n b3 b4 b5 b6 b7 b8 b9 b10 1 = b3.val <<< 4 ||| b4.val >>> 4 := by
  unfold fillAUStart
  split_ifs <;>
    simp [Function.update]

/-- With `sf[3] = sf[4] = 0` the offset table is not increasing: its second entry is 0. -/
theorem offsets_not_increasing_of_zero (a : Nat → Nat) (sf : List Byte) (n : Nat)
    (h : sf.getD 3 0 = 0 ∧ sf.getD 4 0 = 0) :
    offsetsIncreasing (headerTable a sf n) (numAUs (headerFormat sf)) = false := by
  unfold offsetsIncreasing
  rw [List.all_eq_false]
  refine ⟨0, List.mem_range.mpr (by have := numAUs_ge_two (headerFormat sf); omega), ?_⟩
  unfold headerTable
  rw [fillAUStart_zero, fillAUStart_one, h.1, h.2]
  have := firstAUStart_ge_five (headerFormat sf)
  simp

theorem CheckSync_result (env : Env) (s : SuperframeFilter) (h : 11 ≤ s.sf.length) :
    ∃ s1, CheckSync env s = some
      (fireCodeOK env s.sf && offsetsIncreasing (headerTable s.au_start s.sf s.sf_len)
        (numAUs (headerFormat s.sf)), s1) ∧
      ((fireCodeOK env s.sf && offsetsIncreasing (headerTable s.au_start s.sf s.sf_len)
        (numAUs (headerFormat s.sf))) = true → s1 = syncedState s) := by
  rw [CheckSync_eq env s h]
  by_cases h0 : s.sf.getD 3 0 = 0 ∧ s.sf.getD 4 0 = 0
  · rw [if_pos h0, offsets_not_increasing_of_zero _ _ _ h0, Bool.and_false]
    exact ⟨s, rfl, fun hc => absurd hc (by simp)⟩
  · rw [if_neg h0]
    by_cases hf : fireCodeOK env s.sf = false
    · rw [if_pos hf, hf, Bool.false_and]
      exact ⟨s, rfl, fun hc => absurd hc (by simp)⟩
    · rw [if_neg hf]
      have hf1 : fireCodeOK env s.sf = true := by simpa using hf
      rw [hf1, Bool.true_and]
      exact ⟨_, rfl, fun _ => rfl⟩


/-- After a successful sync check `Feed` runs the loop over the access units of the
table: the calls before the loop are log lines and the format change, the state
returned is the one of the format check with `frame_count` reset, unless a round of the
loop left the buffer or `DecodeFrame` threw. -/
theorem syncSuccess_trace (env : Env) (s : SuperframeFilter) (h : 3 ≤ s.sf.length) :
    ∃ pre, (syncSuccess env s).1
        = pre ++ (processAUs env s.sf s.au_start (List.range s.num_aus)).1 ∧
      (∀ e ∈ pre, e.isAttempt = false ∧ e.isDecodeFrame = false ∧ e.isProcessPAD = false) ∧
      (syncSuccess env s).2 =
        if (processAUs env s.sf s.au_start (List.range s.num_aus)).2 = true then
          some { (formatCheck { s with sync_frames := 0 } (s.sf.getD 2 0)).2 with
                 frame_count := 0 }
        else none := by
  have h2 : s.sf[2]? = some (s.sf.getD 2 0) := getElem?_eq_some_getD _ 2 (by omega)
  obtain ⟨-, -, -, -, f1, -, -, -, -, f2, f3⟩ :=
    formatCheck_fields { s with sync_frames := 0 } (s.sf.getD 2 0)
  simp only at f1 f2 f3
  unfold syncSuccess
  simp only [h2, f1, f2, f3]
  refine ⟨_, rfl, ?_, trivial⟩
  intro e he
  rcases List.mem_append.mp he with he | he
  · split_ifs at he <;> simp at he
    subst he; exact ⟨rfl, rfl, rfl⟩
  · unfold formatCheck ProcessFormat at he
    split_ifs at he <;> simp at he
    all_goals rcases he with rfl | rfl | rfl <;> exact ⟨rfl, rfl, rfl⟩

/-- C6. On a corrected buffer of `sf_len = 120 * k` bytes (`k >= 1`), `CheckSync` returns
true exactly when the stored fire code equals the one computed over the header and the
offset table `au_start[0 .. num_aus]` is strictly increasing; the rejection of
`sf[3] = sf[4] = 0` never changes this, the table not being increasing then. When both
hold, `CheckSync` leaves the parsed format and table in the state, and the decode
attempt working on this buffer records the successful check and then runs the loop over
the access units of this table. -/
theorem checkSync_iff (env : Env) (s : SuperframeFilter) (k : Nat) (hk : 1 ≤ k)
    (hlen : s.sf_len = 120 * k) (hsf : s.sf.length = s.sf_len) :
    (∃ s1, CheckSync env s = some
      (fireCodeOK env s.sf && offsetsIncreasing (headerTable s.au_start s.sf s.sf_len)
        (numAUs (headerFormat s.sf)), s1)) ∧
    (s.sf.getD 3 0 = 0 ∧ s.sf.getD 4 0 = 0 →
      offsetsIncreasing (headerTable s.au_start s.sf s.sf_len) (numAUs (headerFormat s.sf))
        = false) ∧
    (fireCodeOK env s.sf = true →
      offsetsIncreasing (headerTable s.au_start s.sf s.sf_len) (numAUs (headerFormat s.sf))
        = true →
      CheckSync env s = some (true, syncedState s) ∧
      ∀ (s0 : SuperframeFilter) (copy : List Byte) (p : RSDecoder.Progress),
        memcpy s0.sf 0 s0.sf_raw s0.sf_len = some copy →
        RSDecoder.DecodeSuperframe env.decode_rs_char copy s0.sf_len = some p →
        { s0 with sf := p.sf } = s →
        ∃ pre, Event.CheckSync true ∈ pre ∧
          (decodeAttempt env s0).1 = pre ++
            (processAUs env s.sf (headerTable s.au_start s.sf s.sf_len)
              (List.range (numAUs (headerFormat s.sf)))).1) := by
  have h11 : 11 ≤ s.sf.length := by omega
  obtain ⟨s1, hcs, hs1⟩ := CheckSync_result env s h11
  refine ⟨⟨s1, hcs⟩, offsets_not_increasing_of_zero _ _ _, ?_⟩
  intro hf hinc
  rw [hf, hinc] at hcs hs1
  have hs1e := hs1 rfl
  subst hs1e
  refine ⟨hcs, ?_⟩
  intro s0 copy p hc hp he
  subst he
  obtain ⟨pre, hpre, -, -⟩ := syncSuccess_trace env (syncedState { s0 with sf := p.sf })
    (by show 3 ≤ p.sf.length; exact le_trans (by omega) h11)
  refine ⟨Event.RSDecode copy :: rsStatistics p ++ Event.CheckSync true :: pre, by simp, ?_⟩
  simp only [decodeAttempt, hc, hp, hcs, Bool.and_self, if_true, hpre]
  simp [syncedState]

set_option maxRecDepth 100000 in
/-- Witness for C6: the sample superframe. -/
theorem checkSync_iff_witness :
    (∃ s1, CheckSync env0 sampleChecked = some
      (fireCodeOK env0 sampleChecked.sf &&
        offsetsIncreasing (headerTable sampleChecked.au_start sampleChecked.sf
          sampleChecked.sf_len) (numAUs (headerFormat sampleChecked.sf)), s1)) ∧
    (sampleChecked.sf.getD 3 0 = 0 ∧ sampleChecked.sf.getD 4 0 = 0 →
      offsetsIncreasing (headerTable sampleChecked.au_start sampleChecked.sf
        sampleChecked.sf_len) (numAUs (headerFormat sampleChecked.sf)) = false) ∧
    (fireCodeOK env0 sampleChecked.sf = true →
      offsetsIncreasing (headerTable sampleChecked.au_start sampleChecked.sf
        sampleChecked.sf_len) (numAUs (headerFormat sampleChecked.sf)) = true →
      CheckSync env0 sampleChecked = some (true, syncedState sampleChecked) ∧
      ∀ (s0 : SuperframeFilter) (copy : List Byte) (p : RSDecoder.Progress),
        memcpy s0.sf 0 s0.sf_raw s0.sf_len = some copy →
        RSDecoder.DecodeSuperframe env0.decode_rs_char copy s0.sf_len = some p →
        { s0 with sf := p.sf } = sampleChecked →
        ∃ pre, Event.CheckSync true ∈ pre ∧
          (decodeAttempt env0 s0).1 = pre ++
            (processAUs env0 sampleChecked.sf
              (headerTable sampleChecked.au_start sampleChecked.sf sampleChecked.sf_len)
              (List.range (numAUs (headerFormat sampleChecked.sf)))).1) :=
  checkSync_iff env0 sampleChecked 1 (by decide) (by decide) (by decide)

set_option maxRecDepth 100000 in
/-- The sample superframe passes the sync check under `env0`. -/
theorem sample_syncs :
    fireCodeOK env0 sampleChecked.sf = true ∧
    offsetsIncreasing (headerTable sampleChecked.au_start sampleChecked.sf
      sampleChecked.sf_len) (numAUs (headerFormat sampleChecked.sf)) = true := by
  decide

/-! ### Sync failure -/

/-- The big-endian 16-bit value of two bytes. -/
theorem be16_eq (x y : Byte) : (x.val <<< 8 ||| y.val) % 65536 = x.val * 256 + y.val := by
  have hy : y.val < 2 ^ 8 := y.isLt
  have hx : x.val < 256 := x.isLt
  rw [Nat.shiftLeft_eq, Nat.mul_comm, ← Nat.mul_add_lt_is_or hy]
  omega

theorem getD_set_ne (l : List Byte) (i j : Nat) (b : Byte) (h : i ≠ j) :
    (l.set i b).getD j 0 = l.getD j 0 := by
  rw [List.getD_eq_getElem?_getD, List.getD_eq_getElem?_getD, List.getElem?_set_ne h]

theorem getD_set_self (l : List Byte) (i : Nat) (b : Byte) (h : i < l.length) :
    (l.set i b).getD i 0 = b := by
  rw [List.getD_eq_getElem?_getD, List.getElem?_set_self h]; rfl

/-- Changing one of the two stored fire-code bytes of a buffer whose fire code matched
makes it mismatch. -/
theorem fireCode_corrupted (env : Env) (sf : List Byte) (i : Nat) (b : Byte)
    (hi : i = 0 ∨ i = 1) (hl : 11 ≤ sf.length) (hok : fireCodeOK env sf = true)
    (hb : b ≠ sf.getD i 0) : fireCodeOK env (sf.set i b) = false := by
  unfold fireCodeOK at hok ⊢
  have hdrop : (sf.set i b).drop 2 = sf.drop 2 :=
    List.drop_set_of_lt b sf (by rcases hi with h | h <;> omega)
  rw [hdrop]
  rw [decide_eq_true_eq] at hok
  rw [decide_eq_false_iff_not, ← hok, be16_eq, be16_eq]
  have hne : b.val ≠ (sf.getD i 0).val := fun h => hb (Fin.ext h)
  rcases hi with h | h
  · subst h
    rw [getD_set_self sf 0 b (by omega), getD_set_ne sf 0 1 b (by omega)]
    omega
  · subst h
    rw [getD_set_self sf 1 b (by omega), getD_set_ne sf 1 0 b (by omega)]
    omega

/-- The ways `Feed` can end: a dropped frame, a frame stored without any call, or a
decode attempt on a state that differs from the one before the call only in frame
length, buffers and frame counter. -/
theorem Feed_cases (env : Env) (s : SuperframeFilter) (data : List Byte) :
    (∃ m, Feed env s data = ([Event.Log m], some s)) ∨
    (∃ x, Feed env s data = ([], x)) ∨
    (∃ s1, Feed env s data = decodeAttempt env s1 ∧ s1.aac_dec = s.aac_dec ∧
      s1.sync_frames = s.sync_frames ∧ s1.sf_format_set = s.sf_format_set ∧
      s1.sf_format_raw = s.sf_format_raw) := by
  have key : ∀ s0 : SuperframeFilter, s0.aac_dec = s.aac_dec →
      s0.sync_frames = s.sync_frames → s0.sf_format_set = s.sf_format_set →
      s0.sf_format_raw = s.sf_format_raw →
      (∃ x, accumulate env s0 data = ([], x)) ∨
      (∃ s1, accumulate env s0 data = decodeAttempt env s1 ∧ s1.aac_dec = s.aac_dec ∧
        s1.sync_frames = s.sync_frames ∧ s1.sf_format_set = s.sf_format_set ∧
        s1.sf_format_raw = s.sf_format_raw) := by
    intro s0 e1 e2 e3 e4
    rcases accumulate_cases env s0 data with h | ⟨raw, c, h⟩
    · left; exact ⟨none, h⟩
    · by_cases hc : c < 5
      · rw [if_pos hc] at h
        left; exact ⟨_, h⟩
      · rw [if_neg hc] at h
        right; exact ⟨_, h, e1, e2, e3, e4⟩
  unfold Feed
  by_cases h0 : s.frame_len ≠ 0
  · rw [if_pos h0]
    by_cases hl : s.frame_len ≠ data.length
    · rw [if_pos hl]; left; exact ⟨_, rfl⟩
    · rw [if_neg hl]; right; exact key s rfl rfl rfl rfl
  · rw [if_neg h0]
    by_cases h10 : data.length < 10
    · rw [if_pos h10]; left; exact ⟨_, rfl⟩
    · rw [if_neg h10]
      by_cases h120 : 5 * data.length % 2 ^ 64 % 120 ≠ 0
      · rw [if_pos h120]; left; exact ⟨_, rfl⟩
      · rw [if_neg h120]; right; exact key _ rfl rfl rfl rfl

/-- C7. Whenever the decode attempt of a `Feed` call fails the sync check, that call
makes no `FormatChange`, no codec replacement, no `DecodeFrame` and no `ProcessPAD`
call, returns with `sf_format_set`, `sf_format_raw` and the codec instance as they were
and with `sync_frames` increased by exactly 1. In particular the sync check fails on a
buffer that synced once one of its two stored fire-code bytes is changed. -/
theorem sync_failure_effects (env : Env) (s : SuperframeFilter) (data : List Byte)
    (h : Event.CheckSync false ∈ (Feed env s data).1) :
    (∀ e ∈ (Feed env s data).1, e.isOutput = false) ∧
    (∃ t, (Feed env s data).2 = some t ∧ t.sf_format_set = s.sf_format_set ∧
      t.sf_format_raw = s.sf_format_raw ∧ t.aac_dec = s.aac_dec ∧
      t.sync_frames = s.sync_frames + 1) ∧
    (∀ (u : SuperframeFilter) (i : Nat) (b : Byte), (i = 0 ∨ i = 1) → 11 ≤ u.sf.length →
      (CheckSync env u).map Prod.fst = some true → b ≠ u.sf.getD i 0 →
      (CheckSync env { u with sf := u.sf.set i b }).map Prod.fst = some false) := by
  refine ⟨?_, ?_, ?_⟩
  · rcases Feed_cases env s data with ⟨m, hF⟩ | ⟨x, hF⟩ | ⟨s1, hF, -⟩
    · rw [hF] at h; simp at h
    · rw [hF] at h; simp at h
    · rw [hF] at h ⊢
      obtain ⟨c, p, s2, -, -, -, h4⟩ := decodeAttempt_sync_mem env s1 false h
      rw [h4]
      intro e he
      have h5 : e = Event.RSDecode c ∨ e ∈ rsStatistics p ∨ e = Event.CheckSync false ∨
          e ∈ (syncFailure s2).1 := by simpa using he
      rcases h5 with rfl | h5 | rfl | h5
      · rfl
      · unfold rsStatistics at h5
        split_ifs at h5 <;> simp at h5
        subst h5; rfl
      · rfl
      · unfold syncFailure at h5
        split_ifs at h5 <;> simp at h5
        subst h5; rfl
  · rcases Feed_cases env s data with ⟨m, hF⟩ | ⟨x, hF⟩ | ⟨s1, hF, e1, e2, e3, e4⟩
    · rw [hF] at h; simp at h
    · rw [hF] at h; simp at h
    · rw [hF] at h ⊢
      obtain ⟨c, p, s2, -, -, h3, h4⟩ := decodeAttempt_sync_mem env s1 false h
      obtain ⟨f1, -, -, f2, -, -, -, f3, f4⟩ := CheckSync_fields env _ s2 false h3
      simp only at f1 f2 f3 f4
      rw [h4]
      refine ⟨{ s2 with sync_frames := s2.sync_frames + 1 }, rfl, ?_, ?_, ?_, ?_⟩
      · show s2.sf_format_set = s.sf_format_set; rw [f3, e3]
      · show s2.sf_format_raw = s.sf_format_raw; rw [f4, e4]
      · show s2.aac_dec = s.aac_dec; rw [f1, e1]
      · show s2.sync_frames + 1 = s.sync_frames + 1; rw [f2, e2]
  · intro u i b hi hl hok hb
    obtain ⟨u1, hu, -⟩ := CheckSync_result env u hl
    rw [hu] at hok
    simp only [Option.map_some', Option.some.injEq, Bool.and_eq_true] at hok
    have hl2 : 11 ≤ ({ u with sf := u.sf.set i b } : SuperframeFilter).sf.length := by
      show 11 ≤ (u.sf.set i b).length
      rw [List.length_set]; exact hl
    obtain ⟨u2, hu2, -⟩ := CheckSync_result env { u with sf := u.sf.set i b } hl2
    rw [hu2]
    have hbad : fireCodeOK env (u.sf.set i b) = false :=
      fireCode_corrupted env u.sf i b hi hl hok.1 hb
    simp only [hbad, Bool.false_and, Option.map_some']

set_option maxRecDepth 100000 in
/-- Witness for C7: the fifth frame of zeros, whose decode attempt fails the sync
check. -/
theorem sync_failure_effects_witness :
    (∀ e ∈ (Feed env0 heldFour zeroFrame).1, e.isOutput = false) ∧
    (∃ t, (Feed env0 heldFour zeroFrame).2 = some t ∧
      t.sf_format_set = heldFour.sf_format_set ∧
      t.sf_format_raw = heldFour.sf_format_raw ∧ t.aac_dec = heldFour.aac_dec ∧
      t.sync_frames = heldFour.sync_frames + 1) ∧
    (∀ (u : SuperframeFilter) (i : Nat) (b : Byte), (i = 0 ∨ i = 1) → 11 ≤ u.sf.length →
      (CheckSync env0 u).map Prod.fst = some true → b ≠ u.sf.getD i 0 →
      (CheckSync env0 { u with sf := u.sf.set i b }).map Prod.fst = some false) :=
  sync_failure_effects env0 heldFour zeroFrame (by decide)

/-! ### The loop over the access units -/

theorem decodedFrames_append (a b : List Event) :
    decodedFrames (a ++ b) = decodedFrames a ++ decodedFrames b := by
  induction a with
  | nil => rfl
  | cons e es ih =>
    cases e <;> simp [decodedFrames, ih]

theorem decodedFrames_of_none (l : List Event) (h : ∀ e ∈ l, e.isDecodeFrame = false) :
    decodedFrames l = [] := by
  induction l with
  | nil => rfl
  | cons e es ih =>
    have he := h e (List.mem_cons_self _ _)
    have := ih (fun x hx => h x (List.mem_cons_of_mem _ hx))
    cases e <;> simp_all [decodedFrames, Event.isDecodeFrame]

/-- One round of the loop on an access unit of at least two bytes inside the buffer. -/
theorem processAU_eq (env : Env) (sf : List Byte) (T : Nat → Nat) (i : Nat)
    (h2 : T i + 2 ≤ T (i + 1)) (hin : T (i + 1) ≤ sf.length) (hb : T (i + 1) < 2 ^ 64) :
    processAU env sf T i =
      some (if auCrcOK env (auBytes sf T i) = true then
              (if env.DecodeFrame_throws (auPayload (auBytes sf T i)) = true then
                ([Event.DecodeFrame (auPayload (auBytes sf T i))], false)
               else
                (Event.DecodeFrame (auPayload (auBytes sf T i))
                  :: CheckForPAD (auPayload (auBytes sf T i)), true))
            else ([Event.Log (LogMsg.au_crc_mismatch i)], true)) := by
  have hlen : ((((T (i + 1) : Nat) : Int) - ((T i : Nat) : Int)) % 2 ^ 64).toNat
      = T (i + 1) - T i := by
    have h1 : (((T (i + 1) : Nat) : Int) - ((T i : Nat) : Int))
        = ((T (i + 1) - T i : Nat) : Int) := by omega
    rw [h1]
    have h3 : ((T (i + 1) - T i : Nat) : Int) % 2 ^ 64 = ((T (i + 1) - T i : Nat) : Int) := by
      apply Int.emod_eq_of_lt
      · omega
      · have : T (i + 1) - T i < 2 ^ 64 := by omega
        exact_mod_cast this
    rw [h3]; rfl
  have hal : (auBytes sf T i).length = T (i + 1) - T i := by
    unfold auBytes
    rw [List.length_take, List.length_drop]; omega
  unfold processAU
  simp only [hlen]
  rw [if_neg (by omega)]
  have hau : List.take (T (i + 1) - T i) (List.drop (T i) sf) = auBytes sf T i := rfl
  rw [hau]
  unfold auCrcOK auPayload
  rw [hal]
  have h2l : 2 ≤ T (i + 1) - T i := by omega
  by_cases hcrc : ((List.getD (auBytes sf T i) (T (i + 1) - T i - 2) 0).val <<< 8 |||
      (List.getD (auBytes sf T i) (T (i + 1) - T i - 1) 0).val) % 65536
      = env.CalcCRC_CRC16_CCITT (List.take (T (i + 1) - T i - 2) (auBytes sf T i)) % 65536
  · simp only [hcrc, h2l, and_self, decide_True, if_true, ne_eq, not_true_eq_false, if_false]
    split_ifs <;> rfl
  · simp only [hcrc, h2l, and_false, decide_False, ne_eq, not_false_eq_true, if_true,
      Bool.false_eq_true, if_false]

theorem processAUs_spec (env : Env) (sf : List Byte) (T : Nat → Nat) (is : List Nat)
    (h2 : ∀ i ∈ is, T i + 2 ≤ T (i + 1)) (hin : ∀ i ∈ is, T (i + 1) ≤ sf.length)
    (hb : sf.length < 2 ^ 64) (hret : ∀ d, env.DecodeFrame_throws d = false) :
    (processAUs env sf T is).2 = true ∧
    decodedFrames (processAUs env sf T is).1
      = ((is.map (auBytes sf T)).filter (auCrcOK env)).map auPayload := by
  induction is with
  | nil => exact ⟨rfl, rfl⟩
  | cons i is ih =>
    have hi2 := h2 i (List.mem_cons_self _ _)
    have hiin := hin i (List.mem_cons_self _ _)
    obtain ⟨ih1, ih2⟩ := ih (fun j hj => h2 j (List.mem_cons_of_mem _ hj))
      (fun j hj => hin j (List.mem_cons_of_mem _ hj))
    have hp := processAU_eq env sf T i hi2 hiin (by omega)
    simp only [hret, Bool.false_eq_true, if_false] at hp
    unfold processAUs
    simp only [hp]
    by_cases hc : auCrcOK env (auBytes sf T i) = true
    · simp only [if_pos hc, if_true]
      refine ⟨ih1, ?_⟩
      rw [decodedFrames_append, ih2, List.map_cons, List.filter_cons_of_pos hc, List.map_cons]
      obtain ⟨x, l, f, hpad⟩ := CheckForPAD_single (auPayload (auBytes sf T i))
      rw [hpad]
      rfl
    · simp only [if_neg hc, if_true]
      refine ⟨ih1, ?_⟩
      rw [decodedFrames_append, ih2, List.map_cons, List.filter_cons_of_neg hc]
      rfl


theorem fillAUStart_last (a : Nat → Nat) (f : SuperframeFormat) (n : Nat)
    (b3 b4 b5 b6 b7 b8 b9 b10 : Byte) :
    fillAUStart a f n b3 b4 b5 b6 b7 b8 b9 b10 (numAUs f) = n / 120 * 110 := by
  unfold fillAUStart numAUs
  cases f.dac_rate <;> cases f.sbr_flag <;> simp [Function.update]

theorem offsets_le_last (T : Nat → Nat) (n : Nat)
    (h : offsetsIncreasing T n = true) : ∀ i, i ≤ n → T i ≤ T n := by
  unfold offsetsIncreasing at h
  rw [List.all_eq_true] at h
  have hstep : ∀ j, j < n → T j < T (j + 1) := fun j hj => by
    simpa using h j (List.mem_range.mpr hj)
  intro i hi
  obtain ⟨d, rfl⟩ : ∃ d, n = i + d := ⟨n - i, by omega⟩
  clear h hi
  induction d with
  | zero => exact le_refl _
  | succ d ih =>
    have h1 := ih (fun j hj => hstep j (by omega))
    have h2 := hstep (i + d) (by omega)
    exact le_trans h1 (le_of_lt h2)

theorem pushFrame_table (s : SuperframeFilter) (data : List Byte) :
    (pushFrame s data).au_start = s.au_start ∧ (pushFrame s data).num_aus = s.num_aus := by
  unfold pushFrame
  split_ifs <;> exact ⟨rfl, rfl⟩

theorem memcpy_window (s : SuperframeFilter) (hs : Sized s) :
    memcpy s.sf 0 s.sf_raw s.sf_len = some s.sf_raw := by
  obtain ⟨-, -, -, hraw, hsf, -⟩ := hs
  rw [memcpy_eq s.sf s.sf_raw 0 s.sf_len (by omega) (by omega)]
  rw [List.take_zero, List.nil_append, ← hraw, List.take_length, Nat.zero_add, hraw, ← hsf,
    List.drop_length, List.append_nil]

/-- What a `Feed` call whose decode attempt passed the sync check does, on a sized
filter: `p` is the result of the Reed-Solomon pass over the updated raw window. If every
access unit of the table has at least two bytes and `DecodeFrame` never throws, `Feed`
runs to its end, leaves buffer, table and count in the state, and the `DecodeFrame` calls
are, in increasing index, the access units whose trailer matches the CRC-16/CCITT of the
bytes before it, each without its two trailer bytes. -/
theorem au_forwarding (env : Env) (s : SuperframeFilter) (data : List Byte)
    (hs : Sized s) (hb : s.sf_len < 2 ^ 64) (hd : data.length = s.frame_len)
    (hsync : Event.CheckSync true ∈ (Feed env s data).1) :
    ∃ p, RSDecoder.DecodeSuperframe env.decode_rs_char (pushFrame s data).sf_raw s.sf_len
        = some p ∧
      fireCodeOK env p.sf = true ∧
      offsetsIncreasing (headerTable s.au_start p.sf s.sf_len) (numAUs (headerFormat p.sf))
        = true ∧
      ((∀ i, i < numAUs (headerFormat p.sf) →
          headerTable s.au_start p.sf s.sf_len i + 2
            ≤ headerTable s.au_start p.sf s.sf_len (i + 1)) →
        (∀ d, env.DecodeFrame_throws d = false) →
        (∃ t, (Feed env s data).2 = some t ∧ t.sf = p.sf ∧
          t.num_aus = numAUs (headerFormat p.sf) ∧
          t.au_start = headerTable s.au_start p.sf s.sf_len) ∧
        decodedFrames (Feed env s data).1
          = (((List.range (numAUs (headerFormat p.sf))).map
                (auBytes p.sf (headerTable s.au_start p.sf s.sf_len))).filter
              (auCrcOK env)).map auPayload) := by
  have hF := Feed_sized env s data hs hd
  have hps := pushFrame_sized s data hs hd
  obtain ⟨-, -, -, -, pl, -⟩ := pushFrame_fields s data
  obtain ⟨pa, -⟩ := pushFrame_table s data
  by_cases hc : s.frame_count < 4
  · rw [hF, if_pos hc] at hsync; simp at hsync
  rw [if_neg hc] at hF
  rw [hF] at hsync ⊢
  obtain ⟨copy, p, s1, h1, h2, h3, h4⟩ := decodeAttempt_sync_mem env _ true hsync
  rw [memcpy_window _ hps] at h1
  have hcopy := Option.some.inj h1
  subst hcopy
  rw [pl] at h2
  have hpl : p.sf.length = s.sf_len := by
    rw [DecodeSuperframe_length _ _ _ _ h2, hps.2.2.2.1, pl]
  have h120 : 120 ≤ s.sf_len := by
    have a1 := hs.1
    have a2 := hs.2.1
    have a3 := hs.2.2.1
    omega
  obtain ⟨sc, hsc⟩ : ∃ sc : SuperframeFilter, sc = { pushFrame s data with sf := p.sf } :=
    ⟨_, rfl⟩
  rw [← hsc] at h3
  have c1 : sc.sf = p.sf := by rw [hsc]
  have c2 : sc.au_start = s.au_start := by rw [hsc]; exact pa
  have c3 : sc.sf_len = s.sf_len := by rw [hsc]; exact pl
  obtain ⟨s1b, hcs, hs1⟩ := CheckSync_result env sc (by rw [c1]; omega)
  rw [h3, c1, c2, c3] at hcs
  rw [c1, c2, c3] at hs1
  have hpair := Option.some.inj hcs
  have hres : true = (fireCodeOK env p.sf && offsetsIncreasing
      (headerTable s.au_start p.sf s.sf_len) (numAUs (headerFormat p.sf))) :=
    congrArg Prod.fst hpair
  have e2 : s1 = s1b := congrArg Prod.snd hpair
  have hs1e : s1 = syncedState sc := by rw [e2]; exact hs1 hres.symm
  have hres2 := hres.symm
  rw [Bool.and_eq_true] at hres2
  refine ⟨p, h2, hres2.1, hres2.2, ?_⟩
  intro hAU hret
  have hT : s1.au_start = headerTable s.au_start p.sf s.sf_len := by
    rw [hs1e]; show headerTable sc.au_start sc.sf sc.sf_len = _
    rw [c1, c2, c3]
  have hn : s1.num_aus = numAUs (headerFormat p.sf) := by
    rw [hs1e]; show numAUs (headerFormat sc.sf) = _; rw [c1]
  have hsf : s1.sf = p.sf := by rw [hs1e]; exact c1
  obtain ⟨pre, hpre, hquiet, hstate⟩ := syncSuccess_trace env s1 (by rw [hsf]; omega)
  rw [hsf, hT, hn] at hpre
  have hlast : headerTable s.au_start p.sf s.sf_len (numAUs (headerFormat p.sf))
      = s.sf_len / 120 * 110 := fillAUStart_last _ _ _ _ _ _ _ _ _ _ _
  have hle := offsets_le_last _ _ hres2.2
  obtain ⟨ok, hdec⟩ := processAUs_spec env p.sf (headerTable s.au_start p.sf s.sf_len)
    (List.range (numAUs (headerFormat p.sf)))
    (fun i hi => hAU i (List.mem_range.mp hi))
    (fun i hi => by
      have := hle (i + 1) (List.mem_range.mp hi)
      rw [hlast] at this
      have h5 : s.sf_len / 120 * 110 ≤ s.sf_len := by omega
      omega)
    (by omega) hret
  rw [h4]
  simp only [if_true]
  obtain ⟨-, -, -, -, f1, -, -, -, -, f2, f3⟩ :=
    formatCheck_fields { s1 with sync_frames := 0 } (s1.sf.getD 2 0)
  simp only at f1 f2 f3
  constructor
  · have hok : (processAUs env s1.sf s1.au_start (List.range s1.num_aus)).2 = true := by
      rw [hsf, hT, hn]; exact ok
    rw [hstate, if_pos hok]
    exact ⟨_, rfl, f1.trans hsf, f2.trans hn, f3.trans hT⟩
  · rw [hpre]
    have hq1 : decodedFrames (rsStatistics p) = [] := by
      apply decodedFrames_of_none
      intro e he
      unfold rsStatistics at he
      split_ifs at he <;> simp at he
      subst he; rfl
    have hq2 : decodedFrames pre = [] :=
      decodedFrames_of_none pre (fun e he => (hquiet e he).2.1)
    show decodedFrames (Event.RSDecode (pushFrame s data).sf_raw :: (rsStatistics p ++
      (Event.CheckSync true :: (pre ++ (processAUs env p.sf
        (headerTable s.au_start p.sf s.sf_len)
        (List.range (numAUs (headerFormat p.sf)))).1)))) = _
    rw [show ∀ l, decodedFrames (Event.RSDecode (pushFrame s data).sf_raw :: l)
        = decodedFrames l from fun l => rfl, decodedFrames_append, hq1, List.nil_append,
      show ∀ l, decodedFrames (Event.CheckSync true :: l) = decodedFrames l from fun l => rfl,
      decodedFrames_append, hq2, List.nil_append, hdec]

set_option maxRecDepth 100000 in
/-- The hypotheses of `au_forwarding` are met by the sample superframe, whose two access
units both carry a matching trailer: both are handed to the codec. -/
theorem au_forwarding_sample :
    Sized sampleHeld ∧ Event.CheckSync true ∈ (Feed env0 sampleHeld zeroFrame).1 ∧
    decodedFrames (Feed env0 sampleHeld zeroFrame).1
      = [(sampleSuperframe.drop 5).take 43, (sampleSuperframe.drop 50).take 58] := by
  decide

set_option maxRecDepth 100000 in
/-- C8, the code at a superframe with a one-byte access unit. The superframe
`shortAUSuperframe` passes the sync check (offsets 5 < 6 < 110); its second access unit,
bytes 6 to 109, carries a matching trailer and would have to be handed to the codec; but
`Feed` leaves the buffer in the round of the first access unit (`au_len - 2` wraps for
`au_len = 1`) after having made no `DecodeFrame` call. -/
theorem short_access_unit_faults :
    Event.CheckSync true ∈ (Feed env0 shortAUHeld zeroFrame).1 ∧
    headerTable shortAUHeld.au_start shortAUSuperframe 120 0 = 5 ∧
    headerTable shortAUHeld.au_start shortAUSuperframe 120 1 = 6 ∧
    headerTable shortAUHeld.au_start shortAUSuperframe 120 2 = 110 ∧
    (((List.range 2).map
        (auBytes shortAUSuperframe (headerTable shortAUHeld.au_start shortAUSuperframe 120))).filter
      (auCrcOK env0)).map auPayload = [List.replicate 102 0] ∧
    decodedFrames (Feed env0 shortAUHeld zeroFrame).1 = [] ∧
    (Feed env0 shortAUHeld zeroFrame).2.isNone = true := by
  decide

/-! ### PAD calls -/

theorem padPaired_quiet_cons (e : Event) (l : List Event)
    (h : e.isDecodeFrame = false ∧ e.isProcessPAD = false) :
    padPaired (e :: l) = padPaired l := by
  cases e <;> simp_all [padPaired, Event.isDecodeFrame, Event.isProcessPAD]

theorem padPaired_quiet_append (pre l : List Event)
    (h : ∀ e ∈ pre, e.isDecodeFrame = false ∧ e.isProcessPAD = false) :
    padPaired (pre ++ l) = padPaired l := by
  induction pre with
  | nil => rfl
  | cons e es ih =>
    rw [List.cons_append, padPaired_quiet_cons e _ (h e (List.mem_cons_self _ _))]
    exact ih (fun x hx => h x (List.mem_cons_of_mem _ hx))

theorem padPaired_quiet (l : List Event)
    (h : ∀ e ∈ l, e.isDecodeFrame = false ∧ e.isProcessPAD = false) :
    padPaired l = true := by
  have := padPaired_quiet_append l [] h
  rw [List.append_nil] at this
  rw [this]; rfl

theorem padPaired_count_aux (n : Nat) : ∀ l : List Event, l.length ≤ n →
    padPaired l = true → l.countP Event.isProcessPAD = l.countP Event.isDecodeFrame := by
  induction n with
  | zero =>
    intro l hl _
    have : l = [] := List.length_eq_zero.mp (by omega)
    subst this; rfl
  | succ n ih =>
    intro l hl h
    cases l with
    | nil => rfl
    | cons e es =>
      simp only [List.length_cons] at hl
      cases e with
      | DecodeFrame d =>
        cases es with
        | nil => simp [padPaired] at h
        | cons e2 es2 =>
          simp only [List.length_cons] at hl
          cases e2 with
          | ProcessPAD x m f =>
            simp only [padPaired] at h
            have := ih es2 (by omega) h
            simp [List.countP_cons, Event.isProcessPAD, Event.isDecodeFrame, this]
          | _ => simp [padPaired] at h
      | ProcessPAD x m f => simp [padPaired] at h
      | Log m =>
        simp only [padPaired] at h
        have := ih es (by omega) h
        simp [List.countP_cons, Event.isProcessPAD, Event.isDecodeFrame, this]
      | RSDecode m =>
        simp only [padPaired] at h
        have := ih es (by omega) h
        simp [List.countP_cons, Event.isProcessPAD, Event.isDecodeFrame, this]
      | CheckSync m =>
        simp only [padPaired] at h
        have := ih es (by omega) h
        simp [List.countP_cons, Event.isProcessPAD, Event.isDecodeFrame, this]
      | FormatChange m =>
        simp only [padPaired] at h
        have := ih es (by omega) h
        simp [List.countP_cons, Event.isProcessPAD, Event.isDecodeFrame, this]
      | CodecDelete =>
        simp only [padPaired] at h
        have := ih es (by omega) h
        simp [List.countP_cons, Event.isProcessPAD, Event.isDecodeFrame, this]
      | CodecNew m =>
        simp only [padPaired] at h
        have := ih es (by omega) h
        simp [List.countP_cons, Event.isProcessPAD, Event.isDecodeFrame, this]

theorem padPaired_count (l : List Event) (h : padPaired l = true) :
    l.countP Event.isProcessPAD = l.countP Event.isDecodeFrame :=
  padPaired_count_aux l.length l (le_refl _) h

/-- C10. For a payload of at least 3 bytes whose byte 0 has top three bits 4, with
`L = byte1`, `start = 2` when `byte1 != 255` and `L = 255 + byte2`, `start = 3`
otherwise: if `L >= 2` and `start + L <= len`, `CheckForPAD` makes one `ProcessPAD` call
with variable data `payload[start .. start+L-FPAD_LEN)`, variable length `L - FPAD_LEN`
and as fixed field the last `FPAD_LEN` bytes of the element,
`payload[start+L-FPAD_LEN .. start+L)`. Both ranges are inside the payload (they have
their full lengths and together make up the element `payload[start .. start+L)`), and
`byte1 = 10` gives the variable length `10 - FPAD_LEN`. -/
theorem pad_element_extracted (payload : List Byte) (h3 : 3 ≤ payload.length)
    (h4 : (payload.getD 0 0).val >>> 5 = 4) (hL : 2 ≤ padLen payload)
    (hfit : padStart payload + padLen payload ≤ payload.length) :
    CheckForPAD payload =
      [Event.ProcessPAD
        (some ((payload.drop (padStart payload)).take (padLen payload - FPAD_LEN)))
        (padLen payload - FPAD_LEN)
        ((payload.drop (padStart payload + padLen payload - FPAD_LEN)).take FPAD_LEN)] ∧
    ((payload.getD 1 0).val ≠ 255 →
      padStart payload = 2 ∧ padLen payload = (payload.getD 1 0).val) ∧
    ((payload.getD 1 0).val = 255 →
      padStart payload = 3 ∧ padLen payload = 255 + (payload.getD 2 0).val) ∧
    FPAD_LEN ≤ padLen payload ∧
    ((payload.drop (padStart payload)).take (padLen payload - FPAD_LEN)).length
      = padLen payload - FPAD_LEN ∧
    ((payload.drop (padStart payload + padLen payload - FPAD_LEN)).take FPAD_LEN).length
      = FPAD_LEN ∧
    (payload.drop (padStart payload)).take (padLen payload - FPAD_LEN)
        ++ (payload.drop (padStart payload + padLen payload - FPAD_LEN)).take FPAD_LEN
      = (payload.drop (padStart payload)).take (padLen payload) ∧
    ((payload.getD 1 0).val = 10 → padLen payload - FPAD_LEN = 10 - FPAD_LEN) := by
  have hF : FPAD_LEN = 2 := rfl
  refine ⟨?_, ?_, ?_, by omega, ?_, ?_, ?_, ?_⟩
  · rw [CheckForPAD_eq, if_pos]
    unfold padPresent
    rw [decide_eq_true_eq]
    exact ⟨h3, h4, hL, hfit⟩
  · intro h; unfold padStart padLen; rw [if_neg h, if_neg h]; exact ⟨rfl, rfl⟩
  · intro h; unfold padStart padLen; rw [if_pos h, if_pos h]; exact ⟨rfl, rfl⟩
  · rw [List.length_take, List.length_drop]; omega
  · rw [List.length_take, List.length_drop]; omega
  · have e1 : padStart payload + padLen payload - FPAD_LEN
        = padStart payload + (padLen payload - FPAD_LEN) := by omega
    have e2 : padLen payload = (padLen payload - FPAD_LEN) + FPAD_LEN := by omega
    rw [e1, ← List.drop_drop]
    conv_rhs => rw [e2]
    rw [List.take_add]
  · intro h
    unfold padLen
    rw [if_neg (by omega), h]

/-- Witness for C10: a payload with a PAD element of length 10. -/
theorem pad_element_extracted_witness :
    CheckForPAD samplePayload =
      [Event.ProcessPAD
        (some ((samplePayload.drop (padStart samplePayload)).take
          (padLen samplePayload - FPAD_LEN)))
        (padLen samplePayload - FPAD_LEN)
        ((samplePayload.drop (padStart samplePayload + padLen samplePayload - FPAD_LEN)).take
          FPAD_LEN)] ∧
    ((samplePayload.getD 1 0).val ≠ 255 →
      padStart samplePayload = 2 ∧ padLen samplePayload = (samplePayload.getD 1 0).val) ∧
    ((samplePayload.getD 1 0).val = 255 →
      padStart samplePayload = 3 ∧ padLen samplePayload = 255 + (samplePayload.getD 2 0).val) ∧
    FPAD_LEN ≤ padLen samplePayload ∧
    ((samplePayload.drop (padStart samplePayload)).take
        (padLen samplePayload - FPAD_LEN)).length
      = padLen samplePayload - FPAD_LEN ∧
    ((samplePayload.drop (padStart samplePayload + padLen samplePayload - FPAD_LEN)).take
        FPAD_LEN).length
      = FPAD_LEN ∧
    (samplePayload.drop (padStart samplePayload)).take (padLen samplePayload - FPAD_LEN)
        ++ (samplePayload.drop (padStart samplePayload + padLen samplePayload - FPAD_LEN)).take
          FPAD_LEN
      = (samplePayload.drop (padStart samplePayload)).take (padLen samplePayload) ∧
    ((samplePayload.getD 1 0).val = 10 → padLen samplePayload - FPAD_LEN = 10 - FPAD_LEN) :=
  pad_element_extracted samplePayload (by decide) (by decide) (by decide) (by decide)

/-! ### The Reed-Solomon pass completes when the library keeps its contract -/

theorem mapM_option_some {α β : Type} (f : α → Option β) (l : List α)
    (h : ∀ x ∈ l, ∃ y, f x = some y) :
    ∃ ys, l.mapM f = some ys ∧ ys.length = l.length := by
  rw [← List.mapM'_eq_mapM]
  induction l with
  | nil => exact ⟨[], rfl, rfl⟩
  | cons x xs ih =>
    obtain ⟨y, hy⟩ := h x (List.mem_cons_self _ _)
    obtain ⟨ys, hys, hl⟩ := ih (fun z hz => h z (List.mem_cons_of_mem _ hz))
    refine ⟨y :: ys, ?_, by simp [hl]⟩
    simp [List.mapM', hy, hys]

theorem readPacket_some (sf : List Byte) (k i : Nat) (hlen : 120 * k ≤ sf.length)
    (hi : i < k) : ∃ pkt, RSDecoder.readPacket sf k i = some pkt ∧ pkt.length = 120 := by
  unfold RSDecoder.readPacket
  obtain ⟨ys, h1, h2⟩ := mapM_option_some (fun pos => sf[pos * k + i]?) (List.range 120)
    (fun pos hpos => by
      have hp : pos < 120 := List.mem_range.mp hpos
      have : pos * k ≤ 119 * k := Nat.mul_le_mul_right _ (by omega)
      exact ⟨_, getElem?_eq_some_getD sf _ (by omega)⟩)
  exact ⟨ys, h1, by rw [h2, List.length_range]⟩


theorem writeCorrections_some (r : RSResult) (k i : Nat) (hi : i < k)
    (hpkt : r.rs_packet.length = 120) (js : List Nat)
    (hloc : ∀ j ∈ js, ∃ loc, r.corr_pos[j]? = some loc ∧ 0 ≤ loc ∧ loc ≤ 254) :
    ∀ sf : List Byte, 120 * k ≤ sf.length →
      ∃ out, RSDecoder.writeCorrections r k i js sf = some out := by
  induction js with
  | nil => intro sf _; exact ⟨sf, rfl⟩
  | cons j js ih =>
    intro sf hlen
    obtain ⟨loc, h1, h2, h3⟩ := hloc j (List.mem_cons_self _ _)
    have ih2 := ih (fun x hx => hloc x (List.mem_cons_of_mem _ hx))
    unfold RSDecoder.writeCorrections
    simp only [h1]
    by_cases hneg : loc - 135 < 0
    · rw [if_pos hneg]; exact ih2 sf hlen
    · rw [if_neg hneg]
      have hp : (loc - 135).toNat < 120 := by omega
      rw [getElem?_eq_some_getD r.rs_packet _ (by omega)]
      have hm : (loc - 135).toNat * k ≤ 119 * k := Nat.mul_le_mul_right _ (by omega)
      simp only
      rw [if_pos (by omega)]
      exact ih2 _ (by rw [List.length_set]; exact hlen)

theorem decodePackets_some (dec : List Byte → RSResult) (hdec : RSContract dec) (k : Nat)
    (is : List Nat) (his : ∀ i ∈ is, i < k) :
    ∀ st : RSDecoder.Progress, 120 * k ≤ st.sf.length →
      ∃ out, RSDecoder.decodePackets dec k is st = some out := by
  induction is with
  | nil => intro st _; exact ⟨st, rfl⟩
  | cons i is ih =>
    intro st hlen
    have hi := his i (List.mem_cons_self _ _)
    obtain ⟨pkt, hp, hpl⟩ := readPacket_some st.sf k i hlen hi
    obtain ⟨c1, c2, c3, c4, c5⟩ := hdec pkt hpl
    obtain ⟨sf1, hw⟩ := writeCorrections_some (dec pkt) k i hi c1
      (List.range (dec pkt).corr_count.toNat)
      (fun j hj => by
        have hj2 : j < (dec pkt).corr_count.toNat := List.mem_range.mp hj
        have hj3 : j < (dec pkt).corr_pos.length := by omega
        refine ⟨(dec pkt).corr_pos.getD j 0, ?_, ?_⟩
        · rw [List.getD_eq_getElem?_getD, List.getElem?_eq_getElem hj3]; rfl
        · apply c5
          rw [List.getD_eq_getElem _ _ hj3]
          exact List.mem_take_iff_getElem.mpr ⟨j, by
            rw [Nat.lt_min]; exact ⟨hj2, hj3⟩, rfl⟩)
      st.sf hlen
    unfold RSDecoder.decodePackets
    simp only [hp, hw]
    exact ih (fun x hx => his x (List.mem_cons_of_mem _ hx)) _ (by
      show 120 * k ≤ sf1.length
      rw [writeCorrections_length _ _ _ _ _ _ hw]; exact hlen)

/-- With a library routine that keeps its contract, `DecodeSuperframe` completes on any
buffer of at least `sf_len` bytes. -/
theorem DecodeSuperframe_total (dec : List Byte → RSResult) (hdec : RSContract dec)
    (sf : List Byte) (sf_len : Nat) (hlen : sf_len ≤ sf.length) :
    ∃ p, RSDecoder.DecodeSuperframe dec sf sf_len = some p :=
  decodePackets_some dec hdec _ _ (fun i hi => List.mem_range.mp hi) ⟨sf, 0, false⟩
    (by show 120 * (sf_len / 120) ≤ sf.length; omega)

theorem rsNoError_contract : RSContract rsNoError := by
  intro p hp
  refine ⟨hp, by show (-1 : Int) ≤ 0; decide, by show (0 : Int) ≤ 10; decide, rfl, ?_⟩
  intro loc hloc
  simp [rsNoError] at hloc


/-- On a sized filter, with a library routine that keeps its contract, a decode attempt
reaches the sync check and makes it exactly once. -/
theorem decodeAttempt_one_CheckSync (env : Env) (s : SuperframeFilter) (hs : Sized s)
    (hdec : RSContract env.decode_rs_char) :
    (decodeAttempt env s).1.countP Event.isCheckSync = 1 := by
  have hm := memcpy_window s hs
  obtain ⟨p, hp⟩ := DecodeSuperframe_total env.decode_rs_char hdec s.sf_raw s.sf_len
    (by rw [hs.2.2.2.1])
  have hpl : p.sf.length = s.sf_len := by
    rw [DecodeSuperframe_length _ _ _ _ hp, hs.2.2.2.1]
  have h120 : 120 ≤ s.sf_len := by
    have a1 := hs.1
    have a2 := hs.2.1
    have a3 := hs.2.2.1
    omega
  obtain ⟨s1, hcs, -⟩ := CheckSync_result env { s with sf := p.sf }
    (by show 11 ≤ p.sf.length; omega)
  have hstat := countP_isCheckSync_zero _ (rsStatistics_attempt p)
  have hrest : ∀ ok : Bool,
      (if ok = true then syncSuccess env s1 else syncFailure s1).1.countP Event.isCheckSync
        = 0 := by
    intro ok
    cases ok
    · exact countP_isCheckSync_zero _ (syncFailure_attempt s1)
    · exact countP_isCheckSync_zero _ (syncSuccess_attempt env s1)
  simp only [decodeAttempt, hm, hp, hcs, List.countP_cons, List.countP_append, hstat, hrest,
    Event.isCheckSync]
  simp

/-- C3. Starting from a freshly constructed filter, with frames of one valid length
(a positive multiple of 24 whose fivefold stays below `2 ^ 64`): fewer than five frames
are stored without any call being made, so no decode attempt happens; with exactly five
frames the first four make no call and the whole run contains exactly one call of
`DecodeSuperframe` and at most one of `CheckSync`, both made by the fifth `Feed`; the
sync check is made exactly once when `decode_rs_char` keeps its contract. -/
theorem five_frames_one_attempt (env : Env) (len : Nat) (fs : List (List Byte))
    (hpos : 0 < len) (h24 : 24 ∣ len) (hno : 5 * len < 2 ^ 64)
    (hf : ∀ f ∈ fs, f.length = len) :
    (fs.length < 5 →
      ∃ t, FeedAll env init fs = ([], some t) ∧ t.frame_count = fs.length) ∧
    (fs.length = 5 →
      (∃ t, FeedAll env init (fs.take 4) = ([], some t) ∧ t.frame_count = 4) ∧
      (FeedAll env init fs).1.countP Event.isRSDecode = 1 ∧
      (FeedAll env init fs).1.countP Event.isCheckSync ≤ 1 ∧
      (RSContract env.decode_rs_char →
        (FeedAll env init fs).1.countP Event.isCheckSync = 1)) := by
  constructor
  · intro hn
    obtain ⟨t, ht, htc, -⟩ := FeedAll_fill_first env init len fs rfl rfl hpos h24 hno hf hn
    exact ⟨t, ht, htc⟩
  · intro hn
    have hf4 : ∀ f ∈ fs.take 4, f.length = len := fun f hm => hf f (List.mem_of_mem_take hm)
    have hl4 : (fs.take 4).length = 4 := by rw [List.length_take]; omega
    obtain ⟨t, ht, htc, hts⟩ :=
      FeedAll_fill_first env init len (fs.take 4) rfl rfl hpos h24 hno hf4 (by omega)
    rw [hl4] at htc
    obtain ⟨hsz, htl⟩ := hts (by intro h; rw [h] at hl4; exact absurd hl4 (by decide))
    refine ⟨⟨t, ht, htc⟩, ?_⟩
    obtain ⟨d, hd⟩ : ∃ d, fs.drop 4 = [d] := by
      have hl : (fs.drop 4).length = 1 := by rw [List.length_drop]; omega
      match hh : fs.drop 4, hl with
      | [d], _ => exact ⟨d, rfl⟩
    have hdl : d.length = t.frame_len := by
      rw [htl]
      exact hf d (List.mem_of_mem_drop (by rw [hd]; exact List.mem_singleton_self d))
    have hsplit : fs = fs.take 4 ++ [d] := by rw [← hd, List.take_append_drop]
    have hall := FeedAll_append env (fs.take 4) [d] init t [] ht
    rw [← hsplit] at hall
    have hF := Feed_sized env t d hsz hdl
    rw [if_neg (by omega)] at hF
    have hlast : (FeedAll env t [d]).1 = (decodeAttempt env (pushFrame t d)).1 := by
      simp only [FeedAll, hF]
      cases (decodeAttempt env (pushFrame t d)).2 <;> simp
    rw [hall, List.nil_append, hlast]
    exact ⟨decodeAttempt_one_RSDecode env _ (pushFrame_sized t d hsz hdl),
      decodeAttempt_le_one_CheckSync env _,
      decodeAttempt_one_CheckSync env _ (pushFrame_sized t d hsz hdl)⟩

/-- Witness for C3: five 24-byte frames of zeros. -/
theorem five_frames_one_attempt_witness :
    ((List.replicate 5 zeroFrame).length < 5 →
      ∃ t, FeedAll env0 init (List.replicate 5 zeroFrame) = ([], some t) ∧
        t.frame_count = (List.replicate 5 zeroFrame).length) ∧
    ((List.replicate 5 zeroFrame).length = 5 →
      (∃ t, FeedAll env0 init ((List.replicate 5 zeroFrame).take 4) = ([], some t) ∧
        t.frame_count = 4) ∧
      (FeedAll env0 init (List.replicate 5 zeroFrame)).1.countP Event.isRSDecode = 1 ∧
      (FeedAll env0 init (List.replicate 5 zeroFrame)).1.countP Event.isCheckSync ≤ 1 ∧
      (RSContract env0.decode_rs_char →
        (FeedAll env0 init (List.replicate 5 zeroFrame)).1.countP Event.isCheckSync = 1)) :=
  five_frames_one_attempt env0 24 (List.replicate 5 zeroFrame) (by decide) (by decide)
    (by decide) (by decide)

/-! ### The format text -/

theorem formatText_eq (f : SuperframeFormat) (sf_len : Nat) :
    formatText f sf_len = announcedText f sf_len := by
  have hcodec : (if f.sbr_flag = true then (if f.ps_flag = true then "HE-AAC v2" else "HE-AAC")
      else "AAC-LC") = codecName f := by
    unfold codecName
    cases f.sbr_flag <;> cases f.ps_flag <;> simp
  have hrate : toString (if f.dac_rate = true then 48 else 32) = rateName f := by
    unfold rateName
    cases f.dac_rate
    · simp only [Bool.false_eq_true, if_false]; decide
    · simp only [if_true]; decide
  have hjoin : ∀ x m r : String, x ++ m ++ " " ++ "@ " ++ r = x ++ m ++ " @ " ++ r := by
    intro x m r
    rw [String.append_assoc (x ++ m) " " "@ "]
    rfl
  unfold formatText announcedText modeName
  simp only [hcodec, hrate]
  rcases hc : f.mpeg_surround_config with _ | _ | _ | n
  · simp only [hjoin]
    cases f.aac_channel_mode <;> cases f.ps_flag <;> simp
  · simp only [hjoin]; simp
  · simp only [hjoin]; simp
  · simp only [hjoin]; simp

/-- C11. For every format and every `sf_len`, `ProcessFormat` makes exactly one
`FormatChange` call, its first call, and the text passed is codec, `", "`, rate,
`" kHz "`, mode, `" @ "`, `sf_len/120*8`, `" kBit/s"`, with codec, rate and mode chosen
from the flags as listed; for a format parsed from a format byte the surround
configuration is one of 0 .. 7, so that 3 .. 7 give `Surround (unknown)`. -/
theorem format_text_announced (s : SuperframeFilter) (b : Byte) :
    (∃ rest, (ProcessFormat s).1
        = Event.FormatChange (announcedText s.sf_format s.sf_len) :: rest ∧
      ∀ e ∈ rest, e.isFormatChange = false) ∧
    (∀ f : SuperframeFormat, ∀ n : Nat, announcedText f n =
      (if f.sbr_flag = false then "AAC-LC"
        else if f.ps_flag = false then "HE-AAC" else "HE-AAC v2") ++ ", "
      ++ (if f.dac_rate = true then "48" else "32") ++ " kHz "
      ++ (if f.mpeg_surround_config = 0 then
            (if f.aac_channel_mode = false ∧ f.ps_flag = false then "Mono" else "Stereo")
          else if f.mpeg_surround_config = 1 then "Surround 5.1"
          else if f.mpeg_surround_config = 2 then "Surround 7.1"
          else "Surround (unknown)") ++ " @ "
      ++ toString (n / 120 * 8) ++ " kBit/s") ∧
    (parseFormat b).mpeg_surround_config ≤ 7 ∧
    ((parseFormat b).dac_rate = true ↔ b.val &&& 0x40 ≠ 0) ∧
    ((parseFormat b).sbr_flag = true ↔ b.val &&& 0x20 ≠ 0) ∧
    ((parseFormat b).aac_channel_mode = true ↔ b.val &&& 0x10 ≠ 0) ∧
    ((parseFormat b).ps_flag = true ↔ b.val &&& 0x08 ≠ 0) ∧
    (parseFormat b).mpeg_surround_config = b.val &&& 0x07 := by
  refine ⟨?_, fun f n => rfl, ?_, ?_, ?_, ?_, ?_, rfl⟩
  · unfold ProcessFormat
    rw [formatText_eq]
    refine ⟨_, rfl, ?_⟩
    intro e he
    split_ifs at he <;> simp at he
    · rcases he with rfl | rfl <;> rfl
    · subst he; rfl
  · show b.val &&& 0x07 ≤ 7
    exact Nat.and_le_right
  · simp [parseFormat]
  · simp [parseFormat]
  · simp [parseFormat]
  · simp [parseFormat]

/-! ### The offset table -/

theorem hi12_eq (x y : Byte) : x.val <<< 4 ||| y.val >>> 4 = x.val * 16 + y.val / 16 := by
  have hy : y.val / 16 < 2 ^ 4 := by have := y.isLt; omega
  rw [Nat.shiftLeft_eq, Nat.shiftRight_eq_div_pow, Nat.mul_comm, ← Nat.mul_add_lt_is_or hy]

theorem lo12_eq (y z : Byte) :
    (y.val &&& 0x0F) <<< 8 ||| z.val = (y.val % 16) * 256 + z.val := by
  have hz : z.val < 2 ^ 8 := z.isLt
  have h : y.val &&& 0x0F = y.val % 16 := Nat.and_pow_two_sub_one_eq_mod y.val 4
  rw [h, Nat.shiftLeft_eq, Nat.mul_comm, ← Nat.mul_add_lt_is_or hz]

theorem offsetBits_eq (sf : List Byte) :
    offsetBits sf = (sf.getD 3 0).val * 2 ^ 56 + (sf.getD 4 0).val * 2 ^ 48
      + (sf.getD 5 0).val * 2 ^ 40 + (sf.getD 6 0).val * 2 ^ 32 + (sf.getD 7 0).val * 2 ^ 24
      + (sf.getD 8 0).val * 2 ^ 16 + (sf.getD 9 0).val * 2 ^ 8 + (sf.getD 10 0).val := by
  unfold offsetBits
  simp [List.range_succ]
  ring

theorem numAUs_eq_table (f : SuperframeFormat) :
    numAUs f = tableNumAUs f.dac_rate f.sbr_flag := by
  unfold numAUs tableNumAUs
  cases f.dac_rate <;> cases f.sbr_flag <;> rfl

/-- The entries `1 .. num_aus - 1` of the table are the packed 12-bit fields. -/
theorem headerTable_field (a : Nat → Nat) (sf : List Byte) (n j : Nat) (h1 : 1 ≤ j)
    (hj : j < numAUs (headerFormat sf)) : headerTable a sf n j = field12 sf (j - 1) := by
  have b3 := (sf.getD 3 0).isLt
  have b4 := (sf.getD 4 0).isLt
  have b5 := (sf.getD 5 0).isLt
  have b6 := (sf.getD 6 0).isLt
  have b7 := (sf.getD 7 0).isLt
  have b8 := (sf.getD 8 0).isLt
  have b9 := (sf.getD 9 0).isLt
  have b10 := (sf.getD 10 0).isLt
  have hn : numAUs (headerFormat sf) = 2 ∨ numAUs (headerFormat sf) = 3 ∨
      numAUs (headerFormat sf) = 4 ∨ numAUs (headerFormat sf) = 6 := by
    unfold numAUs
    cases (headerFormat sf).dac_rate <;> cases (headerFormat sf).sbr_flag <;> simp
  unfold headerTable fillAUStart field12
  rw [offsetBits_eq]
  simp only [hi12_eq, lo12_eq]
  rcases hn with hn | hn | hn | hn <;> rw [hn] at hj ⊢ <;>
    interval_cases j <;> simp [Function.update] <;> omega

theorem field12_lt (sf : List Byte) (m : Nat) : field12 sf m < 4096 := by
  unfold field12
  exact Nat.mod_lt _ (by decide)

theorem CheckSync_past_fire (env : Env) (s : SuperframeFilter) (h11 : 11 ≤ s.sf.length)
    (hnz : ¬ (s.sf.getD 3 0 = 0 ∧ s.sf.getD 4 0 = 0)) (hfire : fireCodeOK env s.sf = true) :
    CheckSync env s = some
      (offsetsIncreasing (headerTable s.au_start s.sf s.sf_len) (numAUs (headerFormat s.sf)),
       syncedState s) := by
  rw [CheckSync_eq env s h11, if_neg hnz, if_neg (by rw [hfire]; simp)]

/-- C15. For a header that gets past the fire-code check of `CheckSync` (it is not
rejected for `sf[3] = sf[4] = 0` and the stored fire code matches), `CheckSync` leaves
`num_aus` as 4, 2, 6, 3 for `(dac_rate, sbr_flag)` = (0,0), (0,1), (1,0), (1,1),
`au_start[num_aus] = sf_len/120*110`, and for `1 <= j < num_aus` the entry `au_start[j]`
is the `(j-1)`-th 12-bit big-endian field of the bit string starting at `sf[3]`, a value
below 4096. -/
theorem offset_table_fields (env : Env) (s : SuperframeFilter) (h11 : 11 ≤ s.sf.length)
    (hnz : ¬ (s.sf.getD 3 0 = 0 ∧ s.sf.getD 4 0 = 0)) (hfire : fireCodeOK env s.sf = true) :
    ∃ ok s1, CheckSync env s = some (ok, s1) ∧
      s1.sf_format = parseFormat (s.sf.getD 2 0) ∧
      s1.num_aus = tableNumAUs s1.sf_format.dac_rate s1.sf_format.sbr_flag ∧
      s1.au_start s1.num_aus = s.sf_len / 120 * 110 ∧
      ∀ j, 1 ≤ j → j < s1.num_aus →
        s1.au_start j = field12 s.sf (j - 1) ∧ s1.au_start j < 4096 := by
  refine ⟨_, _, CheckSync_past_fire env s h11 hnz hfire, rfl, ?_, ?_, ?_⟩
  · exact numAUs_eq_table _
  · exact fillAUStart_last _ _ _ _ _ _ _ _ _ _ _
  · intro j h1 hj
    have := headerTable_field s.au_start s.sf s.sf_len j h1 hj
    exact ⟨this, lt_of_eq_of_lt this (field12_lt _ _)⟩

set_option maxRecDepth 100000 in
/-- Witness for C15: the sample superframe with four access units. -/
theorem offset_table_fields_witness :
    ∃ ok s1, CheckSync env0 plainChecked = some (ok, s1) ∧
      s1.sf_format = parseFormat (plainChecked.sf.getD 2 0) ∧
      s1.num_aus = tableNumAUs s1.sf_format.dac_rate s1.sf_format.sbr_flag ∧
      s1.au_start s1.num_aus = plainChecked.sf_len / 120 * 110 ∧
      ∀ j, 1 ≤ j → j < s1.num_aus →
        s1.au_start j = field12 plainChecked.sf (j - 1) ∧ s1.au_start j < 4096 :=
  offset_table_fields env0 plainChecked (by decide) (by decide) (by decide)

set_option maxRecDepth 100000 in
/-- The fields of the sample superframe: 20, 40, 60. -/
theorem plain_fields :
    field12 plainSuperframe 0 = 20 ∧ field12 plainSuperframe 1 = 40 ∧
    field12 plainSuperframe 2 = 60 := by
  decide

/-- C16 (amended). For a header that gets past the fire-code check, `CheckSync` sets
`au_start[0]` to 8, 5, 11, 6 for `(dac_rate, sbr_flag)` = (0,0), (0,1), (1,0), (1,1):
the length of the header, that is 3 bytes followed by `num_aus - 1` fields of 12 bits,
rounded up to whole bytes. -/
theorem first_offset_by_configuration (env : Env) (s : SuperframeFilter)
    (h11 : 11 ≤ s.sf.length) (hnz : ¬ (s.sf.getD 3 0 = 0 ∧ s.sf.getD 4 0 = 0))
    (hfire : fireCodeOK env s.sf = true) :
    ∃ ok s1, CheckSync env s = some (ok, s1) ∧
      s1.sf_format = parseFormat (s.sf.getD 2 0) ∧
      s1.au_start 0 =
        (match s1.sf_format.dac_rate, s1.sf_format.sbr_flag with
          | false, false => 8
          | false, true => 5
          | true, false => 11
          | true, true => 6) ∧
      s1.au_start 0 = 3 + (12 * (s1.num_aus - 1) + 7) / 8 := by
  refine ⟨_, _, CheckSync_past_fire env s h11 hnz hfire, rfl, ?_, ?_⟩
  · show headerTable s.au_start s.sf s.sf_len 0 = _
    unfold headerTable
    rw [fillAUStart_zero]
    show firstAUStart (headerFormat s.sf) = _
    unfold firstAUStart
    show _ = (match (headerFormat s.sf).dac_rate, (headerFormat s.sf).sbr_flag with
          | false, false => 8
          | false, true => 5
          | true, false => 11
          | true, true => 6)
    cases (headerFormat s.sf).dac_rate <;> cases (headerFormat s.sf).sbr_flag <;> rfl
  · show headerTable s.au_start s.sf s.sf_len 0 = 3 + (12 * (numAUs (headerFormat s.sf) - 1) + 7) / 8
    unfold headerTable
    rw [fillAUStart_zero]
    unfold firstAUStart numAUs
    cases (headerFormat s.sf).dac_rate <;> cases (headerFormat s.sf).sbr_flag <;> rfl

set_option maxRecDepth 100000 in
/-- Witness for C16 (amended): the sample superframe with format byte `0x00`. -/
theorem first_offset_by_configuration_witness :
    ∃ ok s1, CheckSync env0 plainChecked = some (ok, s1) ∧
      s1.sf_format = parseFormat (plainChecked.sf.getD 2 0) ∧
      s1.au_start 0 =
        (match s1.sf_format.dac_rate, s1.sf_format.sbr_flag with
          | false, false => 8
          | false, true => 5
          | true, false => 11
          | true, true => 6) ∧
      s1.au_start 0 = 3 + (12 * (s1.num_aus - 1) + 7) / 8 :=
  first_offset_by_configuration env0 plainChecked (by decide) (by decide) (by decide)

set_option maxRecDepth 100000 in
/-- C16 as stated fails: the sample superframe with `dac_rate` and `sbr_flag` clear passes
the sync check with `au_start[0] = 8`, where the claim has 6. -/
theorem first_offset_plain_is_eight :
    (parseFormat (plainChecked.sf.getD 2 0)).dac_rate = false ∧
    (parseFormat (plainChecked.sf.getD 2 0)).sbr_flag = false ∧
    (CheckSync env0 plainChecked).map (fun r => (r.1, r.2.au_start 0)) = some (true, 8) ∧
    (CheckSync env0 plainChecked).map (fun r => (r.1, r.2.au_start 0)) ≠ some (true, 6) := by
  decide

theorem channelConfiguration_eq (f : SuperframeFormat) :
    AACDecoder.GetAACChannelConfiguration f = channelConfiguration f := by
  unfold AACDecoder.GetAACChannelConfiguration channelConfiguration
  rcases hc : f.mpeg_surround_config with _ | _ | _ | n <;> simp

/-- C18. For every superframe format the constructor of `AACDecoder` builds two bytes
`asc[0]`, `asc[1]` whose 16-bit big-endian value is the bit string `00010`, then the
4-bit core sample-rate index, then the 4-bit channel configuration, then `100`; the
index is 3, 6, 5, 8 for `(dac_rate, sbr_flag)` = (1,0), (1,1), (0,0), (0,1) and the
channel configuration, the value of `GetAACChannelConfiguration`, is 6 for surround
configuration 1, 7 for 2, otherwise 2 with `aac_channel_mode` set and 1 without. -/
theorem audio_specific_config (f : SuperframeFormat) :
    ∃ a0 a1 : Nat, (AACDecoder.new f).asc = [a0, a1] ∧ a0 < 256 ∧ a1 < 256 ∧
      a0 * 256 + a1
        = 0b00010 * 2 ^ 11 + coreSampleRateIndex f.dac_rate f.sbr_flag * 2 ^ 7
          + channelConfiguration f * 2 ^ 3 + 0b100 ∧
      coreSampleRateIndex f.dac_rate f.sbr_flag < 2 ^ 4 ∧
      channelConfiguration f < 2 ^ 4 ∧
      AACDecoder.GetAACChannelConfiguration f = channelConfiguration f ∧
      (AACDecoder.new f).sf_format = f := by
  refine ⟨_, _, rfl, Nat.mod_lt _ (by decide), Nat.mod_lt _ (by decide), ?_, ?_, ?_,
    channelConfiguration_eq f, rfl⟩
  · rw [channelConfiguration_eq]
    unfold channelConfiguration coreSampleRateIndex
    rcases hc : f.mpeg_surround_config with _ | _ | _ | n <;>
      cases f.dac_rate <;> cases f.sbr_flag <;> cases f.aac_channel_mode <;>
        simp
  · unfold coreSampleRateIndex
    cases f.dac_rate <;> cases f.sbr_flag <;> decide
  · unfold channelConfiguration
    split_ifs <;> decide

theorem offsets_step (T : Nat → Nat) (n : Nat) (h : offsetsIncreasing T n = true) :
    ∀ j, j < n → T j < T (j + 1) := by
  unfold offsetsIncreasing at h
  rw [List.all_eq_true] at h
  intro j hj
  simpa using h j (List.mem_range.mpr hj)

theorem offsets_mono (T : Nat → Nat) (n : Nat) (hstep : ∀ j, j < n → T j < T (j + 1)) :
    ∀ i j, i ≤ j → j ≤ n → T i ≤ T j := by
  intro i j hij hjn
  obtain ⟨d, rfl⟩ : ∃ d, j = i + d := ⟨j - i, by omega⟩
  induction d with
  | zero => exact le_refl _
  | succ d ih =>
    have h1 := ih (by omega) (by omega)
    have h2 := hstep (i + d) (by omega)
    exact le_trans h1 (le_of_lt h2)

/-- Consecutive access units laid end to end are the stretch of the buffer from the
first offset to the last. -/
theorem auBytes_flatten (sf : List Byte) (T : Nat → Nat) (n : Nat)
    (hstep : ∀ j, j < n → T j < T (j + 1)) :
    ((List.range n).map (auBytes sf T)).flatten = (sf.drop (T 0)).take (T n - T 0) := by
  induction n with
  | zero => simp
  | succ n ih =>
    have h1 := ih (fun j hj => hstep j (by omega))
    have hm := offsets_mono T (n + 1) hstep 0 n (by omega) (by omega)
    have hl := hstep n (by omega)
    rw [List.range_succ, List.map_append, List.flatten_append, h1]
    have he : T (n + 1) - T 0 = (T n - T 0) + (T (n + 1) - T n) := by omega
    rw [he, List.take_add, List.drop_drop]
    have hd : T 0 + (T n - T 0) = T n := by omega
    simp [auBytes, hd]

/-- C19. For a corrected buffer of `sf_len = 120 * k` bytes, `k >= 1`, on which
`CheckSync` returns true: the header bytes `sf[0] .. sf[10]` exist; every `i < num_aus`
has `5 <= au_start[i] < au_start[i+1] <= 110 * k < sf_len`; the last entry is `110 * k`;
the access unit `i` has exactly `au_start[i+1] - au_start[i] > 0` bytes of the buffer;
a later unit starts where an earlier one has ended; and the units laid end to end are
the bytes `[au_start[0], 110 * k)` of the buffer. -/
theorem access_units_partition (env : Env) (s s1 : SuperframeFilter) (k : Nat)
    (hk : 1 ≤ k) (hlen : s.sf_len = 120 * k) (hsf : s.sf.length = s.sf_len)
    (h : CheckSync env s = some (true, s1)) :
    (∀ j, j ≤ 10 → ∃ b, s.sf[j]? = some b) ∧
    s1.sf = s.sf ∧
    (∀ i, i < s1.num_aus →
      5 ≤ s1.au_start i ∧ s1.au_start i < s1.au_start (i + 1) ∧
      s1.au_start (i + 1) ≤ 110 * k ∧ 110 * k < s.sf_len) ∧
    s1.au_start s1.num_aus = 110 * k ∧
    (∀ i, i < s1.num_aus →
      (auBytes s.sf s1.au_start i).length = s1.au_start (i + 1) - s1.au_start i ∧
      0 < (auBytes s.sf s1.au_start i).length) ∧
    (∀ i j, i < j → j < s1.num_aus → s1.au_start (i + 1) ≤ s1.au_start j) ∧
    ((List.range s1.num_aus).map (auBytes s.sf s1.au_start)).flatten
      = (s.sf.drop (s1.au_start 0)).take (110 * k - s1.au_start 0) := by
  have h11 : 11 ≤ s.sf.length := by omega
  obtain ⟨s2, he, hs⟩ := CheckSync_result env s h11
  rw [he] at h
  have hflag := congrArg (fun o => o.map Prod.fst) h
  have hst := congrArg (fun o => o.map Prod.snd) h
  simp only [Option.map_some', Option.some.injEq] at hflag hst
  have hs1 : s1 = syncedState s := by rw [← hst]; exact hs hflag
  have hinc : offsetsIncreasing (headerTable s.au_start s.sf s.sf_len)
      (numAUs (headerFormat s.sf)) = true := by
    rw [Bool.and_eq_true] at hflag
    exact hflag.2
  have hstep := offsets_step _ _ hinc
  have hmono := offsets_mono _ _ hstep
  have hlast : headerTable s.au_start s.sf s.sf_len (numAUs (headerFormat s.sf)) = 110 * k := by
    unfold headerTable
    rw [fillAUStart_last, hlen, Nat.mul_div_cancel_left k (by decide : 0 < 120), Nat.mul_comm]
  have hzero : 5 ≤ headerTable s.au_start s.sf s.sf_len 0 := by
    unfold headerTable
    rw [fillAUStart_zero]
    exact firstAUStart_ge_five _
  subst hs1
  show _ ∧ _ ∧ (∀ i, i < numAUs (headerFormat s.sf) → _) ∧
    headerTable s.au_start s.sf s.sf_len (numAUs (headerFormat s.sf)) = 110 * k ∧
    (∀ i, i < numAUs (headerFormat s.sf) → _) ∧
    (∀ i j, i < j → j < numAUs (headerFormat s.sf) → _) ∧ _
  refine ⟨?_, rfl, ?_, hlast, ?_, ?_, ?_⟩
  · intro j hj
    exact ⟨s.sf.getD j 0, getElem?_eq_some_getD s.sf j (by omega)⟩
  · intro i hi
    have h0 := hmono 0 i (by omega) (by omega)
    have h1 := hmono (i + 1) _ (by omega) (le_refl _)
    rw [hlast] at h1
    exact ⟨le_trans hzero h0, hstep i hi, h1, by omega⟩
  · intro i hi
    have h1 := hmono (i + 1) _ (by omega) (le_refl _)
    rw [hlast] at h1
    have h2 := hstep i hi
    have hl : (auBytes s.sf (headerTable s.au_start s.sf s.sf_len) i).length
        = headerTable s.au_start s.sf s.sf_len (i + 1) - headerTable s.au_start s.sf s.sf_len i := by
      unfold auBytes
      rw [List.length_take, List.length_drop]
      omega
    exact ⟨hl, lt_of_lt_of_eq (by omega) hl.symm⟩
  · intro i j hij hj
    exact hmono (i + 1) j (by omega) (by omega)
  · have := auBytes_flatten s.sf _ _ hstep
    rw [hlast] at this
    exact this

set_option maxRecDepth 100000 in
/-- The sample superframe with four access units passes the sync check under `env0`. -/
theorem plain_syncs :
    CheckSync env0 plainChecked = some (true, syncedState plainChecked) := by
  rw [CheckSync_past_fire env0 plainChecked (by decide) (by decide) (by decide)]
  have h : offsetsIncreasing (headerTable plainChecked.au_start plainChecked.sf
      plainChecked.sf_len) (numAUs (headerFormat plainChecked.sf)) = true := by decide
  rw [h]

set_option maxRecDepth 100000 in
/-- Witness for C19: the sample superframe with four access units, `k = 1`. -/
theorem access_units_partition_witness :
    ((List.range (syncedState plainChecked).num_aus).map
        (auBytes plainChecked.sf (syncedState plainChecked).au_start)).flatten
      = (plainChecked.sf.drop ((syncedState plainChecked).au_start 0)).take
          (110 * 1 - (syncedState plainChecked).au_start 0) :=
  (access_units_partition env0 plainChecked (syncedState plainChecked) 1 (by decide)
      (by decide) (by decide) plain_syncs).2.2.2.2.2.2

set_option maxRecDepth 100000 in
/-- C20, the code at a superframe with a one-byte access unit. On the corrected buffer
`shortAUSuperframe` the sync check returns true with `num_aus = 2` and the offsets
5 < 6 < 110, so the first access unit has `au_start[1] - au_start[0] = 1 < 2` bytes;
`au_len - 2` is then `2^64 - 1`, and the round of the loop for this unit leaves the
buffer. -/
theorem sync_accepts_one_byte_unit :
    (CheckSync env0 shortAUChecked).map
        (fun r => (r.1, r.2.num_aus, r.2.au_start 0, r.2.au_start 1, r.2.au_start 2))
      = some (true, 2, 5, 6, 110) ∧
    (syncedState shortAUChecked).au_start 1 - (syncedState shortAUChecked).au_start 0 < 2 ∧
    ((((syncedState shortAUChecked).au_start 1 : Int)
        - (syncedState shortAUChecked).au_start 0 - 2) % 2 ^ 64).toNat = 2 ^ 64 - 1 ∧
    processAU env0 shortAUChecked.sf (syncedState shortAUChecked).au_start 0 = none := by
  decide

/-! ### Format changes -/

theorem CheckSync_true_length (env : Env) (s s1 : SuperframeFilter)
    (h : CheckSync env s = some (true, s1)) : 11 ≤ s.sf.length := by
  unfold CheckSync at h
  simp only [Option.bind_eq_bind, Option.bind_eq_some] at h
  obtain ⟨sf3, -, sf4, -, h⟩ := h
  by_cases h0 : sf3 = 0 ∧ sf4 = 0
  · rw [if_pos h0] at h
    simp only [Option.pure_def, Option.some.injEq, Prod.mk.injEq] at h
    exact absurd h.1 (by simp)
  · rw [if_neg h0] at h
    simp only [Option.bind_eq_some] at h
    obtain ⟨sf0, -, sf1, -, hdr, -, h⟩ := h
    by_cases h1 : (sf0.val <<< 8 ||| sf1.val) % 65536 ≠ env.CalcCRC_FIRE_CODE hdr % 65536
    · rw [if_pos h1] at h
      simp only [Option.pure_def, Option.some.injEq, Prod.mk.injEq] at h
      exact absurd h.1 (by simp)
    · rw [if_neg h1] at h
      simp only [Option.bind_eq_some] at h
      obtain ⟨sf2, -, sf5, -, sf6, -, sf7, -, sf8, -, sf9, -, sf10, h10, -⟩ := h
      by_contra hlt
      rw [List.getElem?_eq_none (by omega)] at h10
      exact absurd h10 (by simp)

theorem processAUs_kinds (env : Env) (sf : List Byte) (a : Nat → Nat) (is : List Nat) :
    ∀ e ∈ (processAUs env sf a is).1,
      e.isFormatChange = false ∧ e.isCodecNew = false ∧ e ≠ Event.CheckSync true := by
  induction is with
  | nil => intro e he; simp [processAUs] at he
  | cons i is ih =>
    intro e he
    unfold processAUs at he
    cases hp : processAU env sf a i with
    | none => simp [hp] at he
    | some r =>
      simp only [hp] at he
      rcases processAU_events env sf a i r hp with ⟨m, rfl⟩ | ⟨d, x, l, f, -, rfl⟩ | ⟨d, -, rfl⟩
      · simp only [if_true, List.mem_append] at he
        rcases he with he | he
        · simp at he; subst he; exact ⟨rfl, rfl, by simp⟩
        · exact ih e he
      · simp only [if_true, List.mem_append] at he
        rcases he with he | he
        · simp at he; rcases he with rfl | rfl <;> exact ⟨rfl, rfl, by simp⟩
        · exact ih e he
      · simp at he; subst he; exact ⟨rfl, rfl, by simp⟩

theorem rsStatistics_kinds (p : RSDecoder.Progress) :
    ∀ e ∈ rsStatistics p,
      e.isFormatChange = false ∧ e.isCodecNew = false ∧ e ≠ Event.CheckSync true := by
  intro e he
  unfold rsStatistics at he
  split_ifs at he <;> simp at he
  subst he; exact ⟨rfl, rfl, by simp⟩

theorem syncFailure_kinds (s : SuperframeFilter) :
    ∀ e ∈ (syncFailure s).1,
      e.isFormatChange = false ∧ e.isCodecNew = false ∧ e ≠ Event.CheckSync true := by
  intro e he
  unfold syncFailure at he
  split_ifs at he <;> simp at he
  subst he; exact ⟨rfl, rfl, by simp⟩

theorem formatCheck_counts (s : SuperframeFilter) (b : Byte) :
    (formatCheck s b).1.countP Event.isFormatChange
      = (if s.sf_format_set = false ∨ s.sf_format_raw ≠ b then 1 else 0) ∧
    (formatCheck s b).1.countP Event.isCodecNew
      = (if s.sf_format_set = false ∨ s.sf_format_raw ≠ b then 1 else 0) := by
  unfold formatCheck ProcessFormat
  by_cases h : s.sf_format_set = false ∨ s.sf_format_raw ≠ b
  · rw [if_pos h, if_pos h]
    cases hd : s.aac_dec <;>
      simp [List.countP_cons, Event.isFormatChange, Event.isCodecNew]
  · rw [if_neg h, if_neg h]
    simp

theorem countP_zero_of_kinds (q : Event → Bool) (l : List Event)
    (h : ∀ e ∈ l, q e = false) : l.countP q = 0 := by
  rw [List.countP_eq_zero]
  intro e he
  rw [h e he]
  simp

/-- What a successful sync check is followed by: one `FormatChange` and one codec
construction when the format byte is new, none otherwise; the state returned has the
format byte recorded. -/
theorem syncSuccess_format (env : Env) (s : SuperframeFilter) (h11 : 11 ≤ s.sf.length) :
    ∃ sf2, s.sf[2]? = some sf2 ∧
      (syncSuccess env s).1.countP Event.isFormatChange
        = (if s.sf_format_set = false ∨ s.sf_format_raw ≠ sf2 then 1 else 0) ∧
      (syncSuccess env s).1.countP Event.isCodecNew
        = (if s.sf_format_set = false ∨ s.sf_format_raw ≠ sf2 then 1 else 0) ∧
      ∀ t, (syncSuccess env s).2 = some t →
        t.sf = s.sf ∧ t.sf_format_set = true ∧ t.sf_format_raw = sf2 ∧
        t.frame_len = s.frame_len ∧ t.sf_len = s.sf_len := by
  have h2 := getElem?_eq_some_getD s.sf 2 (by omega)
  refine ⟨s.sf.getD 2 0, h2, ?_, ?_, ?_⟩
  · unfold syncSuccess
    simp only [h2, List.countP_append]
    rw [(formatCheck_counts _ _).1,
      countP_zero_of_kinds _ _ (fun e he => (processAUs_kinds _ _ _ _ e he).1)]
    split_ifs <;> simp [Event.isFormatChange]
  · unfold syncSuccess
    simp only [h2, List.countP_append]
    rw [(formatCheck_counts _ _).2,
      countP_zero_of_kinds _ _ (fun e he => (processAUs_kinds _ _ _ _ e he).2.1)]
    split_ifs <;> simp [Event.isCodecNew]
  · intro t ht
    obtain ⟨b, hb, rfl⟩ := syncSuccess_state env s t ht
    rw [h2] at hb
    have hb2 := Option.some.inj hb
    subst hb2
    obtain ⟨f1, -, -, -, f2, f3, f4, f5, -⟩ :=
      formatCheck_fields { s with sync_frames := 0 } (s.sf.getD 2 0)
    exact ⟨f2, f4, f5, f1, f3⟩

/-- A decode attempt whose sync check failed or was not reached leaves the format
fields alone. -/
theorem decodeAttempt_unsynced (env : Env) (s t : SuperframeFilter)
    (hno : Event.CheckSync true ∉ (decodeAttempt env s).1)
    (ht : (decodeAttempt env s).2 = some t) :
    t.sf_format_set = s.sf_format_set ∧ t.sf_format_raw = s.sf_format_raw := by
  rcases decodeAttempt_cases env s with h1 | ⟨c, -, h1⟩ | ⟨c, p, -, h1⟩ |
    ⟨c, p, ok, s1, -, -, h3, h4⟩
  · rw [h1] at ht; exact absurd ht (by simp)
  · rw [h1] at ht; exact absurd ht (by simp)
  · rw [h1] at ht; exact absurd ht (by simp)
  · cases ok with
    | true =>
      rw [h4] at hno
      exact absurd (by simp) hno
    | false =>
      rw [h4] at ht
      simp only [Bool.false_eq_true, if_false, syncFailure, Option.some.injEq] at ht
      obtain ⟨-, -, -, -, -, -, -, e1, e2⟩ := CheckSync_fields env _ s1 false h3
      subst ht
      exact ⟨e1, e2⟩

/-- A decode attempt whose sync check succeeded: the corrected buffer, the number of
`FormatChange` calls and of codec constructions, and the format fields returned. -/
theorem decodeAttempt_synced (env : Env) (s : SuperframeFilter)
    (h : Event.CheckSync true ∈ (decodeAttempt env s).1) :
    ∃ c p sf2, (decodeAttempt env s).1.head? = some (Event.RSDecode c) ∧
      RSDecoder.DecodeSuperframe env.decode_rs_char c s.sf_len = some p ∧
      p.sf[2]? = some sf2 ∧
      (decodeAttempt env s).1.countP Event.isFormatChange
        = (if s.sf_format_set = false ∨ s.sf_format_raw ≠ sf2 then 1 else 0) ∧
      (decodeAttempt env s).1.countP Event.isCodecNew
        = (if s.sf_format_set = false ∨ s.sf_format_raw ≠ sf2 then 1 else 0) ∧
      ∀ t, (decodeAttempt env s).2 = some t →
        t.sf = p.sf ∧ t.sf_format_set = true ∧ t.sf_format_raw = sf2 ∧
        t.frame_len = s.frame_len ∧ t.sf_len = s.sf_len := by
  obtain ⟨c, p, s1, -, h2, h3, h4⟩ := decodeAttempt_sync_mem env s true h
  have h11 := CheckSync_true_length env _ s1 h3
  obtain ⟨-, e0, -, -, -, e1, e4, e2, e3⟩ := CheckSync_fields env _ s1 true h3
  have h11b : 11 ≤ s1.sf.length := by rw [e1]; exact h11
  obtain ⟨sf2, g1, g2, g3, g4⟩ := syncSuccess_format env s1 h11b
  rw [e1] at g1
  rw [e2, e3] at g2 g3
  refine ⟨c, p, sf2, ?_, h2, g1, ?_, ?_, ?_⟩
  · rw [h4]; rfl
  · rw [h4]
    simp only [if_true, List.countP_cons, List.countP_append]
    rw [g2, countP_zero_of_kinds _ _ (fun e he => (rsStatistics_kinds p e he).1)]
    simp [Event.isFormatChange]
  · rw [h4]
    simp only [if_true, List.countP_cons, List.countP_append]
    rw [g3, countP_zero_of_kinds _ _ (fun e he => (rsStatistics_kinds p e he).2.1)]
    simp [Event.isCodecNew]
  · intro t ht
    rw [h4] at ht
    simp only [if_true] at ht
    obtain ⟨k1, k2, k3, k4, k5⟩ := g4 t ht
    exact ⟨k1.trans e1, k2, k3, k4.trans e0, k5.trans e4⟩

/-- The ways a `Feed` call of a filter with `sf_len = 5 * frame_len` can go: frame
dropped with a message, an access outside a buffer, frame stored without any call, or
the decode attempt on a state with the format fields of before. -/
theorem Feed_attempt_cases (env : Env) (s : SuperframeFilter) (data : List Byte)
    (hinv : s.frame_len ≠ 0 → s.sf_len = 5 * s.frame_len % 2 ^ 64) :
    (∃ m, Feed env s data = ([Event.Log m], some s)) ∨
    (Feed env s data = ([], none)) ∨
    (∃ t, Feed env s data = ([], some t) ∧ t.sf_format_set = s.sf_format_set ∧
      t.sf_format_raw = s.sf_format_raw ∧ t.frame_len = data.length ∧
      t.sf_len = 5 * data.length % 2 ^ 64) ∨
    (∃ s1, Feed env s data = decodeAttempt env s1 ∧
      s1.sf_format_set = s.sf_format_set ∧ s1.sf_format_raw = s.sf_format_raw ∧
      s1.frame_len = data.length ∧ s1.sf_len = 5 * data.length % 2 ^ 64) := by
  have key : ∀ s0 : SuperframeFilter, s0.sf_format_set = s.sf_format_set →
      s0.sf_format_raw = s.sf_format_raw → s0.frame_len = data.length →
      s0.sf_len = 5 * data.length % 2 ^ 64 →
      (accumulate env s0 data = ([], none)) ∨
      (∃ t, accumulate env s0 data = ([], some t) ∧ t.sf_format_set = s.sf_format_set ∧
        t.sf_format_raw = s.sf_format_raw ∧ t.frame_len = data.length ∧
        t.sf_len = 5 * data.length % 2 ^ 64) ∨
      (∃ s1, accumulate env s0 data = decodeAttempt env s1 ∧
        s1.sf_format_set = s.sf_format_set ∧ s1.sf_format_raw = s.sf_format_raw ∧
        s1.frame_len = data.length ∧ s1.sf_len = 5 * data.length % 2 ^ 64) := by
    intro s0 e1 e2 e3 e4
    rcases accumulate_cases env s0 data with h | ⟨raw, c, h⟩
    · left; exact h
    · by_cases hc : c < 5
      · rw [if_pos hc] at h
        right; left; exact ⟨_, h, e1, e2, e3, e4⟩
      · rw [if_neg hc] at h
        right; right; exact ⟨_, h, e1, e2, e3, e4⟩
  unfold Feed
  by_cases h0 : s.frame_len ≠ 0
  · rw [if_pos h0]
    by_cases hl : s.frame_len ≠ data.length
    · rw [if_pos hl]; left; exact ⟨_, rfl⟩
    · rw [if_neg hl]
      have hl2 : s.frame_len = data.length := by
        by_contra hne; exact hl hne
      right
      exact key s rfl rfl hl2 (by rw [hinv h0, hl2])
  · rw [if_neg h0]
    by_cases h10 : data.length < 10
    · rw [if_pos h10]; left; exact ⟨_, rfl⟩
    · rw [if_neg h10]
      by_cases h120 : 5 * data.length % 2 ^ 64 % 120 ≠ 0
      · rw [if_pos h120]; left; exact ⟨_, rfl⟩
      · rw [if_neg h120]; right; exact key _ rfl rfl rfl rfl

theorem getD_of_getElem? (l : List Byte) (i : Nat) (b : Byte) (h : l[i]? = some b) :
    l.getD i 0 = b := by
  rw [List.getD_eq_getElem?_getD, h]; rfl

theorem Feed_format_step (env : Env) (s t : SuperframeFilter) (d : List Byte)
    (prev : Option Byte) (hT : FormatTracked s prev) (ht : (Feed env s d).2 = some t) :
    FormatTracked t
      (if Event.CheckSync true ∈ (Feed env s d).1 then some (t.sf.getD 2 0) else prev) := by
  obtain ⟨i1, i2, i3⟩ := hT
  rcases Feed_attempt_cases env s d i1 with ⟨m, hF⟩ | hF | ⟨t1, hF, e1, e2, e3, e4⟩ |
    ⟨s1, hF, e1, e2, e3, e4⟩
  · rw [hF] at ht ⊢
    have := Option.some.inj ht
    subst this
    rw [if_neg (by simp)]
    exact ⟨i1, i2, i3⟩
  · rw [hF] at ht; exact absurd ht (by simp)
  · rw [hF] at ht ⊢
    have := Option.some.inj ht
    subst this
    rw [if_neg (by simp)]
    refine ⟨fun _ => by rw [e4, e3], by rw [e1]; exact i2, fun b hb => by rw [e2]; exact i3 b hb⟩
  · rw [hF] at ht ⊢
    by_cases hm : Event.CheckSync true ∈ (decodeAttempt env s1).1
    · rw [if_pos hm]
      obtain ⟨c, p, sf2, -, -, g1, -, -, g2⟩ := decodeAttempt_synced env s1 hm
      obtain ⟨k1, k2, k3, k4, k5⟩ := g2 t ht
      have hb : t.sf.getD 2 0 = sf2 := by rw [k1]; exact getD_of_getElem? _ _ _ g1
      rw [hb]
      refine ⟨fun _ => by rw [k5, k4, e4, e3], ?_, ?_⟩
      · rw [k2]; simp
      · intro b hb2
        rw [k3]; exact Option.some.inj hb2
    · rw [if_neg hm]
      obtain ⟨k1, k2⟩ := decodeAttempt_unsynced env s1 t hm ht
      obtain ⟨k3, k4, -⟩ := decodeAttempt_keeps env s1 t ht
      refine ⟨fun _ => by rw [k4, k3, e4, e3], by rw [k1, e1]; exact i2,
        fun b hb => by rw [k2, e2]; exact i3 b hb⟩

theorem FeedAll_format (env : Env) (fs : List (List Byte)) :
    ∀ (s t : SuperframeFilter) (prev : Option Byte), FormatTracked s prev →
      (FeedAll env s fs).2 = some t →
      FormatTracked t (lastSyncedFormat env s fs prev) ∧
      (lastSyncedFormat env s fs prev = none ↔
        prev = none ∧ Event.CheckSync true ∉ (FeedAll env s fs).1) := by
  induction fs with
  | nil =>
    intro s t prev hT ht
    simp only [FeedAll, Option.some.injEq] at ht
    subst ht
    simp [lastSyncedFormat, FeedAll, hT]
  | cons d ds ih =>
    intro s t prev hT ht
    cases hF : (Feed env s d).2 with
    | none =>
      simp only [FeedAll, hF] at ht
      exact absurd ht (by simp)
    | some s1 =>
      simp only [FeedAll, hF] at ht ⊢
      have hstep := Feed_format_step env s s1 d prev hT hF
      obtain ⟨j1, j2⟩ := ih s1 t _ hstep ht
      simp only [lastSyncedFormat, hF]
      refine ⟨j1, ?_⟩
      rw [j2]
      by_cases hm : Event.CheckSync true ∈ (Feed env s d).1
      · simp [hm]
      · simp [hm]

theorem lastSyncedFormat_snoc (env : Env) (fs : List (List Byte)) (d : List Byte) :
    ∀ (s t : SuperframeFilter) (prev : Option Byte), (FeedAll env s fs).2 = some t →
      lastSyncedFormat env s (fs ++ [d]) prev
        = lastSyncedFormat env t [d] (lastSyncedFormat env s fs prev) := by
  induction fs with
  | nil =>
    intro s t prev ht
    simp only [FeedAll, Option.some.injEq] at ht
    subst ht
    rfl
  | cons x xs ih =>
    intro s t prev ht
    cases hF : (Feed env s x).2 with
    | none =>
      simp only [FeedAll, hF] at ht
      exact absurd ht (by simp)
    | some s1 =>
      simp only [FeedAll, hF] at ht
      simp only [List.cons_append, lastSyncedFormat, hF]
      exact ih s1 t _ ht

theorem init_formatTracked : FormatTracked init none :=
  ⟨fun h => absurd rfl h, by simp [init], fun b hb => absurd hb (by simp)⟩

/-- C12. In a run of `Feed` calls on a freshly constructed filter, take a call whose
decode attempt passes the sync check, made after the frames `fs`. With `sf2` the byte
`sf[2]` of the corrected buffer and `lastSyncedFormat` the format byte of the previous
superframe that passed the sync check (`none` exactly when no earlier call passed it),
the call makes exactly one `FormatChange` call and one codec construction when there is
no previous synced superframe or its format byte differs from `sf2`, and none of either
otherwise; and when the call returns, `sf` is the corrected buffer, `sf_format_set` is
true, `sf_format_raw` is `sf2`, and `sf2` is the format byte remembered for the next
superframe. -/
theorem format_change_iff (env : Env) (fs : List (List Byte)) (d : List Byte)
    (h : Event.CheckSync true ∈ (feedAfter env fs d).1) :
    ∃ c p sf2, (feedAfter env fs d).1.head? = some (Event.RSDecode c) ∧
      RSDecoder.DecodeSuperframe env.decode_rs_char c (5 * d.length % 2 ^ 64) = some p ∧
      p.sf[2]? = some sf2 ∧
      (feedAfter env fs d).1.countP Event.isFormatChange
        = (if lastSyncedFormat env init fs none = some sf2 then 0 else 1) ∧
      (feedAfter env fs d).1.countP Event.isCodecNew
        = (if lastSyncedFormat env init fs none = some sf2 then 0 else 1) ∧
      (lastSyncedFormat env init fs none = none ↔
        Event.CheckSync true ∉ (FeedAll env init fs).1) ∧
      ∀ t, (feedAfter env fs d).2 = some t →
        t.sf = p.sf ∧ t.sf_format_set = true ∧ t.sf_format_raw = sf2 ∧
        lastSyncedFormat env init (fs ++ [d]) none = some sf2 := by
  cases hrun : (FeedAll env init fs).2 with
  | none =>
    unfold feedAfter at h
    simp only [hrun] at h
    exact absurd h (by simp)
  | some s =>
    have hfa : feedAfter env fs d = Feed env s d := by
      unfold feedAfter
      simp only [hrun]
    rw [hfa] at h ⊢
    obtain ⟨⟨i1, i2, i3⟩, hnone⟩ := FeedAll_format env fs init s none init_formatTracked hrun
    rcases Feed_attempt_cases env s d i1 with ⟨m, hF⟩ | hF | ⟨t1, hF, -⟩ |
      ⟨s1, hF, e1, e2, e3, e4⟩
    · rw [hF] at h; simp at h
    · rw [hF] at h; simp at h
    · rw [hF] at h; simp at h
    · have hsnoc := lastSyncedFormat_snoc env fs d init s none hrun
      rw [hF] at h
      obtain ⟨c, p, sf2, g0, g1, g2, g3, g4, g5⟩ := decodeAttempt_synced env s1 h
      have hcond : (if s1.sf_format_set = false ∨ s1.sf_format_raw ≠ sf2 then 1 else 0)
          = (if lastSyncedFormat env init fs none = some sf2 then 0 else 1) := by
        rw [e1, e2]
        cases hp : lastSyncedFormat env init fs none with
        | none =>
          have hset : s.sf_format_set = false := by
            cases hb : s.sf_format_set
            · rfl
            · exact absurd hp (i2.mp hb)
          simp [hset]
        | some b =>
          have hset : s.sf_format_set = true := i2.mpr (by rw [hp]; simp)
          have hraw := i3 b hp
          rw [hset, hraw]
          by_cases hb : b = sf2
          · simp [hb]
          · simp [hb]
      rw [e4] at g1
      refine ⟨c, p, sf2, by rw [hF]; exact g0, g1, g2, by rw [hF, g3, hcond],
        by rw [hF, g4, hcond], ?_, ?_⟩
      · rw [hnone]; simp
      · intro t ht
        rw [hF] at ht
        obtain ⟨k1, k2, k3, -, -⟩ := g5 t ht
        refine ⟨k1, k2, k3, ?_⟩
        rw [hsnoc]
        have hF2 : (Feed env s d).2 = some t := by rw [hF]; exact ht
        have hm : Event.CheckSync true ∈ (Feed env s d).1 := by rw [hF]; exact h
        simp only [lastSyncedFormat, hF2, if_pos hm]
        rw [k1, getD_of_getElem? _ _ _ g2]

set_option maxRecDepth 100000 in
/-- Witness for C12: the second of two superframes with the same format byte. -/
theorem format_change_iff_witness :
    ∃ c p sf2,
      (feedAfter env0 (sampleFrames ++ sampleFrames.take 4) zeroFrame).1.head?
        = some (Event.RSDecode c) ∧
      RSDecoder.DecodeSuperframe env0.decode_rs_char c (5 * zeroFrame.length % 2 ^ 64)
        = some p ∧
      p.sf[2]? = some sf2 ∧
      (feedAfter env0 (sampleFrames ++ sampleFrames.take 4) zeroFrame).1.countP
          Event.isFormatChange
        = (if lastSyncedFormat env0 init (sampleFrames ++ sampleFrames.take 4) none = some sf2
            then 0 else 1) ∧
      (feedAfter env0 (sampleFrames ++ sampleFrames.take 4) zeroFrame).1.countP
          Event.isCodecNew
        = (if lastSyncedFormat env0 init (sampleFrames ++ sampleFrames.take 4) none = some sf2
            then 0 else 1) ∧
      (lastSyncedFormat env0 init (sampleFrames ++ sampleFrames.take 4) none = none ↔
        Event.CheckSync true ∉ (FeedAll env0 init (sampleFrames ++ sampleFrames.take 4)).1) ∧
      ∀ t, (feedAfter env0 (sampleFrames ++ sampleFrames.take 4) zeroFrame).2 = some t →
        t.sf = p.sf ∧ t.sf_format_set = true ∧ t.sf_format_raw = sf2 ∧
        lastSyncedFormat env0 init (sampleFrames ++ sampleFrames.take 4 ++ [zeroFrame]) none
          = some sf2 :=
  format_change_iff env0 (sampleFrames ++ sampleFrames.take 4) zeroFrame (by decide)

set_option maxRecDepth 100000 in
/-- Two superframes with the format byte `0x20` fed one after the other: the first makes
one `FormatChange` call and one codec construction, the second none. -/
theorem format_change_sample :
    Event.CheckSync true ∈ (feedAfter env0 (sampleFrames.take 4) zeroFrame).1 ∧
    lastSyncedFormat env0 init (sampleFrames.take 4) none = none ∧
    (feedAfter env0 (sampleFrames.take 4) zeroFrame).1.countP Event.isFormatChange = 1 ∧
    (feedAfter env0 (sampleFrames.take 4) zeroFrame).1.countP Event.isCodecNew = 1 ∧
    Event.CheckSync true ∈ (feedAfter env0 (sampleFrames ++ sampleFrames.take 4) zeroFrame).1 ∧
    lastSyncedFormat env0 init (sampleFrames ++ sampleFrames.take 4) none = some 0x20 ∧
    (feedAfter env0 (sampleFrames ++ sampleFrames.take 4) zeroFrame).1.countP
      Event.isFormatChange = 0 ∧
    (feedAfter env0 (sampleFrames ++ sampleFrames.take 4) zeroFrame).1.countP
      Event.isCodecNew = 0 := by
  decide

/-! ### What the Reed-Solomon pass writes -/

theorem stride_mod (pos k i : Nat) (hi : i < k) : (pos * k + i) % k = i := by
  rw [Nat.mul_comm, Nat.mul_add_mod, Nat.mod_eq_of_lt hi]

theorem stride_div (pos k i : Nat) (hi : i < k) : (pos * k + i) / k = pos := by
  have hk : 0 < k := by omega
  rw [Nat.mul_comm, Nat.mul_add_div hk, Nat.div_eq_of_lt hi, Nat.add_zero]

theorem stride_eq (idx k : Nat) : idx / k * k + idx % k = idx := by
  rw [Nat.mul_comm]; exact Nat.div_add_mod idx k

/-- A locator `loc` names the packet position `q` exactly when it is not below 135 and
`loc - 135` is `q`. -/
theorem locator_iff (loc : Int) (q : Nat) :
    loc = (q : Int) + 135 ↔ ¬ (loc - 135 < 0) ∧ (loc - 135).toNat = q := by
  omega

/-- The buffer after the write-back loop over the locator indices `js`: the scratch
byte wherever a locator of `js` maps, the byte of before elsewhere. -/
theorem writeCorrections_getD (r : RSResult) (k i : Nat) (hi : i < k) (js : List Nat) :
    ∀ sf out : List Byte, RSDecoder.writeCorrections r k i js sf = some out →
      ∀ idx, out.getD idx 0 =
        if idx % k = i ∧
            js.any (fun j => decide (r.corr_pos[j]? = some (((idx / k : Nat) : Int) + 135))) = true
        then r.rs_packet.getD (idx / k) 0 else sf.getD idx 0 := by
  induction js with
  | nil =>
    intro sf out h idx
    simp only [RSDecoder.writeCorrections, Option.some.injEq] at h
    subst h
    simp
  | cons j js ih =>
    intro sf out h idx
    unfold RSDecoder.writeCorrections at h
    cases hl : r.corr_pos[j]? with
    | none => simp [hl] at h
    | some loc =>
      simp only [hl] at h
      have hdec : decide (some loc = some (((idx / k : Nat) : Int) + 135)) = true ↔
          (¬ (loc - 135 < 0) ∧ (loc - 135).toNat = idx / k) := by
        rw [decide_eq_true_iff, Option.some.injEq]
        exact locator_iff loc (idx / k)
      by_cases hneg : loc - 135 < 0
      · rw [if_pos hneg] at h
        rw [ih sf out h idx]
        have hj : decide (some loc = some (((idx / k : Nat) : Int) + 135)) = false := by
          cases hd : decide (some loc = some (((idx / k : Nat) : Int) + 135))
          · rfl
          · exact absurd hneg (hdec.mp hd).1
        simp only [List.any_cons, hl, hj, Bool.false_or]
      · rw [if_neg hneg] at h
        cases hb : r.rs_packet[(loc - 135).toNat]? with
        | none => simp [hb] at h
        | some b =>
          simp only [hb] at h
          by_cases hw : (loc - 135).toNat * k + i < sf.length
          · rw [if_pos hw] at h
            rw [ih _ out h idx]
            have hbd : r.rs_packet.getD (loc - 135).toNat 0 = b := by
              rw [List.getD_eq_getElem?_getD, hb]; rfl
            by_cases hidx : idx = (loc - 135).toNat * k + i
            · have hm : idx % k = i := by rw [hidx]; exact stride_mod _ _ _ hi
              have hd : idx / k = (loc - 135).toNat := by rw [hidx]; exact stride_div _ _ _ hi
              have hj : decide (some loc = some (((idx / k : Nat) : Int) + 135)) = true :=
                hdec.mpr ⟨hneg, hd.symm⟩
              have hset : (sf.set ((loc - 135).toNat * k + i) b).getD idx 0 = b := by
                rw [hidx]; exact getD_set_self _ _ _ hw
              simp only [List.any_cons, hl, hj, Bool.true_or, hm, and_self, if_true, true_and]
              rw [hset, hd, hbd]
              split_ifs <;> rfl
            · have hj : idx % k = i →
                  decide (some loc = some (((idx / k : Nat) : Int) + 135)) = false := by
                intro hm
                cases hd : decide (some loc = some (((idx / k : Nat) : Int) + 135))
                · rfl
                · exfalso
                  apply hidx
                  rw [(hdec.mp hd).2, ← hm]
                  exact (stride_eq idx k).symm
              rw [getD_set_ne _ _ _ _ (Ne.symm hidx)]
              by_cases hm : idx % k = i
              · simp only [List.any_cons, hl, hj hm, Bool.false_or]
              · simp only [hm, false_and, if_false]
          · rw [if_neg hw] at h
            exact absurd h (by simp)

theorem mapM_getElem?_eq (sf : List Byte) (g : Nat → Nat) (l : List Nat) :
    ∀ ys, l.mapM (fun p => sf[g p]?) = some ys → ys = l.map (fun p => sf.getD (g p) 0) := by
  rw [← List.mapM'_eq_mapM]
  induction l with
  | nil =>
    intro ys h
    simp only [List.mapM', Option.pure_def, Option.some.injEq] at h
    subst h; rfl
  | cons x xs ih =>
    intro ys h
    simp only [List.mapM', Option.bind_eq_bind, Option.bind_eq_some, Option.pure_def,
      Option.some.injEq] at h
    obtain ⟨y, hy, zs, hzs, rfl⟩ := h
    rw [ih zs hzs, List.map_cons, List.getD_eq_getElem?_getD, hy]
    rfl

/-- The packet read in round `i` is the codeword `i` of the buffer. -/
theorem readPacket_eq (sf : List Byte) (k i : Nat) (pkt : List Byte)
    (h : RSDecoder.readPacket sf k i = some pkt) : pkt = codeword sf k i :=
  mapM_getElem?_eq sf (fun pos => pos * k + i) (List.range 120) pkt h

theorem codeword_length (sf : List Byte) (k i : Nat) : (codeword sf k i).length = 120 := by
  simp [codeword]

theorem codeword_congr (sf sf1 : List Byte) (k i : Nat) (hi : i < k)
    (h : ∀ idx, idx % k = i → sf1.getD idx 0 = sf.getD idx 0) :
    codeword sf1 k i = codeword sf k i := by
  unfold codeword
  apply List.map_congr_left
  intro pos _
  exact h _ (stride_mod pos k i hi)

/-- The state after the rounds `is` of the loop over the packets: every byte of a
codeword of `is` is the scratch byte when its position is reported and the byte of before
otherwise, the other bytes are as before, the total grows by the counts that are not
`-1`, and the flag is raised by a count `-1`. -/
theorem decodePackets_spec (dec : List Byte → RSResult) (k : Nat) (is : List Nat) :
    is.Nodup → (∀ i ∈ is, i < k) →
    ∀ st out : RSDecoder.Progress, RSDecoder.decodePackets dec k is st = some out →
      (∀ idx, out.sf.getD idx 0 =
        if idx % k ∈ is ∧ reported (dec (codeword st.sf k (idx % k))) (idx / k) = true
        then (dec (codeword st.sf k (idx % k))).rs_packet.getD (idx / k) 0
        else st.sf.getD idx 0) ∧
      out.total_corr_count = st.total_corr_count
        + (is.map (fun i => countedCorrections (dec (codeword st.sf k i)))).sum ∧
      out.uncorr_errors = (st.uncorr_errors ||
        is.any (fun i => decide ((dec (codeword st.sf k i)).corr_count = -1))) := by
  induction is with
  | nil =>
    intro _ _ st out h
    simp only [RSDecoder.decodePackets, Option.some.injEq] at h
    subst h
    simp
  | cons i is ih =>
    intro hnd his st out h
    have hi := his i (List.mem_cons_self _ _)
    have hni : i ∉ is := (List.nodup_cons.mp hnd).1
    have hnd2 : is.Nodup := (List.nodup_cons.mp hnd).2
    have his2 : ∀ x ∈ is, x < k := fun x hx => his x (List.mem_cons_of_mem _ hx)
    unfold RSDecoder.decodePackets at h
    cases hp : RSDecoder.readPacket st.sf k i with
    | none => simp [hp] at h
    | some pkt =>
      simp only [hp] at h
      have hpkt := readPacket_eq st.sf k i pkt hp
      subst hpkt
      cases hw : RSDecoder.writeCorrections (dec (codeword st.sf k i)) k i
          (List.range (dec (codeword st.sf k i)).corr_count.toNat) st.sf with
      | none => simp [hw] at h
      | some sf1 =>
        simp only [hw] at h
        have hW := writeCorrections_getD (dec (codeword st.sf k i)) k i hi _ st.sf sf1 hw
        have hother : ∀ idx, idx % k ≠ i → sf1.getD idx 0 = st.sf.getD idx 0 := by
          intro idx hne
          rw [hW idx, if_neg (fun hc => hne hc.1)]
        have hcw : ∀ x ∈ is, codeword sf1 k x = codeword st.sf k x := by
          intro x hx
          apply codeword_congr _ _ _ _ (his2 x hx)
          intro idx hm
          exact hother idx (by rw [hm]; intro hxi; exact hni (hxi ▸ hx))
        obtain ⟨g1, g2, g3⟩ := ih hnd2 his2 _ out h
        refine ⟨?_, ?_, ?_⟩
        · intro idx
          rw [g1 idx]
          show (if idx % k ∈ is ∧ reported (dec (codeword sf1 k (idx % k))) (idx / k) = true
            then (dec (codeword sf1 k (idx % k))).rs_packet.getD (idx / k) 0
            else sf1.getD idx 0) = _
          by_cases hm : idx % k = i
          · have hnm : idx % k ∉ is := by rw [hm]; exact hni
            rw [if_neg (fun hc => hnm hc.1), hW idx, hm]
            simp only [List.mem_cons, true_or, true_and, reported]
          · by_cases hmem : idx % k ∈ is
            · rw [hcw _ hmem, hother idx hm]
              simp only [List.mem_cons, hm, hmem, false_or, true_and, or_true]
            · rw [if_neg (fun hc => hmem hc.1), hother idx hm, if_neg]
              intro hc
              rcases List.mem_cons.mp hc.1 with h1 | h1
              · exact hm h1
              · exact hmem h1
        · rw [g2]
          show (if (dec (codeword st.sf k i)).corr_count = -1 then st.total_corr_count
              else st.total_corr_count + (dec (codeword st.sf k i)).corr_count)
            + (is.map (fun x => countedCorrections (dec (codeword sf1 k x)))).sum = _
          have hmap : is.map (fun x => countedCorrections (dec (codeword sf1 k x)))
              = is.map (fun x => countedCorrections (dec (codeword st.sf k x))) :=
            List.map_congr_left (fun x hx => by rw [hcw x hx])
          rw [hmap, List.map_cons, List.sum_cons]
          unfold countedCorrections
          split_ifs <;> omega
        · rw [g3]
          show ((if (dec (codeword st.sf k i)).corr_count = -1 then true
              else st.uncorr_errors) ||
            is.any (fun x => decide ((dec (codeword sf1 k x)).corr_count = -1))) = _
          have hany : is.any (fun x => decide ((dec (codeword sf1 k x)).corr_count = -1))
              = is.any (fun x => decide ((dec (codeword st.sf k x)).corr_count = -1)) := by
            rw [Bool.eq_iff_iff]
            simp only [List.any_eq_true]
            constructor
            · rintro ⟨x, hx, hd⟩; exact ⟨x, hx, by rw [← hcw x hx]; exact hd⟩
            · rintro ⟨x, hx, hd⟩; exact ⟨x, hx, by rw [hcw x hx]; exact hd⟩
          rw [hany, List.any_cons]
          by_cases hc : (dec (codeword st.sf k i)).corr_count = -1
          · simp [hc]
          · simp [hc]

theorem getD_beyond (l : List Byte) (i : Nat) (h : l.length ≤ i) : l.getD i 0 = 0 := by
  rw [List.getD_eq_getElem?_getD, List.getElem?_eq_none h]; rfl

theorem reported_iff (r : RSResult) (pos : Nat) :
    reported r pos = true ↔
      ∃ j, j < r.corr_count.toNat ∧ r.corr_pos[j]? = some ((pos : Int) + 135) := by
  unfold reported
  simp only [List.any_eq_true, List.mem_range, decide_eq_true_iff]

theorem reported_uncorrectable (r : RSResult) (pos : Nat) (h : r.corr_count = -1) :
    reported r pos = false := by
  unfold reported
  rw [h]
  rfl

/-- `DecodeSuperframe` on a buffer of `120 * k` bytes with a library routine that keeps
its contract: the call completes, and the buffer returned holds the scratch byte at
every reported position of every codeword and the byte of before elsewhere. -/
theorem DecodeSuperframe_spec (dec : List Byte → RSResult) (hdec : RSContract dec)
    (sf : List Byte) (k : Nat) (hlen : sf.length = 120 * k) :
    ∃ p, RSDecoder.DecodeSuperframe dec sf sf.length = some p ∧ p.sf.length = sf.length ∧
      (∀ idx, idx < 120 * k → p.sf.getD idx 0 =
        if reported (dec (codeword sf k (idx % k))) (idx / k) = true
        then (dec (codeword sf k (idx % k))).rs_packet.getD (idx / k) 0
        else sf.getD idx 0) ∧
      p.total_corr_count
        = ((List.range k).map (fun i => countedCorrections (dec (codeword sf k i)))).sum ∧
      p.uncorr_errors
        = (List.range k).any (fun i => decide ((dec (codeword sf k i)).corr_count = -1)) := by
  obtain ⟨p, hp⟩ := DecodeSuperframe_total dec hdec sf sf.length (le_refl _)
  refine ⟨p, hp, DecodeSuperframe_length dec sf _ p hp, ?_⟩
  have hk : sf.length / 120 = k := by rw [hlen]; omega
  unfold RSDecoder.DecodeSuperframe at hp
  simp only [hk] at hp
  obtain ⟨g1, g2, g3⟩ := decodePackets_spec dec k (List.range k) (List.nodup_range k)
    (fun i hi => List.mem_range.mp hi) _ p hp
  refine ⟨?_, ?_, ?_⟩
  · intro idx hidx
    have hkpos : 0 < k := by
      rcases Nat.eq_zero_or_pos k with h0 | h0
      · rw [h0] at hidx; omega
      · exact h0
    have hm : idx % k ∈ List.range k := List.mem_range.mpr (Nat.mod_lt _ hkpos)
    rw [g1 idx]
    simp only [hm, true_and]
  · rw [g2]; simp
  · rw [g3]; simp

/-! ### The sample decoders keep the contract of the library -/

theorem nonZeroPositions_mem (p : List Byte) (pos : Nat) :
    pos ∈ nonZeroPositions p ↔ pos < 120 ∧ p.getD pos 0 ≠ 0 := by
  unfold nonZeroPositions
  simp only [List.mem_filter, List.mem_range, decide_eq_true_iff]

theorem nonZeroPositions_length (p : List Byte) :
    (nonZeroPositions p).length = distance (List.replicate 120 0) p := by
  unfold nonZeroPositions distance
  rw [List.countP_eq_length_filter]
  congr 1
  apply List.filter_congr
  intro pos hpos
  have hp : pos < 120 := List.mem_range.mp hpos
  have hz : (List.replicate 120 (0 : Byte)).getD pos 0 = 0 := by
    rw [List.getD_eq_getElem?_getD, List.getElem?_replicate]
    simp [hp]
  rw [hz, Bool.eq_iff_iff, decide_eq_true_iff, decide_eq_true_iff]
  exact ne_comm

theorem rsZeroCode_contract : RSContract rsZeroCode := by
  intro p hp
  unfold rsZeroCode
  by_cases h : (nonZeroPositions p).length ≤ 5
  · rw [if_pos h]
    refine ⟨List.length_replicate _ _, ?_, ?_, ?_, ?_⟩
    · show (-1 : Int) ≤ ((nonZeroPositions p).length : Int); omega
    · show ((nonZeroPositions p).length : Int) ≤ 10; omega
    · show ((nonZeroPositions p).map (fun (pos : Nat) => (pos : Int) + 135)
          ++ List.replicate (10 - (nonZeroPositions p).length) 0).length = 10
      rw [List.length_append, List.length_map, List.length_replicate]; omega
    · intro loc hloc
      have hloc2 : loc ∈ ((nonZeroPositions p).map (fun (pos : Nat) => (pos : Int) + 135)
          ++ List.replicate (10 - (nonZeroPositions p).length) 0).take
            (nonZeroPositions p).length := by
        simpa using hloc
      rw [List.take_append_of_le_length (by rw [List.length_map]),
        List.take_of_length_le (by rw [List.length_map])] at hloc2
      obtain ⟨pos, hpos, rfl⟩ := List.mem_map.mp hloc2
      have := ((nonZeroPositions_mem p pos).mp hpos).1
      constructor <;> omega
  · rw [if_neg h]
    refine ⟨hp, by show (-1 : Int) ≤ -1; decide, by show (-1 : Int) ≤ 10; decide, rfl, ?_⟩
    intro loc hloc
    have : loc ∈ List.take 0 (List.replicate 10 (0 : Int)) := hloc
    simp at this

/-- C17. For every buffer of `120 * k` bytes and every `decode_rs_char` that keeps the
contract of the library (count `-1 .. 10`, locators `0 .. 254`), `DecodeSuperframe`
completes without an access outside the buffer and returns a buffer of the same length
in which the byte at `pos * k + i` is the scratch byte `rs_packet[pos]` of codeword `i`
when `pos + 135` is one of the first `corr_count` locators of that codeword and the byte
of before otherwise. So a byte that changed lies at an index `pos * k + i` whose
codeword has a count above `j >= 0` with locator `j` equal to `pos + 135`, a locator
below 135 writes nothing, and a codeword reported with `-1` is left as it was. -/
theorem rs_writes_reported_only (dec : List Byte → RSResult) (hdec : RSContract dec)
    (sf : List Byte) (k : Nat) (hlen : sf.length = 120 * k) :
    ∃ p, RSDecoder.DecodeSuperframe dec sf sf.length = some p ∧ p.sf.length = sf.length ∧
      (∀ i pos, i < k → pos < 120 →
        pos * k + i < sf.length ∧
        p.sf.getD (pos * k + i) 0 =
          if reported (dec (codeword sf k i)) pos = true
          then (dec (codeword sf k i)).rs_packet.getD pos 0
          else sf.getD (pos * k + i) 0) ∧
      (∀ idx, p.sf.getD idx 0 ≠ sf.getD idx 0 →
        idx < 120 * k ∧ idx = idx / k * k + idx % k ∧ idx % k < k ∧ idx / k < 120 ∧
        ∃ j : Nat, (j : Int) < (dec (codeword sf k (idx % k))).corr_count ∧
          (dec (codeword sf k (idx % k))).corr_pos[j]? = some (((idx / k : Nat) : Int) + 135) ∧
          p.sf.getD idx 0 = (dec (codeword sf k (idx % k))).rs_packet.getD (idx / k) 0) ∧
      (∀ i pos : Nat, i < k → pos < 120 →
        (∀ (j : Nat) (loc : Int), (j : Int) < (dec (codeword sf k i)).corr_count →
          (dec (codeword sf k i)).corr_pos[j]? = some loc → loc < 135 ∨ loc ≠ (pos : Int) + 135) →
        p.sf.getD (pos * k + i) 0 = sf.getD (pos * k + i) 0) ∧
      (∀ i, i < k → (dec (codeword sf k i)).corr_count = -1 →
        codeword p.sf k i = codeword sf k i) := by
  obtain ⟨p, hp, hpl, hget, -, -⟩ := DecodeSuperframe_spec dec hdec sf k hlen
  have hat : ∀ i pos, i < k → pos < 120 →
      pos * k + i < 120 * k ∧
      p.sf.getD (pos * k + i) 0 =
        if reported (dec (codeword sf k i)) pos = true
        then (dec (codeword sf k i)).rs_packet.getD pos 0
        else sf.getD (pos * k + i) 0 := by
    intro i pos hi hpos
    have hb : pos * k + i < 120 * k := by
      have : pos * k ≤ 119 * k := Nat.mul_le_mul_right _ (by omega)
      omega
    have := hget (pos * k + i) hb
    rw [stride_mod pos k i hi, stride_div pos k i hi] at this
    exact ⟨hb, this⟩
  refine ⟨p, hp, hpl, ?_, ?_, ?_, ?_⟩
  · intro i pos hi hpos
    obtain ⟨h1, h2⟩ := hat i pos hi hpos
    exact ⟨by rw [hlen]; exact h1, h2⟩
  · intro idx hne
    have hidx : idx < 120 * k := by
      by_contra hge
      apply hne
      rw [getD_beyond p.sf idx (by rw [hpl, hlen]; omega),
        getD_beyond sf idx (by rw [hlen]; omega)]
    have hkpos : 0 < k := by
      rcases Nat.eq_zero_or_pos k with h0 | h0
      · rw [h0] at hidx; omega
      · exact h0
    have hq : idx / k < 120 := by
      rw [Nat.div_lt_iff_lt_mul hkpos]; exact hidx
    have hg := hget idx hidx
    by_cases hr : reported (dec (codeword sf k (idx % k))) (idx / k) = true
    · rw [if_pos hr] at hg
      obtain ⟨j, hj, hloc⟩ := (reported_iff _ _).mp hr
      exact ⟨hidx, (stride_eq idx k).symm, Nat.mod_lt _ hkpos, hq, j, by omega, hloc, hg⟩
    · rw [if_neg hr] at hg
      exact absurd hg hne
  · intro i pos hi hpos hnone
    obtain ⟨-, h2⟩ := hat i pos hi hpos
    rw [h2, if_neg]
    intro hr
    obtain ⟨j, hj, hloc⟩ := (reported_iff _ _).mp hr
    rcases hnone j _ (by omega) hloc with h | h
    · omega
    · exact h rfl
  · intro i hi hc
    apply codeword_congr _ _ _ _ hi
    intro idx hm
    by_cases hidx : idx < 120 * k
    · rw [hget idx hidx, hm, reported_uncorrectable _ _ hc]
      simp
    · rw [getD_beyond p.sf idx (by rw [hpl, hlen]; omega),
        getD_beyond sf idx (by rw [hlen]; omega)]

set_option maxRecDepth 100000 in
/-- Witness for C17: the sample decoder on the sample buffer with two altered bytes. -/
theorem rs_writes_reported_only_witness :
    ∃ p, RSDecoder.DecodeSuperframe rsZeroCode damagedBuffer damagedBuffer.length = some p ∧
      p.sf.length = damagedBuffer.length ∧
      (∀ i pos, i < 2 → pos < 120 →
        pos * 2 + i < damagedBuffer.length ∧
        p.sf.getD (pos * 2 + i) 0 =
          if reported (rsZeroCode (codeword damagedBuffer 2 i)) pos = true
          then (rsZeroCode (codeword damagedBuffer 2 i)).rs_packet.getD pos 0
          else damagedBuffer.getD (pos * 2 + i) 0) ∧
      (∀ idx, p.sf.getD idx 0 ≠ damagedBuffer.getD idx 0 →
        idx < 120 * 2 ∧ idx = idx / 2 * 2 + idx % 2 ∧ idx % 2 < 2 ∧ idx / 2 < 120 ∧
        ∃ j : Nat, (j : Int) < (rsZeroCode (codeword damagedBuffer 2 (idx % 2))).corr_count ∧
          (rsZeroCode (codeword damagedBuffer 2 (idx % 2))).corr_pos[j]?
            = some (((idx / 2 : Nat) : Int) + 135) ∧
          p.sf.getD idx 0
            = (rsZeroCode (codeword damagedBuffer 2 (idx % 2))).rs_packet.getD (idx / 2) 0) ∧
      (∀ i pos : Nat, i < 2 → pos < 120 →
        (∀ (j : Nat) (loc : Int),
          (j : Int) < (rsZeroCode (codeword damagedBuffer 2 i)).corr_count →
          (rsZeroCode (codeword damagedBuffer 2 i)).corr_pos[j]? = some loc →
          loc < 135 ∨ loc ≠ (pos : Int) + 135) →
        p.sf.getD (pos * 2 + i) 0 = damagedBuffer.getD (pos * 2 + i) 0) ∧
      (∀ i, i < 2 → (rsZeroCode (codeword damagedBuffer 2 i)).corr_count = -1 →
        codeword p.sf 2 i = codeword damagedBuffer 2 i) :=
  rs_writes_reported_only rsZeroCode rsZeroCode_contract damagedBuffer 2 (by decide)

set_option maxRecDepth 100000 in
/-- The sample decoder on the sample buffer with two altered bytes: both are written
back as zero and counted. -/
theorem rs_sample_run :
    (RSDecoder.DecodeSuperframe rsZeroCode damagedBuffer 240).map
        (fun p => (p.sf, p.total_corr_count, p.uncorr_errors))
      = some (zeroBuffer, 2, false) ∧
    damagedBuffer.getD 5 0 = 7 ∧ damagedBuffer.getD 9 0 = 1 ∧
    (rsZeroCode (codeword damagedBuffer 2 1)).corr_count = 2 ∧
    (rsZeroCode (codeword damagedBuffer 2 1)).corr_pos.take 2 = [137, 139] := by
  decide

/-! ### Correcting up to five errors of one codeword -/

theorem codeword_getD (sf : List Byte) (k i pos : Nat) (hpos : pos < 120) :
    (codeword sf k i).getD pos 0 = sf.getD (pos * k + i) 0 := by
  unfold codeword
  rw [List.getD_eq_getElem?_getD, List.getElem?_map, List.getElem?_range hpos]
  rfl

theorem distance_self (c : List Byte) : distance c c = 0 := by
  unfold distance
  rw [List.countP_eq_zero]
  intro pos _
  simp

theorem ext_getD (a b : List Byte) (hl : a.length = b.length)
    (h : ∀ idx, idx < a.length → a.getD idx 0 = b.getD idx 0) : a = b := by
  apply List.ext_getElem hl
  intro n h1 h2
  have := h n h1
  rw [List.getD_eq_getElem _ _ h1, List.getD_eq_getElem _ _ h2] at this
  exact this

theorem sum_map_zero (l : List Nat) (f : Nat → Int) (hz : ∀ i ∈ l, f i = 0) :
    (l.map f).sum = 0 := by
  induction l with
  | nil => rfl
  | cons x xs ih =>
    rw [List.map_cons, List.sum_cons, hz x (List.mem_cons_self _ _),
      ih (fun i hi => hz i (List.mem_cons_of_mem _ hi))]
    rfl

theorem sum_map_single (l : List Nat) (f : Nat → Int) (i0 : Nat) (hnd : l.Nodup)
    (hmem : i0 ∈ l) (hz : ∀ i ∈ l, i ≠ i0 → f i = 0) : (l.map f).sum = f i0 := by
  induction l with
  | nil => exact absurd hmem (by simp)
  | cons x xs ih =>
    have hnx : x ∉ xs := (List.nodup_cons.mp hnd).1
    have hnd2 : xs.Nodup := (List.nodup_cons.mp hnd).2
    rw [List.map_cons, List.sum_cons]
    by_cases hx : x = i0
    · subst hx
      rw [sum_map_zero xs f (fun i hi => hz i (List.mem_cons_of_mem _ hi)
        (fun e => hnx (e ▸ hi)))]
      omega
    · have hm2 : i0 ∈ xs := by
        rcases List.mem_cons.mp hmem with h | h
        · exact absurd h.symm hx
        · exact h
      rw [hz x (List.mem_cons_self _ _) hx,
        ih hnd2 hm2 (fun i hi => hz i (List.mem_cons_of_mem _ hi))]
      omega

/-- Among `k` consecutive indices only the one of residue `i0` can count. -/
theorem countP_block (Q : Nat → Bool) (i0 : Nat) :
    ∀ k, i0 < k → (∀ i, i < k → i ≠ i0 → Q i = false) →
      (List.range k).countP Q = (if Q i0 = true then 1 else 0) := by
  intro k
  induction k with
  | zero => intro h; omega
  | succ k ih =>
    intro hi hz
    rw [List.range_succ, List.countP_append]
    by_cases hlt : i0 < k
    · rw [ih hlt (fun i h1 h2 => hz i (by omega) h2), List.countP_singleton,
        hz k (by omega) (by omega)]
      simp
    · have hk : i0 = k := by omega
      have h0 : (List.range k).countP Q = 0 := by
        rw [List.countP_eq_zero]
        intro i hi2
        have := List.mem_range.mp hi2
        rw [hz i (by omega) (by omega)]
        simp
      rw [h0, List.countP_singleton, hk]
      simp

/-- Counting over the indices of an interleaved buffer a property that only holds in
codeword `i0` is counting over the positions of that codeword. -/
theorem countP_stride (P : Nat → Bool) (k i0 : Nat) (hi0 : i0 < k)
    (hz : ∀ idx, idx % k ≠ i0 → P idx = false) :
    ∀ n, (List.range (n * k)).countP P
      = (List.range n).countP (fun pos => P (pos * k + i0)) := by
  intro n
  induction n with
  | zero => simp
  | succ n ih =>
    rw [Nat.succ_mul, List.range_add, List.countP_append, ih, List.range_succ,
      List.countP_append, List.countP_singleton, List.countP_map]
    congr 1
    have hb := countP_block (P ∘ fun x => n * k + x) i0 k hi0 (fun i h1 h2 => by
      show P (n * k + i) = false
      apply hz
      rw [stride_mod n k i h1]
      exact h2)
    rw [hb]
    rfl

theorem alteredBytes_eq_distance (a b : List Byte) (k i0 : Nat) (hi0 : i0 < k)
    (hsame : ∀ idx, idx < 120 * k → idx % k ≠ i0 → b.getD idx 0 = a.getD idx 0)
    (hla : a.length = 120 * k) (hlb : b.length = 120 * k) :
    alteredBytes (120 * k) a b = distance (codeword a k i0) (codeword b k i0) := by
  unfold alteredBytes distance
  have hz : ∀ idx, idx % k ≠ i0 → decide (a.getD idx 0 ≠ b.getD idx 0) = false := by
    intro idx hne
    rw [decide_eq_false_iff_not, not_not]
    by_cases hidx : idx < 120 * k
    · exact (hsame idx hidx hne).symm
    · rw [getD_beyond a idx (by omega), getD_beyond b idx (by omega)]
  rw [countP_stride (fun idx => decide (a.getD idx 0 ≠ b.getD idx 0)) k i0 hi0 hz 120]
  apply List.countP_congr
  intro pos hpos
  have hp : pos < 120 := List.mem_range.mp hpos
  rw [codeword_getD a k i0 pos hp, codeword_getD b k i0 pos hp]

theorem rsZeroCode_reported (q : List Byte) (pos : Nat)
    (h : (nonZeroPositions q).length ≤ 5) :
    reported (rsZeroCode q) pos = true ↔ pos ∈ nonZeroPositions q := by
  rw [reported_iff]
  unfold rsZeroCode
  rw [if_pos h]
  show (∃ j, j < (nonZeroPositions q).length ∧
    ((nonZeroPositions q).map (fun (pos : Nat) => (pos : Int) + 135)
      ++ List.replicate (10 - (nonZeroPositions q).length) 0)[j]? = some ((pos : Int) + 135)) ↔ _
  rw [List.mem_iff_getElem?]
  constructor
  · rintro ⟨j, hj, he⟩
    rw [List.getElem?_append_left (by rw [List.length_map]; exact hj), List.getElem?_map] at he
    cases hx : (nonZeroPositions q)[j]? with
    | none => rw [hx] at he; exact absurd he (by simp)
    | some x =>
      rw [hx] at he
      have he2 : (x : Int) + 135 = (pos : Int) + 135 := Option.some.inj he
      exact ⟨j, by rw [hx]; congr 1; omega⟩
  · rintro ⟨j, he⟩
    have hj : j < (nonZeroPositions q).length := by
      by_contra hge
      rw [List.getElem?_eq_none (by omega)] at he
      exact absurd he (by simp)
    refine ⟨j, hj, ?_⟩
    rw [List.getElem?_append_left (by rw [List.length_map]; exact hj), List.getElem?_map, he]
    rfl

theorem replicate_getD (pos : Nat) : (List.replicate 120 (0 : Byte)).getD pos 0 = 0 := by
  rw [List.getD_eq_getElem?_getD, List.getElem?_replicate]
  split_ifs <;> rfl

theorem rsZeroCode_correct : CorrectRS zeroCode rsZeroCode := by
  intro c q hv hc hq hd
  have hv2 : c = List.replicate 120 0 := hv
  subst hv2
  rw [← nonZeroPositions_length] at hd ⊢
  refine ⟨?_, ?_, ?_⟩
  · unfold rsZeroCode; rw [if_pos hd]
  · unfold rsZeroCode; rw [if_pos hd]
  · intro pos hpos
    rw [rsZeroCode_reported q pos hd, nonZeroPositions_mem, replicate_getD]
    exact ⟨fun h => h.2, fun h => ⟨hpos, h⟩⟩

/-- With a correct decoder, the byte written back or kept at a position of a packet
within 5 symbols of a codeword is the byte of the codeword. -/
theorem corrected_byte (Valid : List Byte → Prop) (dec : List Byte → RSResult)
    (hcorrect : CorrectRS Valid dec) (c q : List Byte) (hv : Valid c) (hc : c.length = 120)
    (hq : q.length = 120) (hd : distance c q ≤ 5) (pos : Nat) (hpos : pos < 120) :
    (if reported (dec q) pos = true then (dec q).rs_packet.getD pos 0 else q.getD pos 0)
      = c.getD pos 0 := by
  obtain ⟨h1, -, h3⟩ := hcorrect c q hv hc hq hd
  by_cases hr : reported (dec q) pos = true
  · rw [if_pos hr, h1]
  · rw [if_neg hr]
    by_contra hne
    exact hr ((h3 pos hpos).mpr hne)

/-- C13. Assume `decode_rs_char` keeps the contract of the library and is a correct
in-place decoder for the code, reporting the locator `position + 135` of each corrected
symbol. Take a buffer `sf` of `120 * k` bytes whose `k` interleaved codewords (codeword
`i` being the bytes at `pos * k + i`, `pos = 0 .. 119`) are all valid, and a buffer
`sf1` that differs from it at no more than 5 bytes, all of codeword `i0`. Then
`DecodeSuperframe` on `sf1` returns exactly `sf`, with the flag for uncorrectable errors
not set and the total of corrections equal to the number of altered bytes. The map
`(pos, i) -> pos * k + i` is a bijection between `[0,120) x [0,k)` and the indices of the
buffer. -/
theorem rs_corrects_five_errors (Valid : List Byte → Prop) (dec : List Byte → RSResult)
    (hdec : RSContract dec) (hcorrect : CorrectRS Valid dec) (k : Nat)
    (sf sf1 : List Byte) (hlen : sf.length = 120 * k) (hlen1 : sf1.length = 120 * k)
    (hvalid : ∀ i, i < k → Valid (codeword sf k i)) (i0 : Nat) (hi0 : i0 < k)
    (hsame : ∀ idx, idx < 120 * k → idx % k ≠ i0 → sf1.getD idx 0 = sf.getD idx 0)
    (herr : alteredBytes (120 * k) sf sf1 ≤ 5) :
    (∃ p, RSDecoder.DecodeSuperframe dec sf1 sf1.length = some p ∧ p.sf = sf ∧
      p.uncorr_errors = false ∧
      p.total_corr_count = (alteredBytes (120 * k) sf sf1 : Int)) ∧
    alteredBytes (120 * k) sf sf1 = distance (codeword sf k i0) (codeword sf1 k i0) ∧
    (∀ idx, idx < 120 * k → idx / k < 120 ∧ idx % k < k ∧ idx / k * k + idx % k = idx) ∧
    (∀ pos i, pos < 120 → i < k →
      pos * k + i < 120 * k ∧ (pos * k + i) / k = pos ∧ (pos * k + i) % k = i) := by
  have hkpos : 0 < k := by omega
  have halt := alteredBytes_eq_distance sf sf1 k i0 hi0 hsame hlen hlen1
  have hother : ∀ i, i < k → i ≠ i0 → codeword sf1 k i = codeword sf k i := by
    intro i hi hne
    apply codeword_congr _ _ _ _ hi
    intro idx hm
    by_cases hidx : idx < 120 * k
    · exact hsame idx hidx (by rw [hm]; exact hne)
    · rw [getD_beyond sf1 idx (by omega), getD_beyond sf idx (by omega)]
  have hdist : ∀ i, i < k → distance (codeword sf k i) (codeword sf1 k i) ≤ 5 := by
    intro i hi
    by_cases hne : i = i0
    · rw [hne, ← halt]; exact herr
    · rw [hother i hi hne, distance_self]; omega
  have hres : ∀ i, i < k →
      (dec (codeword sf1 k i)).rs_packet = codeword sf k i ∧
      (dec (codeword sf1 k i)).corr_count = distance (codeword sf k i) (codeword sf1 k i) :=
    fun i hi =>
      ⟨(hcorrect _ _ (hvalid i hi) (codeword_length _ _ _) (codeword_length _ _ _)
        (hdist i hi)).1,
       (hcorrect _ _ (hvalid i hi) (codeword_length _ _ _) (codeword_length _ _ _)
        (hdist i hi)).2.1⟩
  obtain ⟨p, hp, hpl, hget, htot, hunc⟩ := DecodeSuperframe_spec dec hdec sf1 k hlen1
  refine ⟨⟨p, hp, ?_, ?_, ?_⟩, halt, ?_, ?_⟩
  · apply ext_getD _ _ (by rw [hpl, hlen1, hlen])
    intro idx hidx
    have hidx2 : idx < 120 * k := by rw [hpl, hlen1] at hidx; exact hidx
    have hm : idx % k < k := Nat.mod_lt _ hkpos
    have hq : idx / k < 120 := by rw [Nat.div_lt_iff_lt_mul hkpos]; exact hidx2
    have hcb := corrected_byte Valid dec hcorrect (codeword sf k (idx % k))
      (codeword sf1 k (idx % k)) (hvalid _ hm) (codeword_length _ _ _)
      (codeword_length _ _ _) (hdist _ hm) (idx / k) hq
    rw [codeword_getD sf1 k _ _ hq, codeword_getD sf k _ _ hq, stride_eq] at hcb
    rw [hget idx hidx2]
    exact hcb
  · rw [hunc, List.any_eq_false]
    intro i hi
    have hi2 := List.mem_range.mp hi
    rw [(hres i hi2).2]
    simp only [decide_eq_true_iff]
    omega
  · rw [htot, sum_map_single (List.range k) _ i0 (List.nodup_range k)
      (List.mem_range.mpr hi0)]
    · unfold countedCorrections
      rw [(hres i0 hi0).2, halt, if_neg (by omega)]
    · intro i hi hne
      have hi2 := List.mem_range.mp hi
      unfold countedCorrections
      rw [(hres i hi2).2, hother i hi2 hne, distance_self]
      simp
  · intro idx hidx
    exact ⟨by rw [Nat.div_lt_iff_lt_mul hkpos]; exact hidx, Nat.mod_lt _ hkpos,
      stride_eq idx k⟩
  · intro pos i hpos hi
    have : pos * k ≤ 119 * k := Nat.mul_le_mul_right _ (by omega)
    exact ⟨by omega, stride_div pos k i hi, stride_mod pos k i hi⟩

set_option maxRecDepth 100000 in
/-- Witness for C13: the sample decoder on the sample buffer of two codewords with two
altered bytes in codeword 1. -/
theorem rs_corrects_five_errors_witness :
    (∃ p, RSDecoder.DecodeSuperframe rsZeroCode damagedBuffer damagedBuffer.length = some p ∧
      p.sf = zeroBuffer ∧ p.uncorr_errors = false ∧
      p.total_corr_count = (alteredBytes (120 * 2) zeroBuffer damagedBuffer : Int)) ∧
    alteredBytes (120 * 2) zeroBuffer damagedBuffer
      = distance (codeword zeroBuffer 2 1) (codeword damagedBuffer 2 1) ∧
    (∀ idx, idx < 120 * 2 → idx / 2 < 120 ∧ idx % 2 < 2 ∧ idx / 2 * 2 + idx % 2 = idx) ∧
    (∀ pos i, pos < 120 → i < 2 →
      pos * 2 + i < 120 * 2 ∧ (pos * 2 + i) / 2 = pos ∧ (pos * 2 + i) % 2 = i) :=
  rs_corrects_five_errors zeroCode rsZeroCode rsZeroCode_contract rsZeroCode_correct 2
    zeroBuffer damagedBuffer (by decide) (by decide) (by decide) 1 (by decide) (by decide)
    (by decide)

/-! ### PAD calls and a codec that throws -/

theorem padPairedUntilThrow_quiet_cons (th : List Byte → Bool) (e : Event) (l : List Event)
    (h : e.isDecodeFrame = false ∧ e.isProcessPAD = false) :
    padPairedUntilThrow th (e :: l) = padPairedUntilThrow th l := by
  cases e <;> simp_all [padPairedUntilThrow, Event.isDecodeFrame, Event.isProcessPAD]

theorem padPairedUntilThrow_quiet_append (th : List Byte → Bool) (pre l : List Event)
    (h : ∀ e ∈ pre, e.isDecodeFrame = false ∧ e.isProcessPAD = false) :
    padPairedUntilThrow th (pre ++ l) = padPairedUntilThrow th l := by
  induction pre with
  | nil => rfl
  | cons e es ih =>
    rw [List.cons_append, padPairedUntilThrow_quiet_cons th e _ (h e (List.mem_cons_self _ _))]
    exact ih (fun x hx => h x (List.mem_cons_of_mem _ hx))

theorem isThrownFrame_quiet (th : List Byte → Bool) (e : Event)
    (h : e.isDecodeFrame = false) : e.isThrownFrame th = false := by
  cases e <;> simp_all [Event.isThrownFrame, Event.isDecodeFrame]

theorem countP_thrown_quiet (th : List Byte → Bool) (l : List Event)
    (h : ∀ e ∈ l, e.isDecodeFrame = false ∧ e.isProcessPAD = false) :
    l.countP (Event.isThrownFrame th) = 0 :=
  countP_zero_of_kinds _ _ (fun e he => isThrownFrame_quiet th e (h e he).1)

theorem quiet_counts (th : List Byte → Bool) (e : Event) (es : List Event)
    (h : e.isDecodeFrame = false ∧ e.isProcessPAD = false) :
    (e :: es).countP Event.isProcessPAD = es.countP Event.isProcessPAD ∧
    (e :: es).countP Event.isDecodeFrame = es.countP Event.isDecodeFrame ∧
    (e :: es).countP (Event.isThrownFrame th) = es.countP (Event.isThrownFrame th) := by
  have h3 := isThrownFrame_quiet th e h.1
  simp [List.countP_cons, h.1, h.2, h3]

/-- In a trace where every returning `DecodeFrame` is followed by its `ProcessPAD` and a
throwing one is last: the `ProcessPAD` calls are as many as the `DecodeFrame` calls that
returned, at most one `DecodeFrame` call threw, and without one every `DecodeFrame` is
followed by a `ProcessPAD`. -/
theorem padPairedUntilThrow_counts_aux (th : List Byte → Bool) (n : Nat) :
    ∀ l : List Event, l.length ≤ n → padPairedUntilThrow th l = true →
      l.countP Event.isProcessPAD + l.countP (Event.isThrownFrame th)
        = l.countP Event.isDecodeFrame ∧
      l.countP (Event.isThrownFrame th) ≤ 1 ∧
      (l.countP (Event.isThrownFrame th) = 0 → padPaired l = true) := by
  induction n with
  | zero =>
    intro l hl _
    have : l = [] := List.length_eq_zero.mp (by omega)
    subst this
    exact ⟨rfl, by simp, fun _ => rfl⟩
  | succ n ih =>
    intro l hl h
    cases l with
    | nil => exact ⟨rfl, by simp, fun _ => rfl⟩
    | cons e es =>
      simp only [List.length_cons] at hl
      by_cases hq : e.isDecodeFrame = false ∧ e.isProcessPAD = false
      · rw [padPairedUntilThrow_quiet_cons th e es hq] at h
        obtain ⟨c1, c2, c3⟩ := quiet_counts th e es hq
        obtain ⟨i1, i2, i3⟩ := ih es (by omega) h
        rw [c1, c2, c3, padPaired_quiet_cons e es hq]
        exact ⟨i1, i2, i3⟩
      · cases e with
        | DecodeFrame d =>
          cases es with
          | nil =>
            have hd : th d = true := by simpa [padPairedUntilThrow] using h
            simp [List.countP_cons, Event.isProcessPAD, Event.isDecodeFrame,
              Event.isThrownFrame, hd]
          | cons e2 es2 =>
            simp only [List.length_cons] at hl
            cases e2 with
            | ProcessPAD x m f =>
              simp only [padPairedUntilThrow, Bool.and_eq_true, Bool.not_eq_true'] at h
              obtain ⟨i1, i2, i3⟩ := ih es2 (by omega) h.2
              have hd := h.1
              refine ⟨?_, ?_, ?_⟩
              · simp only [List.countP_cons, Event.isProcessPAD, Event.isDecodeFrame,
                  Event.isThrownFrame, hd]
                simp only [Bool.false_eq_true, if_false, if_true]
                omega
              · simp only [List.countP_cons, Event.isThrownFrame, hd]
                simp only [Bool.false_eq_true, if_false]
                omega
              · intro h0
                simp only [List.countP_cons, Event.isThrownFrame, hd] at h0
                simp only [Bool.false_eq_true, if_false] at h0
                simp only [padPaired]
                exact i3 (by omega)
            | _ => simp [padPairedUntilThrow] at h
        | ProcessPAD x m f => simp [padPairedUntilThrow] at h
        | _ => exact absurd ⟨rfl, rfl⟩ hq

theorem padPairedUntilThrow_counts (th : List Byte → Bool) (l : List Event)
    (h : padPairedUntilThrow th l = true) :
    l.countP Event.isProcessPAD + l.countP (Event.isThrownFrame th)
      = l.countP Event.isDecodeFrame ∧
    l.countP (Event.isThrownFrame th) ≤ 1 ∧
    (l.countP (Event.isThrownFrame th) = 0 → padPaired l = true) :=
  padPairedUntilThrow_counts_aux th l.length l (le_refl _) h

/-- The calls of the loop over the access units: every `DecodeFrame` that returns is
followed by its `ProcessPAD`, one that throws is the last call; a loop that ran to its
end has met no throwing `DecodeFrame`. -/
theorem processAUs_pairing (env : Env) (sf : List Byte) (T : Nat → Nat) (is : List Nat) :
    padPairedUntilThrow env.DecodeFrame_throws (processAUs env sf T is).1 = true ∧
    ((processAUs env sf T is).2 = true →
      (processAUs env sf T is).1.countP (Event.isThrownFrame env.DecodeFrame_throws) = 0) := by
  induction is with
  | nil => exact ⟨rfl, fun _ => rfl⟩
  | cons i is ih =>
    obtain ⟨ih1, ih2⟩ := ih
    unfold processAUs
    cases hp : processAU env sf T i with
    | none => exact ⟨rfl, fun h => absurd h (by simp)⟩
    | some r =>
      simp only [hp]
      rcases processAU_events env sf T i r hp with ⟨m, rfl⟩ | ⟨d, x, l, f, hd, rfl⟩ | ⟨d, hd, rfl⟩
      · simp only [if_true, List.singleton_append]
        rw [padPairedUntilThrow_quiet_cons env.DecodeFrame_throws (Event.Log m) _ ⟨rfl, rfl⟩,
          (quiet_counts env.DecodeFrame_throws (Event.Log m) _ ⟨rfl, rfl⟩).2.2]
        exact ⟨ih1, ih2⟩
      · simp only [if_true, List.cons_append, List.nil_append]
        constructor
        · simp only [padPairedUntilThrow, hd, Bool.not_false, Bool.true_and]
          exact ih1
        · intro hf
          have := ih2 hf
          simp only [List.countP_cons, Event.isThrownFrame, hd]
          simp only [Bool.false_eq_true, if_false]
          omega
      · simp only [Bool.false_eq_true, if_false]
        exact ⟨by simp only [padPairedUntilThrow, hd], fun h => absurd h (by simp)⟩

theorem formatCheck_quiet (s : SuperframeFilter) (b : Byte) :
    ∀ e ∈ (formatCheck s b).1, e.isDecodeFrame = false ∧ e.isProcessPAD = false := by
  intro e he
  unfold formatCheck ProcessFormat at he
  split_ifs at he <;> simp at he
  all_goals rcases he with rfl | rfl | rfl <;> exact ⟨rfl, rfl⟩

theorem rsStatistics_quiet (p : RSDecoder.Progress) :
    ∀ e ∈ rsStatistics p, e.isDecodeFrame = false ∧ e.isProcessPAD = false := by
  intro e he
  unfold rsStatistics at he
  split_ifs at he <;> simp at he
  subst he; exact ⟨rfl, rfl⟩

theorem syncFailure_quiet (s : SuperframeFilter) :
    ∀ e ∈ (syncFailure s).1, e.isDecodeFrame = false ∧ e.isProcessPAD = false := by
  intro e he
  unfold syncFailure at he
  split_ifs at he <;> simp at he
  subst he; exact ⟨rfl, rfl⟩

theorem pairing_quiet (th : List Byte → Bool) (l : List Event)
    (h : ∀ e ∈ l, e.isDecodeFrame = false ∧ e.isProcessPAD = false) :
    padPairedUntilThrow th l = true ∧ l.countP (Event.isThrownFrame th) = 0 := by
  have := padPairedUntilThrow_quiet_append th l [] h
  rw [List.append_nil] at this
  exact ⟨by rw [this]; rfl, countP_thrown_quiet th l h⟩

theorem pairing_quiet_append (th : List Byte → Bool) (pre l : List Event)
    (h : ∀ e ∈ pre, e.isDecodeFrame = false ∧ e.isProcessPAD = false) :
    padPairedUntilThrow th (pre ++ l) = padPairedUntilThrow th l ∧
    (pre ++ l).countP (Event.isThrownFrame th) = l.countP (Event.isThrownFrame th) := by
  refine ⟨padPairedUntilThrow_quiet_append th pre l h, ?_⟩
  rw [List.countP_append, countP_thrown_quiet th pre h, Nat.zero_add]

theorem syncSuccess_pairing (env : Env) (s : SuperframeFilter) :
    padPairedUntilThrow env.DecodeFrame_throws (syncSuccess env s).1 = true ∧
    ((syncSuccess env s).2.isSome = true →
      (syncSuccess env s).1.countP (Event.isThrownFrame env.DecodeFrame_throws) = 0) := by
  have hlog : ∀ e ∈ (if s.sync_frames ≠ 0 then
      [Event.Log (LogMsg.sync_succeeded s.sync_frames)] else []),
      e.isDecodeFrame = false ∧ e.isProcessPAD = false := by
    intro e he
    split_ifs at he <;> simp at he
    subst he; exact ⟨rfl, rfl⟩
  unfold syncSuccess
  cases h2 : s.sf[2]? with
  | none =>
    simp only [h2]
    exact ⟨(pairing_quiet _ _ hlog).1, fun _ => (pairing_quiet _ _ hlog).2⟩
  | some sf2 =>
    simp only [h2]
    have hpre : ∀ e ∈ (if s.sync_frames ≠ 0 then
        [Event.Log (LogMsg.sync_succeeded s.sync_frames)] else [])
        ++ (formatCheck { s with sync_frames := 0 } sf2).1,
        e.isDecodeFrame = false ∧ e.isProcessPAD = false := by
      intro e he
      rcases List.mem_append.mp he with he | he
      · exact hlog e he
      · exact formatCheck_quiet _ _ e he
    obtain ⟨q1, q2⟩ := pairing_quiet_append env.DecodeFrame_throws _
      (processAUs env (formatCheck { s with sync_frames := 0 } sf2).2.sf
        (formatCheck { s with sync_frames := 0 } sf2).2.au_start
        (List.range (formatCheck { s with sync_frames := 0 } sf2).2.num_aus)).1 hpre
    obtain ⟨a1, a2⟩ := processAUs_pairing env
      (formatCheck { s with sync_frames := 0 } sf2).2.sf
      (formatCheck { s with sync_frames := 0 } sf2).2.au_start
      (List.range (formatCheck { s with sync_frames := 0 } sf2).2.num_aus)
    rw [q1, q2]
    refine ⟨a1, ?_⟩
    intro hsome
    apply a2
    by_contra hf
    rw [if_neg hf] at hsome
    exact absurd hsome (by simp)

theorem decodeAttempt_pairing (env : Env) (s : SuperframeFilter) :
    padPairedUntilThrow env.DecodeFrame_throws (decodeAttempt env s).1 = true ∧
    ((decodeAttempt env s).2.isSome = true →
      (decodeAttempt env s).1.countP (Event.isThrownFrame env.DecodeFrame_throws) = 0) := by
  rcases decodeAttempt_cases env s with h | ⟨c, -, h⟩ | ⟨c, p, -, h⟩ | ⟨c, p, ok, s1, -, -, -, h⟩
  · rw [h]; exact ⟨rfl, fun _ => rfl⟩
  · rw [h]; exact ⟨rfl, fun _ => rfl⟩
  · rw [h]
    have hq : ∀ e ∈ Event.RSDecode c :: rsStatistics p,
        e.isDecodeFrame = false ∧ e.isProcessPAD = false := by
      intro e he
      rcases List.mem_cons.mp he with rfl | he
      · exact ⟨rfl, rfl⟩
      · exact rsStatistics_quiet p e he
    exact ⟨(pairing_quiet _ _ hq).1, fun _ => (pairing_quiet _ _ hq).2⟩
  · rw [h]
    have hq : ∀ e ∈ Event.RSDecode c :: (rsStatistics p ++ [Event.CheckSync ok]),
        e.isDecodeFrame = false ∧ e.isProcessPAD = false := by
      intro e he
      rcases List.mem_cons.mp he with rfl | he
      · exact ⟨rfl, rfl⟩
      · rcases List.mem_append.mp he with he | he
        · exact rsStatistics_quiet p e he
        · simp at he; subst he; exact ⟨rfl, rfl⟩
    have hsplit : Event.RSDecode c :: (rsStatistics p ++ Event.CheckSync ok ::
        (if ok = true then syncSuccess env s1 else syncFailure s1).1)
        = (Event.RSDecode c :: (rsStatistics p ++ [Event.CheckSync ok]))
          ++ (if ok = true then syncSuccess env s1 else syncFailure s1).1 := by
      simp
    show padPairedUntilThrow env.DecodeFrame_throws
        (Event.RSDecode c :: (rsStatistics p ++ Event.CheckSync ok ::
          (if ok = true then syncSuccess env s1 else syncFailure s1).1)) = true ∧
      ((if ok = true then syncSuccess env s1 else syncFailure s1).2.isSome = true →
        (Event.RSDecode c :: (rsStatistics p ++ Event.CheckSync ok ::
          (if ok = true then syncSuccess env s1 else syncFailure s1).1)).countP
            (Event.isThrownFrame env.DecodeFrame_throws) = 0)
    rw [hsplit]
    obtain ⟨q1, q2⟩ := pairing_quiet_append env.DecodeFrame_throws _
      (if ok = true then syncSuccess env s1 else syncFailure s1).1 hq
    rw [q1, q2]
    cases ok
    · simp only [Bool.false_eq_true, if_false]
      exact ⟨(pairing_quiet _ _ (syncFailure_quiet s1)).1,
        fun _ => (pairing_quiet _ _ (syncFailure_quiet s1)).2⟩
    · simp only [if_true]
      exact syncSuccess_pairing env s1

theorem Feed_pairing (env : Env) (s : SuperframeFilter) (data : List Byte) :
    padPairedUntilThrow env.DecodeFrame_throws (Feed env s data).1 = true ∧
    ((Feed env s data).2.isSome = true →
      (Feed env s data).1.countP (Event.isThrownFrame env.DecodeFrame_throws) = 0) := by
  rcases Feed_cases env s data with ⟨m, hF⟩ | ⟨x, hF⟩ | ⟨s1, hF, -⟩
  · rw [hF]; exact ⟨rfl, fun _ => rfl⟩
  · rw [hF]; exact ⟨rfl, fun _ => rfl⟩
  · rw [hF]; exact decodeAttempt_pairing env s1

set_option maxRecDepth 100000 in
/-- C9 as stated fails when `DecodeFrame` throws. With an AAC library that refuses the
frame, the `Feed` call completing the sample superframe passes the sync check and calls
`DecodeFrame` on the first access unit; the exception leaves `Feed` before `CheckForPAD`,
so the call makes one `DecodeFrame` call and no `ProcessPAD` call, and does not return.
With a library that takes the frames the same call makes two of each. -/
theorem pad_call_skipped_when_codec_throws :
    Event.CheckSync true ∈ (Feed envRefusing sampleHeld zeroFrame).1 ∧
    envRefusing.DecodeFrame_throws ((sampleSuperframe.drop 5).take 43) = true ∧
    (Feed envRefusing sampleHeld zeroFrame).1.getLast?
      = some (Event.DecodeFrame ((sampleSuperframe.drop 5).take 43)) ∧
    (Feed envRefusing sampleHeld zeroFrame).1.countP Event.isDecodeFrame = 1 ∧
    (Feed envRefusing sampleHeld zeroFrame).1.countP Event.isProcessPAD = 0 ∧
    padPaired (Feed envRefusing sampleHeld zeroFrame).1 = false ∧
    (Feed envRefusing sampleHeld zeroFrame).2.isNone = true ∧
    (Feed env0 sampleHeld zeroFrame).1.countP Event.isDecodeFrame = 2 ∧
    (Feed env0 sampleHeld zeroFrame).1.countP Event.isProcessPAD = 2 := by
  decide

/-- C9 (amended). For every payload `CheckForPAD` makes exactly one call, a
`ProcessPAD`; when no valid element is recognised (fewer than 3 bytes, or top three bits
of byte 0 not 4, or element length below 2, or element not inside the payload) that call
has the `NULL` pointer, length 0 and a fixed field of `FPAD_LEN` zero bytes. In the calls
of any `Feed` every `DecodeFrame` that returns is directly followed by a `ProcessPAD`, a
`DecodeFrame` that throws is the last call of all, and no `ProcessPAD` occurs elsewhere;
so the `ProcessPAD` calls are as many as the `DecodeFrame` calls that returned, and at
most one `DecodeFrame` call threw. A `Feed` that returns, and any `Feed` with a codec
that never throws, makes exactly as many `ProcessPAD` calls as `DecodeFrame` calls, one
directly after each. -/
theorem pad_call_after_returning_frame (env : Env) (s : SuperframeFilter)
    (frame payload : List Byte) :
    (∃ x l f, CheckForPAD payload = [Event.ProcessPAD x l f]) ∧
    ((payload.length < 3 ∨ (payload.getD 0 0).val >>> 5 ≠ 4 ∨ padLen payload < 2 ∨
        payload.length < padStart payload + padLen payload) →
      CheckForPAD payload = [Event.ProcessPAD none 0 (List.replicate FPAD_LEN 0)]) ∧
    ((List.replicate FPAD_LEN (0 : Byte)).length = FPAD_LEN ∧
      ∀ b ∈ List.replicate FPAD_LEN (0 : Byte), b = 0) ∧
    padPairedUntilThrow env.DecodeFrame_throws (Feed env s frame).1 = true ∧
    (Feed env s frame).1.countP Event.isProcessPAD
        + (Feed env s frame).1.countP (Event.isThrownFrame env.DecodeFrame_throws)
      = (Feed env s frame).1.countP Event.isDecodeFrame ∧
    (Feed env s frame).1.countP (Event.isThrownFrame env.DecodeFrame_throws) ≤ 1 ∧
    (∀ t, (Feed env s frame).2 = some t →
      padPaired (Feed env s frame).1 = true ∧
      (Feed env s frame).1.countP Event.isProcessPAD
        = (Feed env s frame).1.countP Event.isDecodeFrame) ∧
    ((∀ d, env.DecodeFrame_throws d = false) →
      padPaired (Feed env s frame).1 = true ∧
      (Feed env s frame).1.countP Event.isProcessPAD
        = (Feed env s frame).1.countP Event.isDecodeFrame) := by
  obtain ⟨hp, hret⟩ := Feed_pairing env s frame
  obtain ⟨c1, c2, c3⟩ := padPairedUntilThrow_counts env.DecodeFrame_throws _ hp
  refine ⟨CheckForPAD_single payload, ?_, ⟨List.length_replicate _ _, ?_⟩, hp, c1, c2, ?_, ?_⟩
  · intro h
    rw [CheckForPAD_eq, if_neg]
    unfold padPresent
    rw [decide_eq_true_eq]
    intro hp
    omega
  · intro b hb
    exact (List.mem_replicate.mp hb).2
  · intro t ht
    have h0 := hret (by rw [ht]; rfl)
    exact ⟨c3 h0, by omega⟩
  · intro hnever
    have h0 : (Feed env s frame).1.countP (Event.isThrownFrame env.DecodeFrame_throws) = 0 := by
      apply countP_zero_of_kinds
      intro e _
      cases e <;> simp [Event.isThrownFrame, hnever]
    exact ⟨c3 h0, by omega⟩

/-! ### A second Reed-Solomon pass -/

theorem padded_getD_low (q : List Byte) (loc : Nat) (h : loc < 135) :
    (padded q).getD loc 0 = 0 := by
  unfold padded
  rw [List.getD_eq_getElem?_getD, List.getElem?_append_left (by simpa using h),
    List.getElem?_replicate]
  simp [h]

theorem padded_getD_high (q : List Byte) (pos : Nat) :
    (padded q).getD (135 + pos) 0 = q.getD pos 0 := by
  unfold padded
  rw [List.getD_eq_getElem?_getD, List.getD_eq_getElem?_getD,
    List.getElem?_append_right (by simp)]
  simp

theorem drop_getD (c : List Byte) (pos : Nat) :
    (c.drop 135).getD pos 0 = c.getD (135 + pos) 0 := by
  rw [List.getD_eq_getElem?_getD, List.getD_eq_getElem?_getD, List.getElem?_drop]

/-- The distance between a 255-symbol word and a padded packet, split into the pad
symbols and the symbols of the packet. -/
theorem distance255_split (c q : List Byte) :
    distance255 c (padded q)
      = (List.range 135).countP (fun loc => decide (c.getD loc 0 ≠ 0))
        + (List.range 120).countP (fun pos => decide (c.getD (135 + pos) 0 ≠ q.getD pos 0)) := by
  unfold distance255
  have h255 : List.range 255 = List.range 135 ++ (List.range 120).map (fun x => 135 + x) :=
    List.range_add 135 120
  rw [h255, List.countP_append, List.countP_map]
  have e1 : (List.range 135).countP (fun loc => decide (c.getD loc 0 ≠ (padded q).getD loc 0))
      = (List.range 135).countP (fun loc => decide (c.getD loc 0 ≠ 0)) := by
    apply List.countP_congr
    intro loc hloc
    rw [padded_getD_low q loc (List.mem_range.mp hloc)]
  have e2 : (List.range 120).countP
        ((fun loc => decide (c.getD loc 0 ≠ (padded q).getD loc 0)) ∘ fun x => 135 + x)
      = (List.range 120).countP (fun pos => decide (c.getD (135 + pos) 0 ≠ q.getD pos 0)) := by
    apply List.countP_congr
    intro pos _
    simp only [Function.comp, padded_getD_high]
  rw [e1, e2]

theorem reported_eq_locator (r : RSResult) (pos : Nat) :
    reported r pos = reportedLocator r (135 + pos) := by
  have hcast : ((pos : Int) + 135) = ((135 + pos : Nat) : Int) := by
    push_cast; omega
  unfold reported reportedLocator
  rw [hcast]

/-- With a bounded-distance decoder of the shortened code: what a second run finds in a
codeword of the buffer left by a first run. It counts as many corrections as the first
run reported pad locators for this codeword, and reports no position of the packet. -/
theorem second_run_codeword (Valid : List Byte → Prop) (dec : List Byte → RSResult)
    (hs : ShortenedRS Valid dec) (k : Nat) (sf : List Byte) (p : RSDecoder.Progress)
    (hget : ∀ idx, idx < 120 * k → p.sf.getD idx 0 =
        if reported (dec (codeword sf k (idx % k))) (idx / k) = true
        then (dec (codeword sf k (idx % k))).rs_packet.getD (idx / k) 0
        else sf.getD idx 0)
    (i : Nat) (hi : i < k) :
    countedCorrections (dec (codeword p.sf k i))
      = (discardedLocators (dec (codeword sf k i)) : Int) ∧
    ∀ pos, pos < 120 → reported (dec (codeword p.sf k i)) pos = false := by
  have hcw : ∀ pos, pos < 120 → (codeword p.sf k i).getD pos 0 =
      if reported (dec (codeword sf k i)) pos = true
      then (dec (codeword sf k i)).rs_packet.getD pos 0
      else (codeword sf k i).getD pos 0 := by
    intro pos hpos
    have hbd : pos * k + i < 120 * k := by
      have : pos * k ≤ 119 * k := Nat.mul_le_mul_right _ (by omega)
      omega
    rw [codeword_getD p.sf k i pos hpos, codeword_getD sf k i pos hpos, hget _ hbd,
      stride_mod pos k i hi, stride_div pos k i hi]
  obtain ⟨hnear1, hfar1⟩ := hs (codeword sf k i) (codeword_length _ _ _)
  by_cases hnear : ∃ c, Valid c ∧ c.length = 255 ∧ distance255 c (padded (codeword sf k i)) ≤ 5
  · obtain ⟨c, hv, hc, hd⟩ := hnear
    obtain ⟨r1, r2, r3⟩ := hnear1 c hv hc hd
    -- the first run leaves the last 120 symbols of `c`
    have heq : codeword p.sf k i = c.drop 135 := by
      apply ext_getD _ _ (by rw [codeword_length, List.length_drop, hc])
      intro pos hpos
      rw [codeword_length] at hpos
      rw [hcw pos hpos, reported_eq_locator, r1, drop_getD]
      by_cases hr : reportedLocator (dec (codeword sf k i)) (135 + pos) = true
      · rw [if_pos hr]
      · rw [if_neg hr]
        by_contra hne
        apply hr
        rw [r3 (135 + pos) (by omega), padded_getD_high]
        exact fun e => hne e.symm
    -- the pad symbols of `c` that are not zero are the pad locators of the first run
    have hpad : (List.range 135).countP (fun loc => decide (c.getD loc 0 ≠ 0))
        = (List.range 135).countP (reportedLocator (dec (codeword sf k i))) := by
      apply List.countP_congr
      intro loc hloc
      have hl := List.mem_range.mp hloc
      rw [decide_eq_true_iff, r3 loc (by omega), padded_getD_low _ loc hl]
    have hd1 := distance255_split c (codeword sf k i)
    have hd2 : distance255 c (padded (c.drop 135))
        = (List.range 135).countP (fun loc => decide (c.getD loc 0 ≠ 0)) := by
      rw [distance255_split, Nat.add_right_eq_self, List.countP_eq_zero]
      intro pos _
      rw [drop_getD]
      simp
    have hdisc : discardedLocators (dec (codeword sf k i))
        = (List.range 135).countP (fun loc => decide (c.getD loc 0 ≠ 0)) := by
      unfold discardedLocators
      rw [if_neg (by rw [r2]; omega), hpad]
    have hd3 : distance255 c (padded (c.drop 135)) ≤ 5 := by omega
    rw [heq]
    obtain ⟨-, hfar2⟩ := hs (c.drop 135) (by rw [List.length_drop, hc])
    obtain ⟨hnear2, -⟩ := hs (c.drop 135) (by rw [List.length_drop, hc])
    obtain ⟨-, t2, t3⟩ := hnear2 c hv hc hd3
    constructor
    · unfold countedCorrections
      rw [if_neg (by rw [t2]; omega), t2, hd2, hdisc]
    · intro pos hpos
      rw [reported_eq_locator]
      cases hr : reportedLocator (dec (c.drop 135)) (135 + pos)
      · rfl
      · exfalso
        have := (t3 (135 + pos) (by omega)).mp hr
        rw [padded_getD_high, drop_getD] at this
        exact this rfl
  · have hc := hfar1 hnear
    have heq : codeword p.sf k i = codeword sf k i := by
      apply ext_getD _ _ (by rw [codeword_length, codeword_length])
      intro pos hpos
      rw [codeword_length] at hpos
      rw [hcw pos hpos, reported_uncorrectable _ _ hc]
      simp
    rw [heq]
    constructor
    · unfold countedCorrections discardedLocators
      rw [if_pos hc, if_pos hc]
      rfl
    · intro pos _
      exact reported_uncorrectable _ _ hc

theorem sum_natCast_eq_zero (l : List Nat) (f : Nat → Nat) :
    (l.map (fun i => (f i : Int))).sum = 0 ↔ ∀ i ∈ l, f i = 0 := by
  have hnn : ∀ l : List Nat, 0 ≤ (l.map (fun i => (f i : Int))).sum := by
    intro l
    induction l with
    | nil => simp
    | cons x xs ih =>
      rw [List.map_cons, List.sum_cons]
      omega
  induction l with
  | nil => simp
  | cons x xs ih =>
    rw [List.map_cons, List.sum_cons]
    have h1 := hnn xs
    constructor
    · intro h i hi
      rcases List.mem_cons.mp hi with rfl | hi
      · omega
      · exact ih.mp (by omega) i hi
    · intro h
      have h2 := h x (List.mem_cons_self _ _)
      have h3 := ih.mpr (fun i hi => h i (List.mem_cons_of_mem _ hi))
      omega

/-- C14 (amended). Assume `decode_rs_char` keeps the contract of the library and is a
bounded-distance decoder of the code shortened by 135 pad symbols, which may report pad
positions as locators below 135. Then for every buffer of `120 * k` bytes both runs of
`DecodeSuperframe` complete; the second run, made on the buffer produced by the first,
leaves the buffer unchanged; and the number of corrected symbols it reports is the
number of locators below 135 the first run was given in codewords it did not find
uncorrectable, the ones it counted and skipped. So the second run reports zero corrected
symbols exactly when the first run skipped no locator. -/
theorem rs_second_run_keeps_buffer (Valid : List Byte → Prop) (dec : List Byte → RSResult)
    (hdec : RSContract dec) (hs : ShortenedRS Valid dec) (k : Nat) (sf : List Byte)
    (hlen : sf.length = 120 * k) :
    ∃ p p2, RSDecoder.DecodeSuperframe dec sf sf.length = some p ∧
      RSDecoder.DecodeSuperframe dec p.sf p.sf.length = some p2 ∧
      p2.sf = p.sf ∧
      p2.total_corr_count
        = ((List.range k).map
            (fun i => (discardedLocators (dec (codeword sf k i)) : Int))).sum ∧
      (p2.total_corr_count = 0 ↔
        ∀ i, i < k → discardedLocators (dec (codeword sf k i)) = 0) := by
  obtain ⟨p, hp, hpl, hget, -, -⟩ := DecodeSuperframe_spec dec hdec sf k hlen
  have hlenp : p.sf.length = 120 * k := by rw [hpl, hlen]
  obtain ⟨p2, hp2, hpl2, hget2, htot2, -⟩ := DecodeSuperframe_spec dec hdec p.sf k hlenp
  have hq := second_run_codeword Valid dec hs k sf p hget
  have htot : p2.total_corr_count
      = ((List.range k).map
          (fun i => (discardedLocators (dec (codeword sf k i)) : Int))).sum := by
    rw [htot2]
    congr 1
    apply List.map_congr_left
    intro i hi
    exact (hq i (List.mem_range.mp hi)).1
  refine ⟨p, p2, hp, hp2, ?_, htot, ?_⟩
  · apply ext_getD _ _ hpl2
    intro idx hidx
    have hidx2 : idx < 120 * k := by rw [hpl2, hlenp] at hidx; exact hidx
    have hkpos : 0 < k := by
      rcases Nat.eq_zero_or_pos k with h0 | h0
      · rw [h0] at hidx2; omega
      · exact h0
    have hm : idx % k < k := Nat.mod_lt _ hkpos
    have hd : idx / k < 120 := by rw [Nat.div_lt_iff_lt_mul hkpos]; exact hidx2
    rw [hget2 idx hidx2, (hq _ hm).2 _ hd]
    simp
  · rw [htot, sum_natCast_eq_zero (List.range k)
      (fun i => discardedLocators (dec (codeword sf k i)))]
    exact ⟨fun h i hi => h i (List.mem_range.mpr hi), fun h i hi => h i (List.mem_range.mp hi)⟩

/-! ### The sample decoder of a shortened code -/

theorem positionsOff_mem (b : Byte) (q : List Byte) (pos : Nat) :
    pos ∈ positionsOff b q ↔ pos < 120 ∧ q.getD pos 0 ≠ b := by
  unfold positionsOff
  simp only [List.mem_filter, List.mem_range, decide_eq_true_iff]

theorem positionsOff_length (b : Byte) (q : List Byte) :
    (positionsOff b q).length
      = (List.range 120).countP (fun pos => decide (b ≠ q.getD pos 0)) := by
  unfold positionsOff
  rw [List.countP_eq_length_filter]
  congr 1
  apply List.filter_congr
  intro pos _
  rw [Bool.eq_iff_iff, decide_eq_true_iff, decide_eq_true_iff]
  exact ne_comm

theorem length_le_countP_add (P Q : Nat → Bool) (l : List Nat)
    (h : ∀ x ∈ l, P x = true ∨ Q x = true) : l.length ≤ l.countP P + l.countP Q := by
  induction l with
  | nil => simp
  | cons x xs ih =>
    have := ih (fun y hy => h y (List.mem_cons_of_mem _ hy))
    rw [List.length_cons, List.countP_cons, List.countP_cons]
    rcases h x (List.mem_cons_self _ _) with hx | hx
    · rw [if_pos hx]; split_ifs <;> omega
    · rw [if_pos hx]; split_ifs <;> omega

theorem positionsOff_cover (q : List Byte) :
    120 ≤ (positionsOff 0 q).length + (positionsOff 1 q).length := by
  have h := length_le_countP_add (fun pos => decide ((0 : Byte) ≠ q.getD pos 0))
    (fun pos => decide ((1 : Byte) ≠ q.getD pos 0)) (List.range 120) (by
      intro x _
      by_cases h0 : (0 : Byte) = q.getD x 0
      · right
        rw [decide_eq_true_iff, ← h0]
        decide
      · left
        rw [decide_eq_true_iff]
        exact h0)
  rw [List.length_range] at h
  rw [positionsOff_length, positionsOff_length]
  exact h

theorem reportedLocator_reportLocators (pkt : List Byte) (locs : List Int) (loc : Nat) :
    reportedLocator (reportLocators pkt locs) loc = true ↔ (loc : Int) ∈ locs := by
  unfold reportedLocator reportLocators
  simp only [Int.toNat_ofNat, List.any_eq_true, List.mem_range, decide_eq_true_iff]
  rw [List.mem_iff_getElem?]
  constructor
  · rintro ⟨j, hj, he⟩
    rw [List.getElem?_append_left hj] at he
    exact ⟨j, he⟩
  · rintro ⟨j, he⟩
    have hj : j < locs.length := by
      by_contra hge
      rw [List.getElem?_eq_none (by omega)] at he
      exact absurd he (by simp)
    exact ⟨j, hj, by rw [List.getElem?_append_left hj]; exact he⟩

theorem reportLocators_contract (pkt : List Byte) (locs : List Int) (hp : pkt.length = 120)
    (hl : locs.length ≤ 10) (hloc : ∀ loc ∈ locs, 0 ≤ loc ∧ loc ≤ 254) :
    (reportLocators pkt locs).rs_packet.length = 120 ∧
    -1 ≤ (reportLocators pkt locs).corr_count ∧ (reportLocators pkt locs).corr_count ≤ 10 ∧
    (reportLocators pkt locs).corr_pos.length = 10 ∧
    ∀ loc ∈ (reportLocators pkt locs).corr_pos.take
        (reportLocators pkt locs).corr_count.toNat, 0 ≤ loc ∧ loc ≤ 254 := by
  refine ⟨hp, ?_, ?_, ?_, ?_⟩
  · show (-1 : Int) ≤ (locs.length : Int); omega
  · show (locs.length : Int) ≤ 10; omega
  · show (locs ++ List.replicate (10 - locs.length) 0).length = 10
    rw [List.length_append, List.length_replicate]; omega
  · intro loc hm
    have hm2 : loc ∈ (locs ++ List.replicate (10 - locs.length) 0).take locs.length := by
      simpa [reportLocators] using hm
    rw [List.take_append_of_le_length (le_refl _), List.take_of_length_le (le_refl _)] at hm2
    exact hloc loc hm2

theorem shifted_mem (ps : List Nat) (loc : Nat) :
    (loc : Int) ∈ ps.map (fun (pos : Nat) => (pos : Int) + 135) ↔
      ∃ pos, pos ∈ ps ∧ loc = 135 + pos := by
  rw [List.mem_map]
  constructor
  · rintro ⟨pos, hpos, he⟩
    exact ⟨pos, hpos, by omega⟩
  · rintro ⟨pos, hpos, he⟩
    exact ⟨pos, hpos, by omega⟩

theorem rsPadCode_contract : RSContract rsPadCode := by
  intro q hq
  unfold rsPadCode
  by_cases h0 : (positionsOff 0 q).length ≤ 5
  · rw [if_pos h0]
    apply reportLocators_contract _ _ (List.length_replicate _ _)
    · rw [List.length_map]; omega
    · intro loc hloc
      obtain ⟨pos, hpos, rfl⟩ := List.mem_map.mp hloc
      have := ((positionsOff_mem 0 q pos).mp hpos).1
      constructor <;> omega
  · rw [if_neg h0]
    by_cases h1 : (positionsOff 1 q).length ≤ 4
    · rw [if_pos h1]
      apply reportLocators_contract _ _ (List.length_replicate _ _)
      · rw [List.length_cons, List.length_map]; omega
      · intro loc hloc
        rcases List.mem_cons.mp hloc with rfl | hloc
        · constructor <;> decide
        · obtain ⟨pos, hpos, rfl⟩ := List.mem_map.mp hloc
          have := ((positionsOff_mem 1 q pos).mp hpos).1
          constructor <;> omega
    · rw [if_neg h1]
      refine ⟨hq, by show (-1 : Int) ≤ -1; decide, by show (-1 : Int) ≤ 10; decide, rfl, ?_⟩
      intro loc hloc
      have : loc ∈ List.take 0 (List.replicate 10 (0 : Int)) := hloc
      simp at this

theorem zeros_getD (n i : Nat) : (List.replicate n (0 : Byte)).getD i 0 = 0 := by
  rw [List.getD_eq_getElem?_getD, List.getElem?_replicate]
  split_ifs <;> rfl

set_option maxRecDepth 100000 in
theorem padWord_symbols :
    (∀ loc, loc < 134 → padWord.getD loc 0 = 0) ∧ padWord.getD 134 0 = 1 ∧
    (∀ pos, pos < 120 → padWord.getD (135 + pos) 0 = 1) ∧
    (List.range 135).countP (fun loc => decide (padWord.getD loc 0 ≠ 0)) = 1 ∧
    padWord.length = 255 ∧ padWord.drop 135 = List.replicate 120 1 ∧
    (List.replicate 255 (0 : Byte)).drop 135 = List.replicate 120 0 := by
  decide

theorem distance255_zeros (q : List Byte) :
    distance255 (List.replicate 255 0) (padded q) = (positionsOff 0 q).length := by
  rw [distance255_split, positionsOff_length]
  have h1 : (List.range 135).countP
      (fun loc => decide ((List.replicate 255 (0 : Byte)).getD loc 0 ≠ 0)) = 0 := by
    rw [List.countP_eq_zero]
    intro loc _
    rw [zeros_getD]
    simp
  rw [h1, Nat.zero_add]
  apply List.countP_congr
  intro pos _
  rw [zeros_getD]

theorem distance255_padWord (q : List Byte) :
    distance255 padWord (padded q) = 1 + (positionsOff 1 q).length := by
  have e : (List.range 120).countP
        (fun pos => decide (padWord.getD (135 + pos) 0 ≠ q.getD pos 0))
      = (List.range 120).countP (fun pos => decide ((1 : Byte) ≠ q.getD pos 0)) := by
    apply List.countP_congr
    intro pos hpos
    rw [padWord_symbols.2.2.1 pos (List.mem_range.mp hpos)]
  rw [distance255_split, positionsOff_length, padWord_symbols.2.2.2.1, e]

theorem rsPadCode_shortened : ShortenedRS padCode rsPadCode := by
  intro q hq
  constructor
  · intro c hv hc hd
    rcases hv with rfl | rfl
    · rw [distance255_zeros] at hd ⊢
      unfold rsPadCode
      rw [if_pos hd]
      refine ⟨padWord_symbols.2.2.2.2.2.2.symm, ?_, ?_⟩
      · show (((positionsOff 0 q).map (fun (pos : Nat) => (pos : Int) + 135)).length : Int) = _
        rw [List.length_map]
      · intro loc hloc
        rw [reportedLocator_reportLocators, shifted_mem, zeros_getD]
        constructor
        · rintro ⟨pos, hpos, rfl⟩
          rw [padded_getD_high]
          exact fun e => ((positionsOff_mem 0 q pos).mp hpos).2 e.symm
        · intro hne
          by_cases hlow : loc < 135
          · rw [padded_getD_low q loc hlow] at hne
            exact absurd rfl hne
          · obtain ⟨pos, rfl⟩ : ∃ pos, loc = 135 + pos := ⟨loc - 135, by omega⟩
            rw [padded_getD_high] at hne
            exact ⟨pos, (positionsOff_mem 0 q pos).mpr ⟨by omega, fun e => hne e.symm⟩, rfl⟩
    · rw [distance255_padWord] at hd ⊢
      have hcov := positionsOff_cover q
      unfold rsPadCode
      rw [if_neg (by omega), if_pos (by omega)]
      refine ⟨padWord_symbols.2.2.2.2.2.1.symm, ?_, ?_⟩
      · show (((134 : Int) :: (positionsOff 1 q).map
            (fun (pos : Nat) => (pos : Int) + 135)).length : Int) = _
        rw [List.length_cons, List.length_map]
        push_cast
        omega
      · intro loc hloc
        rw [reportedLocator_reportLocators, List.mem_cons, shifted_mem]
        constructor
        · rintro (h134 | ⟨pos, hpos, rfl⟩)
          · have hl : loc = 134 := by omega
            subst hl
            rw [padWord_symbols.2.1, padded_getD_low q 134 (by decide)]
            decide
          · have hp := (positionsOff_mem 1 q pos).mp hpos
            rw [padded_getD_high, padWord_symbols.2.2.1 pos hp.1]
            exact fun e => hp.2 e.symm
        · intro hne
          by_cases hlow : loc < 134
          · rw [padWord_symbols.1 loc hlow, padded_getD_low q loc (by omega)] at hne
            exact absurd rfl hne
          · by_cases h134 : loc = 134
            · left; rw [h134]; rfl
            · right
              obtain ⟨pos, rfl⟩ : ∃ pos, loc = 135 + pos := ⟨loc - 135, by omega⟩
              have hp : pos < 120 := by omega
              rw [padded_getD_high, padWord_symbols.2.2.1 pos hp] at hne
              exact ⟨pos, (positionsOff_mem 1 q pos).mpr ⟨hp, fun e => hne e.symm⟩, rfl⟩
  · intro hfar
    unfold rsPadCode
    by_cases h0 : (positionsOff 0 q).length ≤ 5
    · exfalso
      apply hfar
      exact ⟨List.replicate 255 0, Or.inl rfl, List.length_replicate _ _, by
        rw [distance255_zeros]; exact h0⟩
    · rw [if_neg h0]
      by_cases h1 : (positionsOff 1 q).length ≤ 4
      · exfalso
        apply hfar
        exact ⟨padWord, Or.inr rfl, padWord_symbols.2.2.2.2.1, by
          rw [distance255_padWord]; omega⟩
      · rw [if_neg h1]

set_option maxRecDepth 100000 in
/-- C14 as stated fails. `rsPadCode` keeps the contract of the library and is a
bounded-distance decoder of a code shortened by 135 pad symbols. On the sample buffer,
120 bytes equal to 1 but the byte 3, the nearest codeword has the pad symbol 134 set, so
the routine reports two locators: 134, in the pad region, and 138 for the byte 3. The
first run writes back the byte 3 and reports 2 corrected symbols. The second run, on the
buffer the first run produced, is given the locator 134 again, which `DecodeSuperframe`
counts before it skips it: it reports 1 corrected symbol, not zero, and leaves the buffer
unchanged. The packet of zeros, a codeword of the shortened code, is found free of
errors. -/
theorem rs_second_run_counts_pad_locator :
    (RSContract rsPadCode ∧ ShortenedRS padCode rsPadCode) ∧
    (rsPadCode (List.replicate 120 0)).corr_count = 0 ∧
    damagedOnes.length = 120 * 1 ∧
    (rsPadCode (codeword damagedOnes 1 0)).corr_count = 2 ∧
    (rsPadCode (codeword damagedOnes 1 0)).corr_pos.take 2 = [134, 138] ∧
    (RSDecoder.DecodeSuperframe rsPadCode damagedOnes 120).map
        (fun p => (p.sf, p.total_corr_count, p.uncorr_errors)) = some (onesBuffer, 2, false) ∧
    ((RSDecoder.DecodeSuperframe rsPadCode damagedOnes 120).bind
        (fun p => RSDecoder.DecodeSuperframe rsPadCode p.sf 120)).map
        (fun p => (p.sf, p.total_corr_count, p.uncorr_errors)) = some (onesBuffer, 1, false) ∧
    ((RSDecoder.DecodeSuperframe rsPadCode damagedOnes 120).bind
        (fun p => RSDecoder.DecodeSuperframe rsPadCode p.sf 120)).map
        (fun p => p.total_corr_count) ≠ some 0 :=
  ⟨⟨rsPadCode_contract, rsPadCode_shortened⟩, by decide, by decide, by decide, by decide,
    by decide, by decide, by decide⟩

set_option maxRecDepth 100000 in
/-- Witness for C14 (amended): the sample decoder of the shortened code on the sample
buffer with one altered byte. -/
theorem rs_second_run_keeps_buffer_witness :
    ∃ p p2, RSDecoder.DecodeSuperframe rsPadCode damagedOnes damagedOnes.length = some p ∧
      RSDecoder.DecodeSuperframe rsPadCode p.sf p.sf.length = some p2 ∧
      p2.sf = p.sf ∧
      p2.total_corr_count
        = ((List.range 1).map
            (fun i => (discardedLocators (rsPadCode (codeword damagedOnes 1 i)) : Int))).sum ∧
      (p2.total_corr_count = 0 ↔
        ∀ i, i < 1 → discardedLocators (rsPadCode (codeword damagedOnes 1 i)) = 0) :=
  rs_second_run_keeps_buffer padCode rsPadCode rsPadCode_contract rsPadCode_shortened 1
    damagedOnes (by decide)

end Dablin
